import Mathlib

/-!
# LakehouseBlogs.com: the grouping, sorting and filtering pipeline

A shallow embedding of the static generators (`generate.js`, `staticgen.js`) and of the
client scripts (`dist/index.js`, `dist/talk.js`, `dist/podcasts.js`, `podcasts.js`),
followed by theorems about them.

Conventions of the embedding.

* A JavaScript string is a `List Char` (`Str`).  On text of the Basic Multilingual Plane a
  character is one UTF-16 code unit, so `slice`, `includes` and the default sort order are
  the ones of the engine.
* A property read from a JSON object is a `Js α`: the property is absent (`undefined`),
  `null`, or holds a value.
* A number that may be `NaN` is an `Option Int`, `none` being `NaN`.
* `Date` is not code of the repository.  The functions that use it take a `DateEnv`: the
  parser behind `new Date(s)` and the local calendar year of a time value.  General theorems
  hold for every `DateEnv`; `isoEnv` is a concrete one for date-only ISO strings.
* `String.prototype.toLowerCase` and `String.prototype.localeCompare` are likewise
  parameters of the functions that call them; `asciiLower` and `codeUnitCompare` are
  concrete ones for the sample data, and `sigmaLower` is a lower-casing with the final sigma
  rule of Unicode.
* A call that may throw returns an `Option`, `none` being the exception.
* `Intl.DateTimeFormat` is a parameter too: `format` is the text it gives for a time value,
  and formatting an invalid date throws.
* A live renderer returns the content it puts in its root (`Rendered`, `Container`) where
  the script writes to the DOM.
* The regular expressions of the page assembly are written out as scans of the text
  (`leftmost`, `removeAll` and the functions with a name in `At`); the replacement texts go
  through `getSubstitution`, as `String.prototype.replace` does with them.
-/

namespace Lakehouse

/-! ## JavaScript values and built-ins -/

/-- A JavaScript string, as the list of its characters. -/
abbrev Str := List Char

/-- The value of a property read from a JSON object. -/
inductive Js (α : Type) where
  | undefined : Js α
  | null : Js α
  | val (a : α) : Js α
deriving DecidableEq, Repr

/-- ToBoolean of a property that holds a string: only a non-empty string is truthy. -/
def Js.truthy : Js Str → Bool
  | .val s => !s.isEmpty
  | _ => false

/-- The expression `x || []` on a property that holds an array (an array is always truthy). -/
def Js.orEmpty {α : Type} : Js (List α) → List α
  | .val l => l
  | _ => []

/-- The expression `x || d` on a property that holds a string. -/
def Js.orStr (x : Js Str) (d : Str) : Str :=
  match x with
  | .val s => if s.isEmpty then d else s
  | _ => d

/-- Subtraction of two numbers, `NaN` (`none`) being absorbing. -/
def numSub : Option Int → Option Int → Option Int
  | some a, some b => some (a - b)
  | _, _ => none

/-- The test `Array.prototype.sort` makes on a comparator result `v = cmp(a, b)`: `a` may stay
before `b` unless `v > 0`; a `NaN` result counts as `0`. -/
def sortLe {α : Type} (cmp : α → α → Option Int) (a b : α) : Bool :=
  match cmp a b with
  | some v => decide (v ≤ 0)
  | none => true

/-- The method `Array.prototype.sort(cmp)`.  The sort is stable (ECMAScript 2019), and for a
consistent comparator its result is the one stable sorted arrangement, which insertion sort
computes. -/
def jsSort {α : Type} (cmp : α → α → Option Int) (l : List α) : List α :=
  l.insertionSort (fun a b => sortLe cmp a b = true)

/-- The method `Array.prototype.join(sep)` on an array of strings. -/
def jsJoin (sep : Str) : List Str → Str
  | [] => []
  | [x] => x
  | x :: y :: rest => x ++ sep ++ jsJoin sep (y :: rest)

/-! ### `Map` -/

/-- The method `Map.prototype.has` on a map kept as its entries in insertion order. -/
def mapHas {κ ν : Type} [DecidableEq κ] (m : List (κ × ν)) (k : κ) : Bool :=
  m.any (fun e => decide (e.1 = k))

/-- The method `Map.prototype.get`; `none` is `undefined`. -/
def mapGet {κ ν : Type} [DecidableEq κ] (m : List (κ × ν)) (k : κ) : Option ν :=
  (m.find? (fun e => decide (e.1 = k))).map (fun e => e.2)

/-- The method `Map.prototype.set`: a new key goes last, an old key keeps its place. -/
def mapSet {κ ν : Type} [DecidableEq κ] (m : List (κ × ν)) (k : κ) (v : ν) : List (κ × ν) :=
  if mapHas m k then m.map (fun e => if e.1 = k then (e.1, v) else e) else m ++ [(k, v)]

/-- In-place update of the value stored under `k`, as `map.get(k).push(x)` does. -/
def mapModify {κ ν : Type} [DecidableEq κ] (m : List (κ × ν)) (k : κ) (f : ν → ν) :
    List (κ × ν) :=
  m.map (fun e => if e.1 = k then (e.1, f e.2) else e)

/-- The keys of a map, in insertion order (`Array.from(map.keys())`). -/
def mapKeys {κ ν : Type} (m : List (κ × ν)) : List κ :=
  m.map (fun e => e.1)

/-- The grouping loop shared by the two generators:
`for (const x of items) { const k = key(x); if (!map.has(k)) map.set(k, []);
map.get(k).push(f(x)); }`. -/
def groupLoop {α β κ : Type} [DecidableEq κ] (key : α → κ) (f : α → β) (items : List α) :
    List (κ × List β) :=
  items.foldl
    (fun map x =>
      let k := key x
      let map := if !mapHas map k then mapSet map k [] else map
      mapModify map k (fun arr => arr ++ [f x]))
    []

/-! ### `Date` -/

/-- The two date operations the generators use. -/
structure DateEnv where
  /-- The time value of `new Date(s)` for a string `s`, in ms; `none` is an invalid date. -/
  parse : Str → Option Int
  /-- The local calendar year of a time value (`getFullYear` of a valid date). -/
  fullYear : Int → Int

/-- The time value of `new Date(v)` for a property `v`: `new Date(undefined)` is invalid and
`new Date(null)` is the epoch. -/
def DateEnv.newDate (env : DateEnv) : Js Str → Option Int
  | .undefined => none
  | .null => some 0
  | .val s => env.parse s

/-- The method `getFullYear`, `NaN` on an invalid date. -/
def DateEnv.getFullYear (env : DateEnv) (t : Option Int) : Option Int :=
  t.map env.fullYear

/-- Days between 1970-01-01 and the civil date `y-m-d` of the proleptic Gregorian calendar. -/
def daysFromCivil (y m d : Int) : Int :=
  let y1 := if m ≤ 2 then y - 1 else y
  let era := y1 / 400
  let yoe := y1 - era * 400
  let mp := if m > 2 then m - 3 else m + 9
  let doy := (153 * mp + 2) / 5 + d - 1
  let doe := yoe * 365 + yoe / 4 - yoe / 100 + doy
  era * 146097 + doe - 719468

/-- The civil year of the day that lies `days` days after 1970-01-01. -/
def yearFromDays (days : Int) : Int :=
  let z := days + 719468
  let era := z / 146097
  let doe := z - era * 146097
  let yoe := (doe - doe / 1460 + doe / 36524 - doe / 146096) / 365
  let doy := doe - (365 * yoe + yoe / 4 - yoe / 100)
  let mp := (5 * doy + 2) / 153
  let m := if mp < 10 then mp + 3 else mp - 9
  yoe + era * 400 + (if m ≤ 2 then 1 else 0)

/-- The value of a decimal digit. -/
def digitVal (c : Char) : Option Int :=
  if c.isDigit then some ((c.toNat : Int) - 48) else none

/-- Number of days of month `m` of year `y`. -/
def daysInMonth (y m : Int) : Int :=
  if m = 2 then (if y % 4 = 0 ∧ (y % 100 ≠ 0 ∨ y % 400 = 0) then 29 else 28)
  else if m = 4 ∨ m = 6 ∨ m = 9 ∨ m = 11 then 30 else 31

/-- The time value of a date-only ISO string `YYYY-MM-DD`, which ECMAScript reads as midnight
UTC of that day; every other string is outside this parser and gets `none`. -/
def isoParse : Str → Option Int
  | [y1, y2, y3, y4, '-', m1, m2, '-', d1, d2] => do
    let a ← digitVal y1
    let b ← digitVal y2
    let c ← digitVal y3
    let e ← digitVal y4
    let f ← digitVal m1
    let g ← digitVal m2
    let h ← digitVal d1
    let i ← digitVal d2
    let y := a * 1000 + b * 100 + c * 10 + e
    let m := f * 10 + g
    let d := h * 10 + i
    if 1 ≤ m ∧ m ≤ 12 ∧ 1 ≤ d ∧ d ≤ daysInMonth y m then
      some (daysFromCivil y m d * 86400000)
    else none
  | _ => none

/-- A concrete `DateEnv`: date-only ISO strings, on a host whose local time is UTC plus
`offsetMinutes` minutes. -/
def isoEnv (offsetMinutes : Int) : DateEnv where
  parse := isoParse
  fullYear := fun t => yearFromDays ((t + offsetMinutes * 60000) / 86400000)

/-! ## Items -/

/-- An item of a JSON data file.  A JavaScript object is untyped, so one record carries the
properties of the three shapes (blog, talk, podcast) and the `year` that the grouping adds. -/
structure RawItem where
  title : Js Str := .undefined
  url : Js Str := .undefined
  date : Js Str := .undefined
  author : Js Str := .undefined
  company : Js Str := .undefined
  author_url : Js Str := .undefined
  tags : Js (List Str) := .undefined
  project_slugs : Js (List Str) := .undefined
  speakers : Js (List Str) := .undefined
  event : Js Str := .undefined
  episode_title : Js Str := .undefined
  publication_date : Js Str := .undefined
  podcast_title : Js Str := .undefined
  year : Js (Option Int) := .undefined
deriving DecidableEq

/-- A year section of a page, as the data its markup interpolates: the year (in the `id` and
the title), the count shown in `.year-count`, and the items whose cards fill `.links-grid`,
in order. -/
structure YearSection (κ ι : Type) where
  year : κ
  count : Nat
  items : List ι
deriving DecidableEq

/-! ## `generate.js` -/

namespace Generate

/-- The comparator `(a, b) => new Date(b.date) - new Date(a.date)`. -/
def byDateDesc (env : DateEnv) (a b : RawItem) : Option Int :=
  numSub (env.newDate b.date) (env.newDate a.date)

/-- The year `new Date(b.date).getFullYear()` of an item. -/
def yearOf (env : DateEnv) (b : RawItem) : Option Int :=
  env.getFullYear (env.newDate b.date)

/-- The object `{ ...b, year }` pushed by `groupByYear`. -/
def withYear (env : DateEnv) (b : RawItem) : RawItem :=
  { b with year := .val (yearOf env b) }

/-- The function `groupByYear(blogs)`: the map from year to the items of that year, each
array sorted by date descending. -/
def groupByYear (env : DateEnv) (blogs : List RawItem) : List (Option Int × List RawItem) :=
  let map := groupLoop (yearOf env) (withYear env) blogs
  map.map (fun e => (e.1, jsSort (byDateDesc env) e.2))

/-- Step 2 of `main`: `(data.blogs || []).map(...).filter(...).sort(...)`. -/
def normalize (env : DateEnv) (blogs : Js (List RawItem)) : List RawItem :=
  jsSort (byDateDesc env)
    (((blogs.orEmpty).map (fun b => { b with date := b.date })).filter
      (fun b => b.title.truthy && b.date.truthy && b.url.truthy))

/-- The function `buildYearSection(year, items)`. -/
def buildYearSection (year : Option Int) (items : List RawItem) :
    YearSection (Option Int) RawItem :=
  { year := year, count := items.length, items := items }

/-- The comparator `(a, b) => b - a` on years. -/
def byYearDesc (a b : Option Int) : Option Int :=
  numSub b a

/-- Step 3 of `main`: `yearsDesc`, which `buildYearNav` lays out in this order. -/
def yearsDesc (env : DateEnv) (blogs : Js (List RawItem)) : List (Option Int) :=
  jsSort byYearDesc (mapKeys (groupByYear env (normalize env blogs)))

/-- Steps 2 to 4 of `main`: the year sections spliced into `#yearsRoot`. -/
def main (env : DateEnv) (blogs : Js (List RawItem)) :
    List (YearSection (Option Int) RawItem) :=
  let grouped := groupByYear env (normalize env blogs)
  (yearsDesc env blogs).map (fun y => buildYearSection y ((mapGet grouped y).getD []))

end Generate

/-! ## `staticgen.js` -/

namespace Staticgen

/-- The `type` of a page configuration in `FILES`. -/
inductive ItemType where
  | blog
  | talk
  | podcast
deriving DecidableEq, Repr

/-- The target schema of `normalizeData`: `{ title, url, date, author, company, tags }`. -/
structure Item where
  title : Js Str
  url : Js Str
  date : Js Str
  author : Js Str
  company : Js Str
  tags : List Str
deriving DecidableEq

/-- The function `normalizeData(item, type)` for the three types `main` passes. -/
def normalizeData (item : RawItem) : ItemType → Item
  | .blog =>
    { title := item.title, url := item.url, date := item.date, author := item.author,
      company := item.company, tags := item.tags.orEmpty }
  | .talk =>
    { title := item.title, url := item.url, date := item.date,
      author := .val (jsJoin ", ".toList item.speakers.orEmpty),
      company := .val (item.event.orStr "Conference".toList),
      tags := item.tags.orEmpty }
  | .podcast =>
    { title := item.episode_title, url := item.url, date := item.publication_date,
      author := item.podcast_title, company := .val "Podcast".toList, tags := [] }

/-- The comparator `(a, b) => new Date(b.date) - new Date(a.date)`. -/
def byDateDesc (env : DateEnv) (a b : Item) : Option Int :=
  numSub (env.newDate b.date) (env.newDate a.date)

/-- The year `new Date(item.date).getFullYear()` of an item. -/
def yearOf (env : DateEnv) (i : Item) : Option Int :=
  env.getFullYear (env.newDate i.date)

/-- The function `buildYearSection(year, items)`. -/
def buildYearSection (year : Option Int) (items : List Item) : YearSection (Option Int) Item :=
  { year := year, count := items.length, items := items }

/-- The comparator `(a, b) => b - a` on years. -/
def byYearDesc (a b : Option Int) : Option Int :=
  numSub b a

/-- The sort of step 1 of `buildPage`, on the normalized items:
`.filter((i) => i.title && i.url).sort(...)`. -/
def sortItems (env : DateEnv) (normalized : List Item) : List Item :=
  jsSort (byDateDesc env) (normalized.filter (fun i => i.title.truthy && i.url.truthy))

/-- Steps 1 (after the call of `normalizeData`) to 3 of `buildPage`: filter, sort, group by
year, and one section per year in `yearsDesc` order. -/
def sortAndGroup (env : DateEnv) (normalized : List Item) :
    List (YearSection (Option Int) Item) :=
  let items := sortItems env normalized
  let grouped := groupLoop (yearOf env) (fun item => item) items
  let yearsDesc := jsSort byYearDesc (mapKeys grouped)
  yearsDesc.map (fun y => buildYearSection y ((mapGet grouped y).getD []))

/-- Steps 1 to 3 of `buildPage`: the year sections spliced into the injection root. -/
def buildPage (env : DateEnv) (type : ItemType) (data : List RawItem) :
    List (YearSection (Option Int) Item) :=
  sortAndGroup env (data.map (fun item => normalizeData item type))

end Staticgen


/-! ## Strings -/

/-- The characters that `String.prototype.trim` strips and the class `\s` of a regular
expression matches: the white space and line terminator code points of ECMAScript. -/
def isJsSpace (c : Char) : Bool :=
  let n := c.toNat
  n == 0x09 || n == 0x0A || n == 0x0B || n == 0x0C || n == 0x0D || n == 0x20 || n == 0xA0 ||
    n == 0x1680 || (0x2000 ≤ n && n ≤ 0x200A) || n == 0x2028 || n == 0x2029 || n == 0x202F ||
    n == 0x205F || n == 0x3000 || n == 0xFEFF

/-- The method `String.prototype.trim`. -/
def jsTrim (s : Str) : Str :=
  ((s.dropWhile isJsSpace).reverse.dropWhile isJsSpace).reverse

/-- Whether `s` begins with `q`. -/
def startsWith : Str → Str → Bool
  | _, [] => true
  | [], _ :: _ => false
  | c :: s, d :: q => c == d && startsWith s q

/-- The method `String.prototype.includes`: whether `q` occurs in `s` at some position. -/
def includes : Str → Str → Bool
  | [], q => q.isEmpty
  | c :: s, q => startsWith (c :: s) q || includes s q

/-- The scan behind `split(/\s+/)`: `inRun` tells that the last character read was white
space, `cur` is the current piece, reversed. -/
def splitWsAux : Bool → Str → Str → List Str
  | _, cur, [] => [cur.reverse]
  | inRun, cur, c :: cs =>
    if isJsSpace c then
      (if inRun then splitWsAux true [] cs else cur.reverse :: splitWsAux true [] cs)
    else splitWsAux false (c :: cur) cs

/-- The call `s.split(/\s+/)`: the pieces of `s` between maximal runs of white space. -/
def splitWs (s : Str) : List Str :=
  splitWsAux false [] s

/-- The method `String.prototype.toLowerCase` on ASCII letters; other characters are left as
they are. -/
def asciiLower (s : Str) : Str :=
  s.map Char.toLower

/-- The string an array element contributes to `join`: `undefined` and `null` give the
empty string. -/
def Js.joined : Js Str → Str
  | .val s => s
  | _ => []

/-- The order of the default `sort()`: strings compared character by character. -/
def strLt : Str → Str → Bool
  | [], [] => false
  | [], _ :: _ => true
  | _ :: _, [] => false
  | a :: as, b :: bs =>
    if a.toNat < b.toNat then true else if b.toNat < a.toNat then false else strLt as bs

/-- The comparison `Array.prototype.sort()` makes without a comparator. -/
def defaultCmp (a b : Str) : Option Int :=
  if strLt a b then some (-1) else if strLt b a then some 1 else some 0

/-- The number a string of decimal digits denotes. -/
def decVal : Str → Nat
  | [] => 0
  | c :: cs => (c.toNat - 48) * 10 ^ cs.length + decVal cs

/-- Whether a property key is an array index: a canonical decimal numeral below `2^32 - 1`. -/
def isArrayIndex (s : Str) : Bool :=
  !s.isEmpty && s.all Char.isDigit && (s.length == 1 || s.head? != some '0') &&
    decide (decVal s < 4294967295)

/-- The call `Object.keys(obj)` on an object kept as its properties in creation order: the
array indices in ascending numeric order, then the other keys in creation order. -/
def objectKeys {ν : Type} (obj : List (Str × ν)) : List Str :=
  ((mapKeys obj).filter isArrayIndex).insertionSort (fun a b => decVal a ≤ decVal b) ++
    (mapKeys obj).filter (fun k => !isArrayIndex k)

/-! ## `dist/index.js` -/

namespace Index

/-- The application state `state`. -/
structure State where
  blogs : List RawItem := []
  grouped : List (Option Int × List RawItem) := []
  activeProject : Str := "all".toList
  query : Str := []

/-- A card element, as the attributes and texts `buildCard` sets, and its `hidden` class. -/
structure CardEl where
  dateTime : Js Str
  dateText : Str
  company : Str
  href : Js Str
  title : Js Str
  author : Str
  badges : List Str
  project : Js Str
  search : Js Str
  hidden : Bool
deriving DecidableEq

/-- A year section element: its id, its cards, the two numbers of the text
`visible/total posts` of `.year-count`, and its `hidden` class. -/
structure SectionEl where
  id : Option Int
  cards : List CardEl
  count : Nat × Nat
  hidden : Bool
deriving DecidableEq

/-- The normalization of `init`: the year, and `project_slugs` and `tags` made arrays. -/
def initBlog (env : DateEnv) (b : RawItem) : RawItem :=
  { b with
    date := b.date
    year := .val (env.getFullYear (env.newDate b.date))
    project_slugs := .val b.project_slugs.orEmpty
    tags := .val b.tags.orEmpty }

/-- The text of `dataset.search`: the truthy fields joined with a space, in lower case. -/
def searchable (toLowerCase : Str → Str) (blog : RawItem) : Str :=
  toLowerCase
    (jsJoin " ".toList
      (([blog.title, blog.company, blog.author, .val (jsJoin " ".toList blog.tags.orEmpty),
          .val (jsJoin " ".toList blog.project_slugs.orEmpty), blog.url].filter Js.truthy).map
        Js.joined))

/-- The helper `fmtDate(iso)`: `new Intl.DateTimeFormat(...).format(new Date(iso))`, where
`format` is the text that `Intl.DateTimeFormat` gives for a time value. On an invalid date
`format` throws a `RangeError`: the result is `none`. -/
def fmtDate (env : DateEnv) (format : Int → Str) (iso : Js Str) : Option Str :=
  (env.newDate iso).map format

/-- The function `buildCard(blog)`; `none` when `fmtDate(blog.date)` throws. -/
def buildCard (toLowerCase : Str → Str) (env : DateEnv) (format : Int → Str)
    (blog : RawItem) : Option CardEl :=
  (fmtDate env format blog.date).map (fun dateText =>
    { dateTime := blog.date
      dateText := dateText
      company := blog.company.orStr []
      href := blog.url
      title := blog.title
      author := blog.author.orStr "Unknown".toList
      badges := blog.tags.orEmpty
      project := .val (jsJoin " ".toList blog.project_slugs.orEmpty)
      search := .val (searchable toLowerCase blog)
      hidden := false })

/-- The value `isVisible` that `applyFilters` computes for a card. -/
def isVisible (q active : Str) (card : CardEl) : Bool :=
  let matchesProject :=
    active == "all".toList || (splitWs (card.project.orStr [])).contains active
  let matchesQuery := q == [] || includes (card.search.orStr []) q
  matchesProject && matchesQuery

/-- The function `applyFilters()`, on the sections of `yearsRoot`: each card gets or loses
the class `hidden`, each section its counts and its class `hidden`. -/
def applyFilters (toLowerCase : Str → Str) (state : State) (sections : List SectionEl) :
    List SectionEl :=
  let q := toLowerCase (jsTrim state.query)
  let active := state.activeProject
  sections.map (fun sec =>
    let cards := sec.cards.map (fun card => { card with hidden := !isVisible q active card })
    let visibleCount := (sec.cards.filter (fun card => isVisible q active card)).length
    { sec with cards := cards, count := (visibleCount, cards.length),
               hidden := visibleCount == 0 })

end Index

/-! ## `dist/podcasts.js` -/

/-- What a live renderer leaves in its container: the placeholder, or the year sections. -/
inductive Rendered (ι : Type) where
  | placeholder (text : Str)
  | sections (l : List (YearSection Str ι))
deriving DecidableEq

namespace Podcasts

/-- The application state `state`. -/
structure State where
  episodes : List RawItem := []
  query : Str := []
  year : Str := []

/-- An element of `items`: `{ ...ep, year, _search }`. -/
structure Episode where
  ep : RawItem
  year : Str
  search : Str
deriving DecidableEq

/-- The first step of `render`: the episodes with their year and search text. -/
def items (toLowerCase : Str → Str) (state : State) : List Episode :=
  state.episodes.map (fun ep =>
    { ep := ep
      year := (ep.publication_date.orStr []).take 4
      search := toLowerCase
        (jsJoin " ".toList
          [ep.episode_title.joined, ep.podcast_title.joined, ep.publication_date.joined]) })

/-- The second step of `render`: the episodes that pass the year and the text filter. -/
def filtered (toLowerCase : Str → Str) (state : State) (filterYear filterQuery : Str) :
    List Episode :=
  (items toLowerCase state).filter (fun ep =>
    let okYear := filterYear.isEmpty || ep.year == filterYear
    let okSearch := filterQuery.isEmpty || includes ep.search filterQuery
    okYear && okSearch)

/-- The key `ep.year || "Unknown"` of an episode. -/
def groupKey (ep : Episode) : Str :=
  if ep.year.isEmpty then "Unknown".toList else ep.year

/-- The object `groups` of `render`, as its properties in creation order. -/
def groups (toLowerCase : Str → Str) (state : State) (filterYear filterQuery : Str) :
    List (Str × List Episode) :=
  groupLoop groupKey (fun ep => ep) (filtered toLowerCase state filterYear filterQuery)

/-- The array `years` of `render`: `Object.keys(groups).sort().reverse()`. -/
def years (toLowerCase : Str → Str) (state : State) (filterYear filterQuery : Str) :
    List Str :=
  (jsSort defaultCmp
    (objectKeys (groups toLowerCase state filterYear filterQuery))).reverse

/-- The function `render(filterYear, filterQuery)`: the content of `#podcasts-root`. -/
def render (toLowerCase : Str → Str) (state : State) (filterYear filterQuery : Str) :
    Rendered Episode :=
  let groups := groups toLowerCase state filterYear filterQuery
  let years := years toLowerCase state filterYear filterQuery
  if years.length = 0 then .placeholder "No episodes match.".toList
  else
    .sections (years.map (fun y =>
      { year := y, count := ((mapGet groups y).getD []).length,
        items := (mapGet groups y).getD [] }))

end Podcasts

/-! ## `podcasts.js` -/

namespace PodcastsLegacy

/-- The array `items` of `initPodcasts`: the episodes with their year and search text. -/
def items (toLowerCase : Str → Str) (episodes : List RawItem) : List Podcasts.Episode :=
  episodes.map (fun ep =>
    { ep := ep
      year := (ep.publication_date.orStr []).take 4
      search := toLowerCase
        (jsJoin " ".toList
          (([ep.episode_title, ep.podcast_title, ep.publication_date, ep.url].filter
            Js.truthy).map Js.joined)) })

/-- The function `groupByYear(list)`: the object from year to the episodes of that year, each
array sorted by `(b.publication_date || "").localeCompare(a.publication_date || "")`. -/
def groupByYear (localeCompare : Str → Str → Int) (list : List Podcasts.Episode) :
    List (Str × List Podcasts.Episode) :=
  let byYear := groupLoop Podcasts.groupKey (fun it => it) list
  byYear.map (fun e =>
    (e.1, jsSort
      (fun a b =>
        some (localeCompare (b.ep.publication_date.orStr []) (a.ep.publication_date.orStr [])))
      e.2))

/-- The array `filtered` of `render`. -/
def filtered (toLowerCase : Str → Str) (episodes : List RawItem) (filterYear q : Str) :
    List Podcasts.Episode :=
  let query := jsTrim (toLowerCase q)
  (items toLowerCase episodes).filter (fun it =>
    let okYear := filterYear.isEmpty || it.year == filterYear
    let okSearch := query.isEmpty || includes it.search query
    okYear && okSearch)

/-- The array `orderedYears` of `render`:
`Object.keys(grouped).sort((a, b) => b.localeCompare(a))`. -/
def orderedYears (toLowerCase : Str → Str) (localeCompare : Str → Str → Int)
    (episodes : List RawItem) (filterYear q : Str) : List Str :=
  jsSort (fun a b => some (localeCompare b a))
    (objectKeys (groupByYear localeCompare (filtered toLowerCase episodes filterYear q)))

/-- The function `render(filterYear, q)`: the content of `#podcasts-root`. -/
def render (toLowerCase : Str → Str) (localeCompare : Str → Str → Int)
    (episodes : List RawItem) (filterYear q : Str) : Rendered Podcasts.Episode :=
  let grouped := groupByYear localeCompare (filtered toLowerCase episodes filterYear q)
  let orderedYears := orderedYears toLowerCase localeCompare episodes filterYear q
  if orderedYears.length = 0 then .placeholder "No episodes match your filters.".toList
  else
    .sections (orderedYears.map (fun y =>
      { year := y, count := ((mapGet grouped y).getD []).length,
        items := (mapGet grouped y).getD [] }))

end PodcastsLegacy

/-- A collation that orders strings as the default sort does, character by character. -/
def codeUnitCompare (a b : Str) : Int :=
  if strLt a b then -1 else if strLt b a then 1 else 0

/-! ## Escaping and the card markup of `staticgen.js` -/

/-- The call `s.replace(/c/g, r)` for a pattern that is the one character `c`. -/
def replaceAllChar (c : Char) (r : Str) (s : Str) : Str :=
  s.flatMap (fun d => if d = c then r else [d])

/-- The function `escapeHtml` of `generate.js` and `staticgen.js`, on a string:
`String(s).replace(/&/g, "&amp;").replace(/</g, "&lt;").replace(/>/g, "&gt;")`. -/
def escapeHtml (s : Str) : Str :=
  replaceAllChar '>' "&gt;".toList
    (replaceAllChar '<' "&lt;".toList (replaceAllChar '&' "&amp;".toList s))

/-- The string `String(s)` that `escapeHtml(s = "")` works on, for a property `s`: the default
parameter turns `undefined` into the empty string, and `null` becomes "null". -/
def Js.escapeArg : Js Str → Str
  | .undefined => []
  | .null => "null".toList
  | .val s => s

/-- The text a template literal interpolates for a property. -/
def Js.interpolated : Js Str → Str
  | .undefined => "undefined".toList
  | .null => "null".toList
  | .val s => s

namespace Staticgen

/-- The function `fmtDate(iso)`: the argument itself when the date is invalid, and the text
of `toLocaleDateString` otherwise. -/
def fmtDate (env : DateEnv) (toLocaleDateString : Int → Str) (iso : Js Str) : Str :=
  match env.newDate iso with
  | none => iso.interpolated
  | some t => toLocaleDateString t

/-- The markup of a card, as the texts `buildCard` interpolates into it. -/
structure CardMarkup where
  dateTime : Str
  dateText : Str
  company : Str
  href : Str
  title : Str
  author : Str
  badges : List Str
deriving DecidableEq

/-- The function `buildCard(item)`. -/
def buildCard (env : DateEnv) (toLocaleDateString : Int → Str) (item : Item) : CardMarkup :=
  { dateTime := item.date.interpolated
    dateText := fmtDate env toLocaleDateString item.date
    company := escapeHtml item.company.escapeArg
    href := item.url.interpolated
    title := escapeHtml item.title.escapeArg
    author := escapeHtml item.author.escapeArg
    badges := item.tags.map escapeHtml }

end Staticgen

/-! ## `dist/talk.js` -/

/-- The method `Array.prototype.filter` with a callback that may throw (`none`): the call
throws as soon as the callback does. -/
def filterThrowing {α : Type} (p : α → Option Bool) : List α → Option (List α)
  | [] => some []
  | x :: xs =>
    match p x, filterThrowing p xs with
    | some b, some rest => some (if b then x :: rest else rest)
    | _, _ => none

/-- A loop that builds one element per entry with a function that may throw (`none`): the
loop throws as soon as the function does. -/
def mapThrowing {α β : Type} (f : α → Option β) : List α → Option (List β)
  | [] => some []
  | x :: xs =>
    match f x, mapThrowing f xs with
    | some y, some ys => some (y :: ys)
    | _, _ => none

namespace Talk

/-- The application state `state`. -/
structure State where
  talks : List RawItem := []
  query : Str := []
  year : Str := []

/-- The expression `t.date.slice(0, 4)`; `none` when `t.date` is not a string, where the call
throws a `TypeError`. -/
def yearOf (t : RawItem) : Option Str :=
  match t.date with
  | .val d => some (d.take 4)
  | _ => none

/-- The constant `text` of the filter callback of `render`:
`(t.title + " " + (t.speakers||[]).join(" ") + " " + (t.tags||[]).join(" ") + " " +
(t.event||"")).toLowerCase()`. -/
def searchText (toLowerCase : Str → Str) (t : RawItem) : Str :=
  toLowerCase
    (t.title.interpolated ++ " ".toList ++ jsJoin " ".toList t.speakers.orEmpty ++ " ".toList ++
      jsJoin " ".toList t.tags.orEmpty ++ " ".toList ++ t.event.orStr [])

/-- The filter callback of `render`. -/
def passes (toLowerCase : Str → Str) (filterYear filterQuery : Str) (t : RawItem) :
    Option Bool :=
  (yearOf t).map (fun y =>
    let yearMatch := filterYear.isEmpty || y == filterYear
    let text := searchText toLowerCase t
    let searchMatch := filterQuery.isEmpty || includes text filterQuery
    yearMatch && searchMatch)

/-- The array `filtered` of `render`. -/
def filtered (toLowerCase : Str → Str) (state : State) (filterYear filterQuery : Str) :
    Option (List RawItem) :=
  filterThrowing (passes toLowerCase filterYear filterQuery) state.talks

/-- The key `t.date.slice(0, 4)` of the grouping loop, which runs on talks that the filter
has read the date of. -/
def groupKey (t : RawItem) : Str :=
  (yearOf t).getD []

/-- The function `render(filterYear, filterQuery)`: the content of `#talks-root`, or `none`
when the call throws. -/
def render (toLowerCase : Str → Str) (state : State) (filterYear filterQuery : Str) :
    Option (Rendered RawItem) :=
  (filtered toLowerCase state filterYear filterQuery).map (fun filtered =>
    let groups := groupLoop groupKey (fun t => t) filtered
    let years := (jsSort defaultCmp (objectKeys groups)).reverse
    if years.length = 0 then .placeholder "No results found.".toList
    else
      .sections (years.map (fun y =>
        { year := y, count := ((mapGet groups y).getD []).length,
          items := (mapGet groups y).getD [] })))

/-- The `input` listener of `init`: `state.query = e.target.value.toLowerCase();
render(state.year, state.query)`. -/
def onSearchInput (toLowerCase : Str → Str) (state : State) (value : Str) :
    State × Option (Rendered RawItem) :=
  let state := { state with query := toLowerCase value }
  (state, render toLowerCase state state.year state.query)

/-- The `change` listener of `init`: `state.year = e.target.value;
render(state.year, state.query)`. -/
def onYearChange (toLowerCase : Str → Str) (state : State) (value : Str) :
    State × Option (Rendered RawItem) :=
  let state := { state with year := value }
  (state, render toLowerCase state state.year state.query)

end Talk

/-! ## Rendering and start-up of the client scripts -/

/-- The content of a mount container (`#yearsRoot`, `#talks-root`, `#podcasts-root`): no
child, the markup the static build put there, a message, or what the script rendered. -/
inductive Container (ρ : Type) where
  | empty
  | serverRendered (html : Str)
  | message (text : Str)
  | live (r : ρ)
deriving DecidableEq

/-- The test `container.children.length > 0` that `init` makes on the container it finds. -/
def Container.hasChildren {ρ : Type} : Container ρ → Bool
  | .empty => false
  | _ => true

namespace Index

/-- The comparator `(a, b) => new Date(b.date) - new Date(a.date)`. -/
def byDateDesc (env : DateEnv) (a b : RawItem) : Option Int :=
  numSub (env.newDate b.date) (env.newDate a.date)

/-- The comparator `(a, b) => b - a` on years. -/
def byYearDesc (a b : Option Int) : Option Int :=
  numSub b a

/-- The key `b.year` of a blog that `init` has given its year. -/
def yearKey (b : RawItem) : Option Int :=
  match b.year with
  | .val y => y
  | _ => none

/-- The function `groupByYear()`: the new value of `state.grouped`. -/
def groupByYear (env : DateEnv) (blogs : List RawItem) : List (Option Int × List RawItem) :=
  (groupLoop yearKey (fun b => b) blogs).map (fun e => (e.1, jsSort (byDateDesc env) e.2))

/-- The function `updateYearCount(section)` without an override: the number of cards that
do not carry `hidden`, and the number of cards. -/
def updateYearCount (sec : SectionEl) : SectionEl :=
  { sec with count := ((sec.cards.filter (fun card => !card.hidden)).length, sec.cards.length) }

/-- The function `renderAll()`: the children of `#yearsRoot` it leaves, one section per year
of `state.grouped`, filtered by `applyFilters`; `none` when `buildCard` throws on a blog. -/
def renderAll (toLowerCase : Str → Str) (env : DateEnv) (format : Int → Str)
    (state : State) : Option (List SectionEl) :=
  let years := jsSort byYearDesc (mapKeys state.grouped)
  let sections := mapThrowing (fun year =>
    (mapThrowing (buildCard toLowerCase env format) ((mapGet state.grouped year).getD [])).map
      (fun cards =>
        updateYearCount { id := year, cards := cards, count := (0, 0), hidden := false }))
    years
  sections.map (applyFilters toLowerCase state)

/-- The function `init()`, given what the fetch of `blogs.json` gave (`none`: the fetch
failed): the new state and the new content of `#yearsRoot`. The content found there is not
read. When `renderAll` throws, the `catch` branch puts the error box there, as it does when
the fetch fails. -/
def init (toLowerCase : Str → Str) (env : DateEnv) (format : Int → Str) (state : State)
    (_yearsRoot : Container (List SectionEl)) (fetched : Option (Js (List RawItem))) :
    State × Container (List SectionEl) :=
  match fetched with
  | some data =>
    let blogs := jsSort (byDateDesc env) (data.orEmpty.map (initBlog env))
    let state := { state with blogs := blogs, grouped := groupByYear env blogs }
    match renderAll toLowerCase env format state with
    | some sections => (state, .live sections)
    | none => (state, .message "Could not load blog data.".toList)
  | none => (state, .message "Could not load blog data.".toList)

/-- The search listener of `bindUI`, once the debounce delay has passed:
`state.query = e.target.value || ""; applyFilters()`. -/
def onSearch (toLowerCase : Str → Str) (state : State) (sections : List SectionEl)
    (value : Str) : State × List SectionEl :=
  let state := { state with query := value }
  (state, applyFilters toLowerCase state sections)

end Index

namespace Talk

/-- The function `init()`, given whether the three elements exist and what the fetch of
`talks.json` gave (`none`: the fetch failed): the new state and the new content of
`#talks-root`. -/
def init (toLowerCase : Str → Str) (elementsPresent : Bool) (state : State)
    (container : Container (Rendered RawItem)) (fetched : Option (List RawItem)) :
    State × Container (Rendered RawItem) :=
  if !elementsPresent then (state, container)
  else
    let isPreRendered := container.hasChildren
    let failed := if !isPreRendered then .message "Error loading data.".toList else container
    match fetched with
    | none => (state, failed)
    | some talks =>
      let state := { state with talks := talks }
      if talks.all (fun t => (yearOf t).isSome) then
        if !isPreRendered then
          match render toLowerCase state state.year state.query with
          | some r => (state, .live r)
          | none => (state, failed)
        else (state, container)
      else (state, failed)

end Talk

namespace Podcasts

/-- The function `init()`, given whether the three elements exist and what the fetch of
`podcasts.json` gave (`none`: the fetch failed): the new state and the new content of
`#podcasts-root`. -/
def init (toLowerCase : Str → Str) (elementsPresent : Bool) (state : State)
    (container : Container (Rendered Episode)) (fetched : Option (List RawItem)) :
    State × Container (Rendered Episode) :=
  if !elementsPresent then (state, container)
  else
    let isPreRendered := container.hasChildren
    match fetched with
    | none =>
      (state, if !isPreRendered then .message "Error loading podcasts.".toList else container)
    | some episodes =>
      let state := { state with episodes := episodes }
      if isPreRendered then (state, container)
      else (state, .live (render toLowerCase state state.year state.query))

/-- The `input` listener of `init`: `state.query = e.target.value.toLowerCase();
render(state.year, state.query)`. -/
def onSearchInput (toLowerCase : Str → Str) (state : State) (value : Str) :
    State × Rendered Episode :=
  let state := { state with query := toLowerCase value }
  (state, render toLowerCase state state.year state.query)

end Podcasts

/-! ## Lower case with the final sigma -/

/-- The cased letters among the ASCII characters and the Greek letters alpha and sigma. -/
def isCasedLetter (c : Char) : Bool :=
  c.isAlpha || c == 'Α' || c == 'α' || c == 'Σ' || c == 'σ' || c == 'ς'

/-- The case-ignorable characters among the ASCII characters: the apostrophe, the full stop,
the colon, the circumflex and the grave accent. -/
def isCaseIgnorable (c : Char) : Bool :=
  c.toNat == 39 || c == '.' || c == ':' || c == '^' || c.toNat == 96

/-- Whether a text, read from its first character on, shows a cased letter after
case-ignorable characters only. -/
def reachesCased : Str → Bool
  | [] => false
  | c :: rest => if isCaseIgnorable c then reachesCased rest else isCasedLetter c

/-- The scan of `sigmaLower`; `before` holds the characters already read, last one first. -/
def sigmaLowerAux (before : Str) : Str → Str
  | [] => []
  | c :: rest =>
    (if c = 'Σ' then (if reachesCased before && !reachesCased rest then 'ς' else 'σ')
      else if c = 'Α' then 'α' else c.toLower) :: sigmaLowerAux (c :: before) rest

/-- The method `String.prototype.toLowerCase` on texts made of ASCII characters and the
Greek letters alpha and sigma: the simple case mappings, and for the capital sigma the
condition `Final_Sigma` of the Unicode special casing, which gives the final form `ς` after
a cased letter when no cased letter follows. -/
def sigmaLower (s : Str) : Str :=
  sigmaLowerAux [] s

/-! ## Text replacement -/

/-- The double quote, the single quote and the grave accent. -/
def dquote : Char := Char.ofNat 34

def squote : Char := Char.ofNat 39

def grave : Char := Char.ofNat 96

/-- A text between double quotes. -/
def quoted (s : Str) : Str :=
  dquote :: s ++ [dquote]

/-- The first occurrence of `pat` in a text: the text before it and the text after it. -/
def findSub (pat : Str) : Str → Option (Str × Str)
  | [] => if pat.isEmpty then some ([], []) else none
  | c :: cs =>
    if startsWith (c :: cs) pat then some ([], (c :: cs).drop pat.length)
    else (findSub pat cs).map (fun r => (c :: r.1, r.2))

/-- A match of a pattern in a text: the text before the match, the matched text, the texts of
the capture groups, and the text after the match. -/
structure RegExpMatch where
  before : Str
  matched : Str
  captures : List Str
  after : Str
deriving DecidableEq

/-- The capture that `$n` or `$nn` names, when the pattern has a group of that number. -/
def captureRef (m : RegExpMatch) (index : Nat) : Option Str :=
  if 1 ≤ index ∧ index ≤ m.captures.length then some (m.captures.getD (index - 1) [])
  else none

/-- The operation `GetSubstitution` of `String.prototype.replace` on a replacement text, for
a pattern without named groups: `$$` is a dollar sign, `$&` the matched text, `$` with a grave
accent the text before the match, `$` with a single quote the text after it, `$n` and `$nn`
the capture of that number when there is one, and every other character is itself. -/
def getSubstitution (m : RegExpMatch) : Str → Str
  | [] => []
  | c :: rest =>
    let plain := c :: getSubstitution m rest
    if c = '$' then
      match rest with
      | [] => plain
      | d :: rest1 =>
        if d = '$' then '$' :: getSubstitution m rest1
        else if d = '&' then m.matched ++ getSubstitution m rest1
        else if d = grave then m.before ++ getSubstitution m rest1
        else if d = squote then m.after ++ getSubstitution m rest1
        else if d.isDigit then
          let one : Str :=
            match captureRef m (d.toNat - 48) with
            | some cap => cap ++ getSubstitution m rest1
            | none => c :: d :: getSubstitution m rest1
          match rest1 with
          | [] => one
          | e :: rest2 =>
            if e.isDigit then
              match captureRef m ((d.toNat - 48) * 10 + (e.toNat - 48)) with
              | some cap => cap ++ getSubstitution m rest2
              | none => one
            else one
        else plain
    else plain

/-- The method `String.prototype.replace` once the first match has been looked for: the match
is replaced by the substitution of `template`, and a text without match is returned as it
is. -/
def replaceWith (found : Option RegExpMatch) (template : Str) (s : Str) : Str :=
  match found with
  | some m => m.before ++ getSubstitution m template ++ m.after
  | none => s

/-- The first match of a string pattern. -/
def stringMatch (pat s : Str) : Option RegExpMatch :=
  (findSub pat s).map (fun r => { before := r.1, matched := pat, captures := [], after := r.2 })

/-- The leftmost match of a regular expression; `matchAt s` is the match that starts where
`s` starts: the matched text, the captures and the text after the match. -/
def leftmost (matchAt : Str → Option (Str × List Str × Str)) : Str → Option RegExpMatch
  | [] =>
    (matchAt []).map (fun r =>
      { before := [], matched := r.1, captures := r.2.1, after := r.2.2 })
  | c :: cs =>
    match matchAt (c :: cs) with
    | some r => some { before := [], matched := r.1, captures := r.2.1, after := r.2.2 }
    | none => (leftmost matchAt cs).map (fun m => { m with before := c :: m.before })

/-- The method `String.prototype.replace` with a global regular expression and the empty
replacement; `matchLen s` is the length of the match that starts where `s` starts, and `skip`
counts the characters of the current match still to drop. -/
def removeAll (matchLen : Str → Option Nat) (skip : Nat) : Str → Str
  | [] => []
  | c :: cs =>
    match skip with
    | n + 1 => removeAll matchLen n cs
    | 0 =>
      match matchLen (c :: cs) with
      | some (n + 1) => removeAll matchLen n cs
      | _ => c :: removeAll matchLen 0 cs

/-! ## The page assembly of `staticgen.js` -/

namespace Staticgen

/-- The array `targets` of step 4 of `buildPage`. -/
def targets : List Str :=
  ["yearsRoot".toList, "talks-root".toList, "podcasts-root".toList]

/-- The text `id="t"`. -/
def idAttr (t : Str) : Str :=
  "id=".toList ++ quoted t

/-- The regular expression `(<div[^>]*id="t"[^>]*>)([\s\S]*?)(</div>)` at the start of a
text: the opening tag runs to the first `>` after `<div` and holds `id="t"`, and the content
runs to the first `</div>` after it. -/
def rootAt (t : Str) (s : Str) : Option (Str × List Str × Str) :=
  if startsWith s "<div".toList then
    let rest := s.drop 4
    let seg := rest.takeWhile (fun c => c != '>')
    match rest.dropWhile (fun c => c != '>') with
    | [] => none
    | _ :: body =>
      if includes seg (idAttr t) then
        (findSub "</div>".toList body).map (fun r =>
          let openTag := "<div".toList ++ seg ++ ">".toList
          (openTag ++ r.1 ++ "</div>".toList, [openTag, r.1, "</div>".toList], r.2))
      else none
  else none

/-- The loop of step 4 of `buildPage` over the targets: the text `out` and the flag
`injected`. -/
def inject (contentHtml : Str) (out : Str) : List Str → Str × Bool
  | [] => (out, false)
  | t :: ts =>
    match leftmost (rootAt t) out with
    | some m =>
      (replaceWith (some m) ("$1".toList ++ contentHtml ++ "$3".toList) out, true)
    | none => inject contentHtml out ts

/-- What steps 4 to 6 of `buildPage` do: the lines of `console.warn` and the text handed to
`writeFile(config.out, out)`. -/
structure PageOutput where
  warnings : List Str
  written : Str
deriving DecidableEq

/-- The text `stamp` of step 6, for the time `now` of `new Date().toISOString()`. -/
def stamp (now : Str) : Str :=
  "<!-- Static build: ".toList ++ now ++ " -->".toList

/-- Steps 4 to 6 of `buildPage`, for the page shell `htmlRaw` read from the file `htmlName`
and the text `contentHtml` of step 3. -/
def assemble (htmlName htmlRaw contentHtml now : Str) : PageOutput :=
  let r := inject contentHtml htmlRaw targets
  let warnings :=
    if r.2 then [] else ["Warning: Could not find injection root in ".toList ++ htmlName]
  let out := replaceWith (stringMatch "</body>".toList r.1)
    (stamp now ++ '\n' :: "</body>".toList) r.1
  { warnings := warnings, written := out }

end Staticgen

/-! ## The page assembly of `generate.js` -/

namespace Generate

/-- The opening tag `<div class="year-nav__inner" id="yearNav">`. -/
def navOpen : Str :=
  "<div class=".toList ++ quoted "year-nav__inner".toList ++ " id=".toList ++
    quoted "yearNav".toList ++ ">".toList

/-- The text `<div id="yearsRoot"`. -/
def rootOpen : Str :=
  "<div id=".toList ++ quoted "yearsRoot".toList

/-- The regular expression `<div class="year-nav__inner" id="yearNav">[\s\S]*?<\/div>` at the
start of a text. -/
def navAt (s : Str) : Option (Str × List Str × Str) :=
  if startsWith s navOpen then
    (findSub "</div>".toList (s.drop navOpen.length)).map (fun r =>
      (navOpen ++ r.1 ++ "</div>".toList, [], r.2))
  else none

/-- The regular expression `<div id="yearsRoot"[^>]*>[\s\S]*?<\/div>` at the start of a
text. -/
def yearsRootAt (s : Str) : Option (Str × List Str × Str) :=
  if startsWith s rootOpen then
    let rest := s.drop rootOpen.length
    let seg := rest.takeWhile (fun c => c != '>')
    match rest.dropWhile (fun c => c != '>') with
    | [] => none
    | _ :: body =>
      (findSub "</div>".toList body).map (fun r =>
        (rootOpen ++ seg ++ ">".toList ++ r.1 ++ "</div>".toList, [], r.2))
  else none

/-- The length of a match of `<script[^>]*src=["']index\.js["'][^>]*>\s*<\/script>` at the
start of a text. -/
def scriptAt (s : Str) : Option Nat :=
  if startsWith s "<script".toList then
    let rest := s.drop 7
    let seg := rest.takeWhile (fun c => c != '>')
    match rest.dropWhile (fun c => c != '>') with
    | [] => none
    | _ :: body =>
      if [dquote, squote].any (fun a => [dquote, squote].any (fun b =>
          includes seg ("src=".toList ++ a :: "index.js".toList ++ [b]))) then
        if startsWith (body.dropWhile isJsSpace) "</script>".toList then
          some (7 + seg.length + 1 + (body.takeWhile isJsSpace).length + 9)
        else none
      else none
  else none

/-- The length of a match of `<template[\s\S]*?<\/template>` at the start of a text. -/
def templateAt (s : Str) : Option Nat :=
  if startsWith s "<template".toList then
    (findSub "</template>".toList (s.drop 9)).map (fun r => 9 + r.1.length + 11)
  else none

/-- The length of a match of `<noscript>[\s\S]*?<\/noscript>` at the start of a text. -/
def noscriptAt (s : Str) : Option Nat :=
  if startsWith s "<noscript>".toList then
    (findSub "</noscript>".toList (s.drop 10)).map (fun r => 10 + r.1.length + 11)
  else none

/-- The regular expression `<\/body>\s*<\/html>\s*$` with the flag `i` at the start of a
text. -/
def endAt (s : Str) : Option (Str × List Str × Str) :=
  if startsWith (asciiLower s) "</body>".toList then
    let rest := (s.drop 7).dropWhile isJsSpace
    if startsWith (asciiLower rest) "</html>".toList then
      if ((rest.drop 7).dropWhile isJsSpace).isEmpty then some (s, [], []) else none
    else none
  else none

/-- The replacement text of step 9, for the base names of the two input files and the time
`now` of `new Date().toISOString()`. -/
def stamp (htmlBase jsonBase now : Str) : Str :=
  "  <!-- Static build generated from ".toList ++ htmlBase ++ " + ".toList ++ jsonBase ++
    " on ".toList ++ now ++ " -->".toList ++ '\n' :: "</body></html>".toList

/-- Steps 5 to 10 of `main`: the text handed to `writeFile(OUTPUT_HTML, out)`, for the page
shell `html` and the texts `navHTML` and `yearsHTML` of step 4. -/
def assemble (html navHTML yearsHTML htmlBase jsonBase now : Str) : Str :=
  let out := replaceWith (leftmost navAt html) (navOpen ++ navHTML ++ "</div>".toList) html
  let out := replaceWith (leftmost yearsRootAt out)
    (rootOpen ++ " role=".toList ++ quoted "region".toList ++ " aria-live=".toList ++
      quoted "polite".toList ++ ">".toList ++ '\n' :: "        ".toList ++ yearsHTML ++
      '\n' :: "      </div>".toList) out
  let out := removeAll scriptAt 0 out
  let out := removeAll templateAt 0 out
  let out := removeAll noscriptAt 0 out
  replaceWith (leftmost endAt out) (stamp htmlBase jsonBase now) out

end Generate

/-! ## Auxiliary notions for the proofs -/

/-- The comparator `(a, b) => T(b) - T(a)`, of which the date and year comparators are
instances. -/
def descCmp {α : Type} (T : α → Option Int) (a b : α) : Option Int :=
  numSub (T b) (T a)

/-- The time value used as a sort key, for items whose time value is a number. -/
def timeKey {α : Type} (T : α → Option Int) (x : α) : Int :=
  (T x).getD 0

/-- The order "`b` is not later than `a`" on sort keys. -/
def DescBy {α : Type} (k : α → Int) (a b : α) : Prop :=
  k b ≤ k a

instance DescBy.decidableRel {α : Type} (k : α → Int) : DecidableRel (DescBy k) :=
  fun a b => Int.decLe (k b) (k a)

/-- Both time values are numbers and the second is not later than the first. -/
def NotLater {α : Type} (T : α → Option Int) (a b : α) : Prop :=
  ∃ ta tb, T a = some ta ∧ T b = some tb ∧ tb ≤ ta

/-- Steps 3 and 4 of `main` of `generate.js`, as a function of the sorted list of step 2. -/
def Generate.sectionsOf (env : DateEnv) (sorted : List RawItem) :
    List (YearSection (Option Int) RawItem) :=
  (jsSort Generate.byYearDesc (mapKeys (Generate.groupByYear env sorted))).map
    (fun y => Generate.buildYearSection y ((mapGet (Generate.groupByYear env sorted) y).getD []))

/-- Steps 2 and 3 of `buildPage` of `staticgen.js`, as a function of the sorted list. -/
def Staticgen.sectionsOf (env : DateEnv) (sorted : List Staticgen.Item) :
    List (YearSection (Option Int) Staticgen.Item) :=
  (jsSort Staticgen.byYearDesc
    (mapKeys (groupLoop (Staticgen.yearOf env) (fun item => item) sorted))).map
    (fun y => Staticgen.buildYearSection y
      ((mapGet (groupLoop (Staticgen.yearOf env) (fun item => item) sorted) y).getD []))

/-- The year sections a live renderer shows; none when it shows the placeholder. -/
def Rendered.sectionList {ι : Type} : Rendered ι → List (YearSection Str ι)
  | .placeholder _ => []
  | .sections l => l

/-- The keys of the year sections a live renderer shows, in order. -/
def Rendered.keys {ι : Type} (r : Rendered ι) : List Str :=
  r.sectionList.map (fun sec => sec.year)

/-- A key that is a year of four decimal digits. -/
def IsYearKey (k : Str) : Prop :=
  k.length = 4 ∧ ∀ c ∈ k, c.isDigit = true

/-- The character by character form of `escapeHtml`. -/
def escapeChar (c : Char) : Str :=
  if c = '&' then "&amp;".toList
  else if c = '<' then "&lt;".toList
  else if c = '>' then "&gt;".toList
  else [c]

/-- Whether every `&` of a text starts one of `&amp;`, `&lt;`, `&gt;`. -/
def ampersandsEscaped : Str → Bool
  | [] => true
  | c :: rest =>
    (c != '&' || startsWith rest "amp;".toList || startsWith rest "lt;".toList ||
      startsWith rest "gt;".toList) && ampersandsEscaped rest

/-- The test of the filter callback of `dist/talk.js` on a talk whose date is a string. -/
def Talk.shown (toLowerCase : Str → Str) (filterYear filterQuery : Str) (t : RawItem) : Bool :=
  (filterYear.isEmpty || Talk.groupKey t == filterYear) &&
    (filterQuery.isEmpty || includes (Talk.searchText toLowerCase t) filterQuery)

/-- The array `years` of `render` of `dist/talk.js`, when every talk has a date. -/
def Talk.years (toLowerCase : Str → Str) (state : Talk.State) (filterYear filterQuery : Str) :
    List Str :=
  (jsSort defaultCmp
    (objectKeys (groupLoop Talk.groupKey (fun t => t)
      (state.talks.filter (Talk.shown toLowerCase filterYear filterQuery))))).reverse

/-- The year sections of a live renderer for the years `ys` and the filtered items `fl`. -/
def liveSections {ι : Type} (key : ι → Str) (fl : List ι) (ys : List Str) :
    List (YearSection Str ι) :=
  ys.map (fun y =>
    { year := y
      count := (fl.filter (fun x => decide (key x = y))).length
      items := fl.filter (fun x => decide (key x = y)) })

/-- A talk that the static and the live talk page read alike: it has a title and a url, its
date parses, the date begins with a year of four digits, and that year is the local year of
the parsed date. -/
def Talk.Consistent (env : DateEnv) (t : RawItem) : Prop :=
  t.title.truthy = true ∧ t.url.truthy = true ∧
    ∃ d ts, t.date = .val d ∧ env.parse d = some ts ∧ IsYearKey (d.take 4) ∧
      env.fullYear ts = (decVal (d.take 4) : Int)

/-! ## Sample data -/

/-- The blog `A` of the first scenario of the specification. -/
def sampleA : RawItem :=
  { title := .val "A".toList, url := .val "http://a".toList, date := .val "2024-01-01".toList }

/-- The blog `B` of the first scenario of the specification. -/
def sampleB : RawItem :=
  { title := .val "B".toList, url := .val "http://b".toList, date := .val "2023-06-01".toList }

/-- A blog published on the same day as `sampleA`. -/
def sampleC : RawItem :=
  { title := .val "C".toList, url := .val "http://c".toList, date := .val "2024-01-01".toList }

/-- A blog whose date is not a date. -/
def sampleSoon : RawItem :=
  { title := .val "D".toList, url := .val "http://d".toList, date := .val "soon".toList }

/-- A blog without a `date` property. -/
def sampleUndated : RawItem :=
  { title := .val "E".toList, url := .val "http://e".toList }

/-- A talk without an `event` property. -/
def sampleTalk : RawItem :=
  { title := .val "T".toList, url := .val "http://t".toList, date := .val "2024-03-05".toList,
    speakers := .val ["Ann".toList, "Bob".toList] }

/-- A podcast episode that carries a `tags` property. -/
def samplePodcast : RawItem :=
  { episode_title := .val "P".toList, url := .val "http://p".toList,
    publication_date := .val "2024-02-01".toList, podcast_title := .val "Show".toList,
    tags := .val ["x".toList] }

/-- A stand-in for the text that `Intl.DateTimeFormat` gives for a time value. -/
def sampleFormat : Int → Str :=
  fun _ => "a date".toList

/-- The year sections that `init` of `index.js` leaves in an empty `#yearsRoot` once
`blogs.json` has given `blogs`, on a host in UTC; no section when `init` leaves the error
box. -/
def renderedSections (toLowerCase : Str → Str) (blogs : List RawItem) :
    List Index.SectionEl :=
  match (Index.init toLowerCase (isoEnv 0) sampleFormat {} .empty (some (.val blogs))).2 with
  | .live sections => sections
  | _ => []

/-- The blog of the second scenario of the specification: its search text is
"delta lake tutorial lakehouse co". -/
def sampleLake : RawItem :=
  { title := .val "Delta Lake Tutorial".toList, company := .val "Lakehouse Co".toList,
    date := .val "2024-01-01".toList }

/-- The year sections of the blog page for the one blog `sampleLake`. -/
def sampleLakeSections : List Index.SectionEl :=
  renderedSections asciiLower [sampleLake]

/-- A blog whose one project slug contains a space. -/
def sampleSpaced : RawItem :=
  { title := .val "S".toList, url := .val "http://s".toList, date := .val "2024-04-01".toList,
    project_slugs := .val ["apache iceberg".toList] }

/-- A blog with two project slugs. -/
def sampleSlugs : RawItem :=
  { title := .val "I".toList, url := .val "http://i".toList, date := .val "2024-05-01".toList,
    project_slugs := .val ["iceberg".toList, "delta".toList] }

/-- The year sections of the blog page for the one blog `sampleSpaced`. -/
def sampleSpacedSections : List Index.SectionEl :=
  renderedSections asciiLower [sampleSpaced]

/-- The year sections of the blog page for the one blog `sampleSlugs`. -/
def sampleSlugsSections : List Index.SectionEl :=
  renderedSections asciiLower [sampleSlugs]

/-- A podcast episode of 2024. -/
def sampleEpisode2024 : RawItem :=
  { episode_title := .val "One".toList, url := .val "http://1".toList,
    publication_date := .val "2024-05-01".toList, podcast_title := .val "Show".toList }

/-- A podcast episode without a `publication_date`. -/
def sampleEpisodeUndated : RawItem :=
  { episode_title := .val "Two".toList, url := .val "http://2".toList,
    podcast_title := .val "Show".toList }

/-- A podcast episode of 2023. -/
def sampleEpisode2023 : RawItem :=
  { episode_title := .val "Three".toList, url := .val "http://3".toList,
    publication_date := .val "2023-11-20".toList, podcast_title := .val "Show".toList }

/-- The state of the podcast page with the three sample episodes loaded. -/
def samplePodcastState : Podcasts.State :=
  { episodes := [sampleEpisode2023, sampleEpisodeUndated, sampleEpisode2024] }

/-- A blog whose title holds a script tag and an ampersand. -/
def sampleScript : Staticgen.Item :=
  { title := .val "<script>alert(1)</script> & more".toList, url := .val "http://x".toList,
    date := .val "2024-01-01".toList, author := .val "A&B".toList, company := .undefined,
    tags := [] }

/-- A talk of 2022 whose text does not hold the letter "x". -/
def sampleTalk2022 : RawItem :=
  { title := .val "Lakehouse basics".toList, url := .val "http://b".toList,
    date := .val "2022-09-01".toList, speakers := .val ["Ann".toList] }

/-- A talk of January 2024. -/
def sampleTalkEarly : RawItem :=
  { title := .val "Early".toList, url := .val "http://early".toList,
    date := .val "2024-01-10".toList, speakers := .val ["Ann".toList] }

/-- A talk of March 2024. -/
def sampleTalkLate : RawItem :=
  { title := .val "Late".toList, url := .val "http://late".toList,
    date := .val "2024-03-05".toList, speakers := .val ["Bob".toList] }

/-- The state of the blog page after `init` has loaded the one blog `sampleA`, with the
query "zzz", which the blog does not match. -/
def sampleBlogState : Index.State :=
  { blogs := [Index.initBlog (isoEnv 0) sampleA]
    grouped := Index.groupByYear (isoEnv 0) [Index.initBlog (isoEnv 0) sampleA]
    query := "zzz".toList }

/-- A podcast episode of January 2024. -/
def sampleEpisodeJan : RawItem :=
  { episode_title := .val "Jan".toList, url := .val "http://jan".toList,
    publication_date := .val "2024-01-15".toList, podcast_title := .val "Show".toList }

/-- A podcast episode of March 2024. -/
def sampleEpisodeMar : RawItem :=
  { episode_title := .val "Mar".toList, url := .val "http://mar".toList,
    publication_date := .val "2024-03-20".toList, podcast_title := .val "Show".toList }

/-- Markup of a year section, as the static build leaves it in a mount container. -/
def sampleServerHtml : Str :=
  "<section id=\"2024\" class=\"year-section\">...</section>".toList

/-- An item whose title is the Greek text "ΑΣΑ". -/
def sampleSigma : RawItem :=
  { title := .val "ΑΣΑ".toList, url := .val "http://s".toList, date := .val "2024-02-02".toList }

/-- The year sections of the blog page for the one blog `sampleSigma`. -/
def sampleSigmaSections : List Index.SectionEl :=
  renderedSections sigmaLower [sampleSigma]

/-- The year sections of the blog page for the one blog `sampleA`. -/
def sampleASections : List Index.SectionEl :=
  renderedSections asciiLower [sampleA]

/-- A talk without a `url` property. -/
def sampleTalkNoUrl : RawItem :=
  { title := .val "Keynote".toList, date := .val "2024-03-05".toList,
    speakers := .val ["Ann".toList] }

/-- A page shell without injection root. -/
def sampleShell : Str :=
  "<html><body><p>no root</p></body></html>".toList

/-- A page shell without injection root and without `</body>`. -/
def sampleFragment : Str :=
  "<p>no root</p>".toList

/-- A page shell with the injection root of the talk page. -/
def sampleTalkShell : Str :=
  "<body><div class=".toList ++ quoted "grid".toList ++ " id=".toList ++
    quoted "talks-root".toList ++ ">old</div></body>".toList

/-- A time as `toISOString` writes it. -/
def sampleNow : Str :=
  "2024-01-01T00:00:00.000Z".toList

/-- A talk without a `date` property. -/
def sampleTalkUndated : RawItem :=
  { title := .val "Soon".toList, url := .val "http://soon".toList,
    speakers := .val ["Ann".toList] }

/-! ## Theorems -/

/-! ### The `Map` operations and the grouping loop -/

theorem mapKeys_mapModify {κ ν : Type} [DecidableEq κ] (m : List (κ × ν)) (k : κ) (f : ν → ν) :
    mapKeys (mapModify m k f) = mapKeys m := by
  unfold mapKeys mapModify
  rw [List.map_map]
  apply List.map_congr_left
  intro e _
  by_cases h : e.1 = k <;> simp [h]

theorem mapHas_iff {κ ν : Type} [DecidableEq κ] (m : List (κ × ν)) (k : κ) :
    mapHas m k = true ↔ k ∈ mapKeys m := by
  unfold mapHas mapKeys
  simp only [List.any_eq_true, decide_eq_true_eq, List.mem_map]

theorem groupLoop_snoc {α β κ : Type} [DecidableEq κ] (key : α → κ) (f : α → β)
    (l : List α) (x : α) :
    groupLoop key f (l ++ [x]) =
      mapModify
        (if !mapHas (groupLoop key f l) (key x) then mapSet (groupLoop key f l) (key x) []
          else groupLoop key f l)
        (key x) (fun arr => arr ++ [f x]) := by
  unfold groupLoop
  rw [List.foldl_append]
  rfl

/-- The invariant of the grouping loop: the keys are distinct, they are the keys of the items
seen, and each key holds the items of that key, in order. -/
theorem groupLoop_inv {α β κ : Type} [DecidableEq κ] (key : α → κ) (f : α → β) (l : List α) :
    (mapKeys (groupLoop key f l)).Nodup ∧
    (∀ k, k ∈ mapKeys (groupLoop key f l) ↔ ∃ x ∈ l, key x = k) ∧
    (∀ e ∈ groupLoop key f l, e.2 = (l.filter (fun x => decide (key x = e.1))).map f) := by
  induction l using List.reverseRecOn with
  | nil =>
    refine ⟨?_, ?_, ?_⟩ <;> simp [groupLoop, mapKeys]
  | append_singleton l x ih =>
    obtain ⟨hnd, hkeys, hvals⟩ := ih
    rw [groupLoop_snoc]
    by_cases hk : key x ∈ mapKeys (groupLoop key f l)
    · have hhas : mapHas (groupLoop key f l) (key x) = true := (mapHas_iff _ _).2 hk
      simp only [hhas, Bool.not_true, Bool.false_eq_true, if_false]
      refine ⟨?_, ?_, ?_⟩
      · rw [mapKeys_mapModify]; exact hnd
      · intro k
        rw [mapKeys_mapModify, hkeys]
        constructor
        · rintro ⟨y, hy, rfl⟩
          exact ⟨y, List.mem_append_left _ hy, rfl⟩
        · rintro ⟨y, hy, rfl⟩
          rcases List.mem_append.1 hy with h | h
          · exact ⟨y, h, rfl⟩
          · rw [List.mem_singleton.1 h]
            exact (hkeys _).1 hk
      · intro e he
        unfold mapModify at he
        obtain ⟨e0, he0, rfl⟩ := List.mem_map.1 he
        by_cases h : e0.1 = key x
        · simp only [h, if_true, List.filter_append, List.map_append]
          rw [hvals e0 he0, h]
          simp
        · have h' : ¬ key x = e0.1 := fun c => h c.symm
          simp only [h, if_false, List.filter_append, List.map_append]
          rw [hvals e0 he0]
          simp [h']
    · have hhas : mapHas (groupLoop key f l) (key x) = false := by
        cases hb : mapHas (groupLoop key f l) (key x) with
        | false => rfl
        | true => exact absurd ((mapHas_iff _ _).1 hb) hk
      have hset : mapSet (groupLoop key f l) (key x) ([] : List β) =
          groupLoop key f l ++ [(key x, [])] := by
        unfold mapSet
        simp [hhas]
      have hmod : mapModify (groupLoop key f l ++ [(key x, [])]) (key x)
          (fun arr => arr ++ [f x]) = groupLoop key f l ++ [(key x, [f x])] := by
        unfold mapModify
        rw [List.map_append]
        congr 1
        · conv_rhs => rw [← List.map_id (groupLoop key f l)]
          apply List.map_congr_left
          intro e he
          have : e.1 ≠ key x := fun c => hk (c ▸ List.mem_map.2 ⟨e, he, rfl⟩)
          simp [this]
        · simp
      simp only [hhas, Bool.not_false, if_true, hset, hmod]
      have hnone : l.filter (fun y => decide (key y = key x)) = [] := by
        rw [List.filter_eq_nil_iff]
        intro y hy
        simp only [decide_eq_true_eq]
        intro c
        exact hk ((hkeys _).2 ⟨y, hy, c⟩)
      refine ⟨?_, ?_, ?_⟩
      · unfold mapKeys at hnd hk ⊢
        rw [List.map_append, List.nodup_append]
        refine ⟨hnd, by simp, ?_⟩
        intro a ha hb
        simp only [List.map_cons, List.map_nil, List.mem_singleton] at hb
        exact hk (hb ▸ ha)
      · intro k
        have hk1 : mapKeys (groupLoop key f l ++ [(key x, [f x])]) =
            mapKeys (groupLoop key f l) ++ [key x] := by
          simp [mapKeys]
        rw [hk1, List.mem_append, hkeys]
        constructor
        · rintro (⟨y, hy, rfl⟩ | h)
          · exact ⟨y, List.mem_append_left _ hy, rfl⟩
          · exact ⟨x, by simp, (List.mem_singleton.1 h).symm⟩
        · rintro ⟨y, hy, rfl⟩
          rcases List.mem_append.1 hy with h | h
          · exact Or.inl ⟨y, h, rfl⟩
          · rw [List.mem_singleton.1 h]
            exact Or.inr (List.mem_singleton.2 rfl)
      · intro e he
        rcases List.mem_append.1 he with h | h
        · have hne : ¬ key x = e.1 := fun c => hk (c ▸ List.mem_map.2 ⟨e, h, rfl⟩)
          rw [hvals e h]
          simp [List.filter_append, hne]
        · rw [List.mem_singleton.1 h]
          simp [List.filter_append, hnone]

theorem mapGet_of_mem_keys {κ ν : Type} [DecidableEq κ] (m : List (κ × ν)) (k : κ)
    (hk : k ∈ mapKeys m) : ∃ v, mapGet m k = some v ∧ (k, v) ∈ m := by
  unfold mapKeys at hk
  obtain ⟨e, he, hek⟩ := List.mem_map.1 hk
  cases hf : m.find? (fun e => decide (e.1 = k)) with
  | none =>
    rw [List.find?_eq_none] at hf
    exact absurd (by simpa using hek) (hf e he)
  | some e1 =>
    have h1 : e1.1 = k := by simpa using List.find?_some hf
    have h2 : e1 ∈ m := List.mem_of_find?_eq_some hf
    refine ⟨e1.2, ?_, ?_⟩
    · unfold mapGet
      rw [hf]
      rfl
    · rw [← h1]
      exact h2

theorem mapGet_groupLoop {α β κ : Type} [DecidableEq κ] (key : α → κ) (f : α → β)
    (l : List α) (k : κ) (hk : k ∈ mapKeys (groupLoop key f l)) :
    mapGet (groupLoop key f l) k = some ((l.filter (fun x => decide (key x = k))).map f) := by
  obtain ⟨v, hv, hmem⟩ := mapGet_of_mem_keys _ k hk
  rw [hv]
  exact congrArg some ((groupLoop_inv key f l).2.2 (k, v) hmem)

theorem mapKeys_mapValues {κ ν μ : Type} (m : List (κ × ν)) (g : ν → μ) :
    mapKeys (m.map (fun e => (e.1, g e.2))) = mapKeys m := by
  unfold mapKeys
  rw [List.map_map]
  rfl

theorem mapGet_mapValues {κ ν μ : Type} [DecidableEq κ] (m : List (κ × ν)) (g : ν → μ)
    (k : κ) : mapGet (m.map (fun e => (e.1, g e.2))) k = (mapGet m k).map g := by
  unfold mapGet
  induction m with
  | nil => rfl
  | cons e m ih =>
    by_cases h : e.1 = k
    · simp [List.find?_cons, h]
    · simpa [List.find?_cons, h] using ih

theorem groupLoop_map {α β γ κ : Type} [DecidableEq κ] (key : α → κ) (f : α → β)
    (g : γ → α) (l : List γ) :
    groupLoop key f (l.map g) = groupLoop (fun x => key (g x)) (fun x => f (g x)) l := by
  unfold groupLoop
  rw [List.foldl_map]

/-! ### The sort -/

theorem jsSort_perm {α : Type} (cmp : α → α → Option Int) (l : List α) :
    (jsSort cmp l).Perm l :=
  List.perm_insertionSort _ l

theorem mem_jsSort {α : Type} (cmp : α → α → Option Int) (l : List α) (x : α) :
    x ∈ jsSort cmp l ↔ x ∈ l :=
  (jsSort_perm cmp l).mem_iff

theorem sortLe_descCmp {α : Type} (T : α → Option Int) (a b : α) (ta tb : Int)
    (ha : T a = some ta) (hb : T b = some tb) :
    sortLe (descCmp T) a b = true ↔ tb ≤ ta := by
  simp [sortLe, descCmp, numSub, ha, hb]

theorem sortLe_descCmp_of_eq {α : Type} (T : α → Option Int) (a b : α) (h : T a = T b) :
    sortLe (descCmp T) a b = true := by
  unfold sortLe descCmp
  rw [h]
  cases T b <;> simp [numSub]

theorem orderedInsert_congr {α : Type} (r s : α → α → Prop) [DecidableRel r] [DecidableRel s]
    (a : α) (l : List α) (h : ∀ b ∈ l, (r a b ↔ s a b)) :
    l.orderedInsert r a = l.orderedInsert s a := by
  induction l with
  | nil => rfl
  | cons b l ih =>
    have hb := h b (List.mem_cons_self _ _)
    have hl : ∀ c ∈ l, (r a c ↔ s a c) := fun c hc => h c (List.mem_cons_of_mem _ hc)
    by_cases hr : r a b
    · simp [List.orderedInsert, hr, hb.1 hr]
    · have hs : ¬ s a b := fun c => hr (hb.2 c)
      simp [List.orderedInsert, hr, hs, ih hl]

theorem insertionSort_congr {α : Type} (r s : α → α → Prop) [DecidableRel r] [DecidableRel s]
    (l : List α) (h : ∀ a ∈ l, ∀ b ∈ l, (r a b ↔ s a b)) :
    l.insertionSort r = l.insertionSort s := by
  induction l with
  | nil => rfl
  | cons a l ih =>
    have hl : ∀ x ∈ l, ∀ y ∈ l, (r x y ↔ s x y) := fun x hx y hy =>
      h x (List.mem_cons_of_mem _ hx) y (List.mem_cons_of_mem _ hy)
    simp only [List.insertionSort]
    rw [ih hl]
    apply orderedInsert_congr
    intro b hb
    exact h a (List.mem_cons_self _ _) b
      (List.mem_cons_of_mem _ ((List.mem_insertionSort s).1 hb))

theorem descBy_total {α : Type} (k : α → Int) : IsTotal α (DescBy k) :=
  ⟨fun a b => le_total (k b) (k a)⟩

theorem descBy_trans {α : Type} (k : α → Int) : IsTrans α (DescBy k) :=
  ⟨fun _ _ _ hab hbc => le_trans hbc hab⟩

/-- On a list whose time values are all numbers, the sort by `(a, b) => T(b) - T(a)` is the
insertion sort by descending time value. -/
theorem jsSort_descCmp_eq {α : Type} (T : α → Option Int) (l : List α)
    (hv : ∀ x ∈ l, (T x).isSome = true) :
    jsSort (descCmp T) l =
      l.insertionSort (DescBy (timeKey T)) := by
  unfold jsSort
  apply insertionSort_congr
  intro a ha b hb
  obtain ⟨ta, hta⟩ := Option.isSome_iff_exists.1 (hv a ha)
  obtain ⟨tb, htb⟩ := Option.isSome_iff_exists.1 (hv b hb)
  rw [sortLe_descCmp T a b ta tb hta htb]
  simp [DescBy, timeKey, hta, htb]

theorem jsSort_descCmp_sorted {α : Type} (T : α → Option Int) (l : List α)
    (hv : ∀ x ∈ l, (T x).isSome = true) :
    (jsSort (descCmp T) l).Pairwise (NotLater T) := by
  rw [jsSort_descCmp_eq T l hv]
  haveI := descBy_total (timeKey T)
  haveI := descBy_trans (timeKey T)
  have hs := List.sorted_insertionSort (DescBy (timeKey T)) l
  have hmem : ∀ x, x ∈ l.insertionSort (DescBy (timeKey T)) → x ∈ l := fun x hx =>
    (List.mem_insertionSort (DescBy (timeKey T))).1 hx
  refine List.Pairwise.imp_of_mem ?_ hs
  intro a b ha hb hab
  obtain ⟨ta, hta⟩ := Option.isSome_iff_exists.1 (hv a (hmem a ha))
  obtain ⟨tb, htb⟩ := Option.isSome_iff_exists.1 (hv b (hmem b hb))
  refine ⟨ta, tb, hta, htb, ?_⟩
  simpa [DescBy, timeKey, hta, htb] using hab

/-- A list already in descending order is left as it is by the sort. -/
theorem jsSort_of_sorted {α : Type} (T : α → Option Int) (l : List α)
    (hs : l.Pairwise (NotLater T)) : jsSort (descCmp T) l = l := by
  unfold jsSort
  apply List.Sorted.insertionSort_eq
  refine List.Pairwise.imp ?_ hs
  rintro a b ⟨ta, tb, hta, htb, h⟩
  exact (sortLe_descCmp T a b ta tb hta htb).2 h

/-- Stability: two items with the same time value keep their order. -/
theorem jsSort_stable {α : Type} (T : α → Option Int) (l : List α) (a b : α)
    (h : T a = T b) (hab : [a, b].Sublist l) : [a, b].Sublist (jsSort (descCmp T) l) :=
  List.pair_sublist_insertionSort (sortLe_descCmp_of_eq T a b h) hab

/-! ### The two generators in closed form -/

theorem Generate.byDateDesc_descCmp (env : DateEnv) :
    Generate.byDateDesc env = descCmp (fun b => env.newDate b.date) :=
  rfl

theorem Staticgen.itemDateDesc_descCmp (env : DateEnv) :
    Staticgen.byDateDesc env = descCmp (fun i => env.newDate i.date) :=
  rfl

theorem Generate.normalize_val (env : DateEnv) (blogs : List RawItem) :
    Generate.normalize env (.val blogs) =
      jsSort (Generate.byDateDesc env)
        (blogs.filter (fun b => b.title.truthy && b.date.truthy && b.url.truthy)) := by
  unfold Generate.normalize Js.orEmpty
  simp

theorem Generate.newDate_withYear (env : DateEnv) (b : RawItem) :
    env.newDate (Generate.withYear env b).date = env.newDate b.date :=
  rfl

theorem Generate.yearOf_withYear (env : DateEnv) (b : RawItem) :
    Generate.yearOf env (Generate.withYear env b) = Generate.yearOf env b :=
  rfl

theorem Generate.withYear_withYear (env : DateEnv) (b : RawItem) :
    Generate.withYear env (Generate.withYear env b) = Generate.withYear env b :=
  rfl

/-- The sections of `generate.js`: one per year of `yearsDesc`, holding the items of that
year in the order of the sorted list, each with its `year`, sorted once more. -/
theorem Generate.main_eq (env : DateEnv) (blogs : Js (List RawItem)) :
    Generate.main env blogs =
      (Generate.yearsDesc env blogs).map (fun y =>
        Generate.buildYearSection y
          (jsSort (Generate.byDateDesc env)
            (((Generate.normalize env blogs).filter
              (fun b => decide (Generate.yearOf env b = y))).map (Generate.withYear env)))) := by
  unfold Generate.main
  apply List.map_congr_left
  intro y hy
  have hy1 : y ∈ mapKeys (groupLoop (Generate.yearOf env) (Generate.withYear env)
      (Generate.normalize env blogs)) := by
    unfold Generate.yearsDesc at hy
    rw [mem_jsSort] at hy
    unfold Generate.groupByYear at hy
    rwa [mapKeys_mapValues] at hy
  unfold Generate.groupByYear
  simp only []
  rw [mapGet_mapValues, mapGet_groupLoop _ _ _ _ hy1]
  rfl

/-- The sections of `staticgen.js`: one per year, holding the items of that year in the order
of the sorted list. -/
theorem Staticgen.sortAndGroup_eq (env : DateEnv) (normalized : List Staticgen.Item) :
    Staticgen.sortAndGroup env normalized =
      (jsSort Staticgen.byYearDesc
        (mapKeys (groupLoop (Staticgen.yearOf env) (fun item => item)
          (Staticgen.sortItems env normalized)))).map (fun y =>
        Staticgen.buildYearSection y
          ((Staticgen.sortItems env normalized).filter
            (fun i => decide (Staticgen.yearOf env i = y)))) := by
  unfold Staticgen.sortAndGroup
  apply List.map_congr_left
  intro y hy
  rw [mem_jsSort] at hy
  rw [mapGet_groupLoop _ _ _ _ hy]
  simp

/-! ### Order inside a year bucket -/

theorem pairwise_filter_map_notLater {α : Type} (T : α → Option Int) (g : α → α)
    (hg : ∀ x, T (g x) = T x) (p : α → Bool) (l : List α) (hs : l.Pairwise (NotLater T)) :
    ((l.filter p).map g).Pairwise (NotLater T) := by
  rw [List.pairwise_map]
  refine List.Pairwise.imp ?_ (hs.sublist (List.filter_sublist l))
  intro a b hab
  unfold NotLater at hab ⊢
  rw [hg a, hg b]
  exact hab

theorem pair_sublist_filter {α : Type} (p : α → Bool) (l : List α) (a b : α)
    (ha : p a = true) (hb : p b = true) (h : [a, b].Sublist l) :
    [a, b].Sublist (l.filter p) := by
  have := h.filter p
  simpa [List.filter_cons, ha, hb] using this

theorem Generate.bucket_sorted (env : DateEnv) (blogs : List RawItem)
    (hv : ∀ b ∈ blogs, (env.newDate b.date).isSome = true) (y : Option Int) :
    jsSort (Generate.byDateDesc env)
        (((Generate.normalize env (.val blogs)).filter
          (fun b => decide (Generate.yearOf env b = y))).map (Generate.withYear env)) =
      ((Generate.normalize env (.val blogs)).filter
        (fun b => decide (Generate.yearOf env b = y))).map (Generate.withYear env) ∧
    (((Generate.normalize env (.val blogs)).filter
        (fun b => decide (Generate.yearOf env b = y))).map (Generate.withYear env)).Pairwise
      (NotLater (fun b => env.newDate b.date)) := by
  have hs : (Generate.normalize env (.val blogs)).Pairwise
      (NotLater (fun b => env.newDate b.date)) := by
    rw [Generate.normalize_val, Generate.byDateDesc_descCmp]
    apply jsSort_descCmp_sorted
    intro x hx
    exact hv x (List.mem_filter.1 hx).1
  have hp := pairwise_filter_map_notLater (fun b => env.newDate b.date) (Generate.withYear env)
    (Generate.newDate_withYear env) (fun b => decide (Generate.yearOf env b = y)) _ hs
  exact ⟨by rw [Generate.byDateDesc_descCmp]; exact jsSort_of_sorted _ _ hp, hp⟩

/-- C1. In every year bucket of `generate.js` (the sort of `main`, then `groupByYear`) and of
`staticgen.js` (`buildPage`), on a list whose dates all parse, the items are in non-increasing
date order, and two items with the same date that pass the filter stand in the bucket of
their year in the order they had in the input list. -/
theorem bucket_order_stable (env : DateEnv) (blogs : List RawItem)
    (type : Staticgen.ItemType) (data : List RawItem)
    (hblogs : ∀ b ∈ blogs, (env.newDate b.date).isSome = true)
    (hdata : ∀ i ∈ data, (env.newDate (Staticgen.normalizeData i type).date).isSome = true) :
    (∀ sec ∈ Generate.main env (.val blogs),
      sec.items.Pairwise (NotLater (fun b => env.newDate b.date)) ∧
      ∀ a b, [a, b].Sublist blogs →
        (a.title.truthy && a.date.truthy && a.url.truthy) = true →
        (b.title.truthy && b.date.truthy && b.url.truthy) = true →
        env.newDate a.date = env.newDate b.date →
        Generate.yearOf env a = sec.year →
        [Generate.withYear env a, Generate.withYear env b].Sublist sec.items) ∧
    (∀ sec ∈ Staticgen.buildPage env type data,
      sec.items.Pairwise (NotLater (fun i => env.newDate i.date)) ∧
      ∀ a b, [a, b].Sublist data →
        ((Staticgen.normalizeData a type).title.truthy &&
          (Staticgen.normalizeData a type).url.truthy) = true →
        ((Staticgen.normalizeData b type).title.truthy &&
          (Staticgen.normalizeData b type).url.truthy) = true →
        env.newDate (Staticgen.normalizeData a type).date =
          env.newDate (Staticgen.normalizeData b type).date →
        Staticgen.yearOf env (Staticgen.normalizeData a type) = sec.year →
        [Staticgen.normalizeData a type, Staticgen.normalizeData b type].Sublist sec.items) := by
  constructor
  · intro sec hsec
    rw [Generate.main_eq] at hsec
    obtain ⟨y, _, rfl⟩ := List.mem_map.1 hsec
    obtain ⟨heq, hp⟩ := Generate.bucket_sorted env blogs hblogs y
    simp only [Generate.buildYearSection]
    rw [heq]
    refine ⟨hp, ?_⟩
    intro a b hab ha hb ht hy
    have h1 := pair_sublist_filter
      (fun b : RawItem => b.title.truthy && b.date.truthy && b.url.truthy) blogs a b ha hb hab
    have h2 := jsSort_stable (fun b : RawItem => env.newDate b.date) _ a b ht h1
    rw [← Generate.byDateDesc_descCmp, ← Generate.normalize_val] at h2
    have hyb : Generate.yearOf env b = y := by
      rw [← hy]
      unfold Generate.yearOf
      rw [ht]
    have h3 := pair_sublist_filter (fun b => decide (Generate.yearOf env b = y)) _ a b
      (by simpa using hy) (by simpa using hyb) h2
    exact h3.map (Generate.withYear env)
  · intro sec hsec
    unfold Staticgen.buildPage at hsec
    rw [Staticgen.sortAndGroup_eq] at hsec
    obtain ⟨y, _, rfl⟩ := List.mem_map.1 hsec
    simp only [Staticgen.buildYearSection]
    have hs : (Staticgen.sortItems env (data.map (fun item =>
        Staticgen.normalizeData item type))).Pairwise
        (NotLater (fun i => env.newDate i.date)) := by
      unfold Staticgen.sortItems
      rw [Staticgen.itemDateDesc_descCmp]
      apply jsSort_descCmp_sorted
      intro x hx
      obtain ⟨i, hi, rfl⟩ := List.mem_map.1 (List.mem_filter.1 hx).1
      exact hdata i hi
    refine ⟨hs.sublist (List.filter_sublist _), ?_⟩
    intro a b hab ha hb ht hy
    have h0 : [Staticgen.normalizeData a type, Staticgen.normalizeData b type].Sublist
        (data.map (fun item => Staticgen.normalizeData item type)) :=
      hab.map (fun item => Staticgen.normalizeData item type)
    have h1 := pair_sublist_filter
      (fun i : Staticgen.Item => i.title.truthy && i.url.truthy) _ _ _ ha hb h0
    have h2 := jsSort_stable (fun i : Staticgen.Item => env.newDate i.date) _ _ _ ht h1
    rw [← Staticgen.itemDateDesc_descCmp] at h2
    have hyb : Staticgen.yearOf env (Staticgen.normalizeData b type) = y := by
      rw [← hy]
      unfold Staticgen.yearOf
      rw [ht]
    exact pair_sublist_filter (fun i => decide (Staticgen.yearOf env i = y)) _ _ _
      (by simpa using hy) (by simpa using hyb) h2

/-! ### Uniqueness of the stable sorted arrangement -/

/-- The sort keeps, for every time value, the items of that time value in input order. -/
theorem jsSort_filter_time {α : Type} (T : α → Option Int) (l : List α) (t : Option Int) :
    (jsSort (descCmp T) l).filter (fun x => decide (T x = t)) =
      l.filter (fun x => decide (T x = t)) := by
  have hc : (l.filter (fun x => decide (T x = t))).Pairwise
      (fun a b => sortLe (descCmp T) a b = true) := by
    rw [List.pairwise_filter]
    refine List.pairwise_of_forall ?_
    intro a b ha hb
    apply sortLe_descCmp_of_eq
    rw [ha, hb]
  have h1 : (l.filter (fun x => decide (T x = t))).Sublist (jsSort (descCmp T) l) :=
    List.sublist_insertionSort hc (List.filter_sublist l)
  have h2 := h1.filter (fun x => decide (T x = t))
  rw [List.filter_filter] at h2
  simp only [Bool.and_self] at h2
  have h3 : ((jsSort (descCmp T) l).filter (fun x => decide (T x = t))).length =
      (l.filter (fun x => decide (T x = t))).length :=
    ((jsSort_perm (descCmp T) l).filter _).length_eq
  exact (h2.eq_of_length h3.symm).symm

theorem eq_nil_of_filter_time {α : Type} (T : α → Option Int) (l : List α)
    (h : ∀ t, l.filter (fun x => decide (T x = t)) = []) : l = [] := by
  cases l with
  | nil => rfl
  | cons b l =>
    have := h (T b)
    simp [List.filter_cons] at this

/-- Two lists in descending order that agree, for every time value, on the items of that time
value in order, are equal. -/
theorem eq_of_sorted_of_filter_time {α : Type} (T : α → Option Int) :
    ∀ (l₁ l₂ : List α), l₁.Pairwise (NotLater T) → l₂.Pairwise (NotLater T) →
      (∀ t, l₁.filter (fun x => decide (T x = t)) = l₂.filter (fun x => decide (T x = t))) →
      l₁ = l₂
  | [], l₂, _, _, h => (eq_nil_of_filter_time T l₂ (fun t => by rw [← h t]; rfl)).symm
  | a :: l₁, [], _, _, h => eq_nil_of_filter_time T (a :: l₁) (fun t => by rw [h t]; rfl)
  | a :: l₁, b :: l₂, h₁, h₂, h => by
    have ha : a ∈ b :: l₂ := by
      have : a ∈ (b :: l₂).filter (fun x => decide (T x = T a)) := by
        rw [← h (T a)]
        simp [List.filter_cons]
      exact (List.mem_filter.1 this).1
    have hb : b ∈ a :: l₁ := by
      have : b ∈ (a :: l₁).filter (fun x => decide (T x = T b)) := by
        rw [h (T b)]
        simp [List.filter_cons]
      exact (List.mem_filter.1 this).1
    have hT : T a = T b := by
      rcases List.mem_cons.1 ha with rfl | ha'
      · rfl
      · rcases List.mem_cons.1 hb with rfl | hb'
        · rfl
        · obtain ⟨tb, ta, hb1, ha1, hle1⟩ := (List.pairwise_cons.1 h₂).1 a ha'
          obtain ⟨ta', tb', ha2, hb2, hle2⟩ := (List.pairwise_cons.1 h₁).1 b hb'
          rw [ha1] at ha2
          rw [hb1] at hb2
          cases ha2
          cases hb2
          rw [ha1, hb1, le_antisymm hle1 hle2]
    have h0 := h (T a)
    have hba : T b = T a := hT.symm
    simp only [List.filter_cons, decide_True, if_true, hba] at h0
    have hab : a = b := (List.cons.inj h0).1
    subst hab
    have htl : ∀ t, l₁.filter (fun x => decide (T x = t)) =
        l₂.filter (fun x => decide (T x = t)) := by
      intro t
      have ht := h t
      by_cases hc : T a = t
      · simp only [List.filter_cons, hc, decide_True, if_true] at ht
        exact (List.cons.inj ht).2
      · simpa only [List.filter_cons, hc, decide_False, Bool.false_eq_true, if_false] using ht
    rw [eq_of_sorted_of_filter_time T l₁ l₂ (List.pairwise_cons.1 h₁).2
      (List.pairwise_cons.1 h₂).2 htl]

theorem flatMap_eq_of_single {κ β : Type} (g : κ → List β) (y0 : κ) :
    ∀ (ys : List κ), ys.Nodup → y0 ∈ ys → (∀ y ∈ ys, y ≠ y0 → g y = []) →
      ys.flatMap g = g y0
  | [], _, h, _ => absurd h (List.not_mem_nil _)
  | y :: ys, hnd, hmem, hg => by
    rw [List.flatMap_cons]
    by_cases hy : y = y0
    · subst hy
      have hrest : ys.flatMap g = [] := by
        rw [List.flatMap_eq_nil_iff]
        intro z hz
        apply hg z (List.mem_cons_of_mem _ hz)
        intro c
        exact (List.nodup_cons.1 hnd).1 (c ▸ hz)
      rw [hrest, List.append_nil]
    · have hmem' : y0 ∈ ys := by
        rcases List.mem_cons.1 hmem with h | h
        · exact absurd h.symm hy
        · exact h
      rw [hg y (List.mem_cons_self _ _) hy, List.nil_append]
      exact flatMap_eq_of_single g y0 ys (List.nodup_cons.1 hnd).2 hmem'
        (fun z hz => hg z (List.mem_cons_of_mem _ hz))

/-- Concatenating the year buckets of a list and keeping the items that satisfy `p` gives the
items of the list that satisfy `p`, when all of these are of one year. -/
theorem filter_flatMap_buckets {α κ : Type} [DecidableEq κ] (yr : α → κ) (p : α → Bool)
    (l : List α) (ys : List κ) (hnd : ys.Nodup) (hall : ∀ x ∈ l, yr x ∈ ys)
    (hone : ∀ x ∈ l, ∀ y ∈ l, p x = true → p y = true → yr x = yr y) :
    (ys.flatMap (fun y => l.filter (fun x => decide (yr x = y)))).filter p = l.filter p := by
  rw [List.filter_flatMap]
  by_cases hex : ∃ x ∈ l, p x = true
  · obtain ⟨x0, hx0, hp0⟩ := hex
    rw [flatMap_eq_of_single _ (yr x0) ys hnd (hall x0 hx0)]
    · rw [List.filter_filter]
      apply List.filter_congr
      intro x hx
      by_cases hpx : p x = true
      · simp [hpx, hone x hx x0 hx0 hpx hp0]
      · simp [hpx]
    · intro y _ hy
      rw [List.filter_filter, List.filter_eq_nil_iff]
      intro x hx hc
      simp only [Bool.and_eq_true, decide_eq_true_eq] at hc
      exact hy (hc.2 ▸ hone x hx x0 hx0 hc.1 hp0)
  · have hnil : l.filter p = [] := by
      rw [List.filter_eq_nil_iff]
      intro x hx hc
      exact hex ⟨x, hx, hc⟩
    rw [hnil, List.flatMap_eq_nil_iff]
    intro y _
    rw [List.filter_filter, List.filter_eq_nil_iff]
    intro x hx hc
    simp only [Bool.and_eq_true] at hc
    exact hex ⟨x, hx, hc.1⟩

/-- Sorting the concatenation of the year buckets of a sorted list gives the list back. -/
theorem jsSort_flatMap_buckets {α κ : Type} [DecidableEq κ] (T : α → Option Int) (yr : α → κ)
    (l : List α) (ys : List κ) (hyr : ∀ a b, T a = T b → yr a = yr b)
    (hs : l.Pairwise (NotLater T)) (hv : ∀ x ∈ l, (T x).isSome = true)
    (hnd : ys.Nodup) (hall : ∀ x ∈ l, yr x ∈ ys) :
    jsSort (descCmp T) (ys.flatMap (fun y => l.filter (fun x => decide (yr x = y)))) = l := by
  apply eq_of_sorted_of_filter_time T
  · apply jsSort_descCmp_sorted
    intro x hx
    obtain ⟨y, _, hxy⟩ := List.mem_flatMap.1 hx
    exact hv x (List.mem_filter.1 hxy).1
  · exact hs
  · intro t
    rw [jsSort_filter_time]
    apply filter_flatMap_buckets yr _ l ys hnd hall
    intro x _ y _ hx hy
    apply hyr
    rw [of_decide_eq_true hx, of_decide_eq_true hy]

/-! ### Order independence and idempotence of the grouping -/

theorem Generate.main_eq_sectionsOf (env : DateEnv) (blogs : Js (List RawItem)) :
    Generate.main env blogs = Generate.sectionsOf env (Generate.normalize env blogs) :=
  rfl

theorem Staticgen.sortAndGroup_eq_sectionsOf (env : DateEnv) (normalized : List Staticgen.Item) :
    Staticgen.sortAndGroup env normalized =
      Staticgen.sectionsOf env (Staticgen.sortItems env normalized) :=
  rfl

/-- Two permutations of a list of items with distinct time values sort to the same list. -/
theorem jsSort_eq_of_perm {α : Type} (T : α → Option Int) (l l' : List α) (hp : l'.Perm l)
    (hv : ∀ x ∈ l, (T x).isSome = true) (hinj : ∀ a ∈ l, ∀ b ∈ l, T a = T b → a = b) :
    jsSort (descCmp T) l' = jsSort (descCmp T) l := by
  have hv' : ∀ x ∈ l', (T x).isSome = true := fun x hx => hv x (hp.mem_iff.1 hx)
  refine List.Perm.eq_of_sorted ?_ (jsSort_descCmp_sorted T l' hv')
    (jsSort_descCmp_sorted T l hv)
    (((jsSort_perm _ l').trans hp).trans (jsSort_perm _ l).symm)
  intro a b ha hb hab hba
  rw [mem_jsSort] at ha hb
  apply hinj a (hp.mem_iff.1 ha) b hb
  obtain ⟨ta, tb, h1, h2, h3⟩ := hab
  obtain ⟨tb', ta', h4, h5, h6⟩ := hba
  rw [h1] at h5
  rw [h2] at h4
  cases h4
  cases h5
  rw [h1, h2, le_antisymm h6 h3]

/-- C3, as amended. For a list of items whose dates parse to pairwise distinct time values,
the filter-sort-group pipeline of `generate.js` (and of `staticgen.js`) returns the same
ordered sequence of year sections for the list and for every permutation of it. -/
theorem pipeline_order_independent (env : DateEnv) (blogs blogs' : List RawItem)
    (type : Staticgen.ItemType) (data data' : List RawItem)
    (hperm : blogs'.Perm blogs)
    (hvalid : ∀ b ∈ blogs, (env.newDate b.date).isSome = true)
    (hdistinct : (blogs.map (fun b => env.newDate b.date)).Nodup)
    (hperm' : data'.Perm data)
    (hvalid' : ∀ i ∈ data, (env.newDate (Staticgen.normalizeData i type).date).isSome = true)
    (hdistinct' :
      (data.map (fun i => env.newDate (Staticgen.normalizeData i type).date)).Nodup) :
    Generate.main env (.val blogs') = Generate.main env (.val blogs) ∧
    Generate.yearsDesc env (.val blogs') = Generate.yearsDesc env (.val blogs) ∧
    Staticgen.buildPage env type data' = Staticgen.buildPage env type data := by
  have hn : Generate.normalize env (.val blogs') = Generate.normalize env (.val blogs) := by
    rw [Generate.normalize_val, Generate.normalize_val, Generate.byDateDesc_descCmp]
    apply jsSort_eq_of_perm
    · exact hperm.filter _
    · intro x hx
      exact hvalid x (List.mem_filter.1 hx).1
    · intro a ha b hb hab
      exact List.inj_on_of_nodup_map hdistinct (List.mem_filter.1 ha).1
        (List.mem_filter.1 hb).1 hab
  have hs : Staticgen.sortItems env (data'.map (fun item => Staticgen.normalizeData item type)) =
      Staticgen.sortItems env (data.map (fun item => Staticgen.normalizeData item type)) := by
    unfold Staticgen.sortItems
    rw [Staticgen.itemDateDesc_descCmp]
    apply jsSort_eq_of_perm
    · exact (hperm'.map _).filter _
    · intro x hx
      obtain ⟨i, hi, rfl⟩ := List.mem_map.1 (List.mem_filter.1 hx).1
      exact hvalid' i hi
    · intro a ha b hb hab
      obtain ⟨i, hi, rfl⟩ := List.mem_map.1 (List.mem_filter.1 ha).1
      obtain ⟨j, hj, rfl⟩ := List.mem_map.1 (List.mem_filter.1 hb).1
      rw [List.inj_on_of_nodup_map hdistinct' hi hj hab]
  refine ⟨?_, ?_, ?_⟩
  · rw [Generate.main_eq_sectionsOf, Generate.main_eq_sectionsOf, hn]
  · unfold Generate.yearsDesc
    rw [hn]
  · unfold Staticgen.buildPage
    rw [Staticgen.sortAndGroup_eq_sectionsOf, Staticgen.sortAndGroup_eq_sectionsOf, hs]

/-- C3, witness of `pipeline_order_independent`: the blogs `A` and `B` in both orders. -/
theorem pipeline_order_independent_witness :
    Generate.main (isoEnv 0) (.val [sampleB, sampleA]) =
        Generate.main (isoEnv 0) (.val [sampleA, sampleB]) ∧
      Generate.yearsDesc (isoEnv 0) (.val [sampleB, sampleA]) =
        Generate.yearsDesc (isoEnv 0) (.val [sampleA, sampleB]) ∧
      Staticgen.buildPage (isoEnv 0) .blog [sampleB, sampleA] =
        Staticgen.buildPage (isoEnv 0) .blog [sampleA, sampleB] :=
  pipeline_order_independent (isoEnv 0) [sampleA, sampleB] [sampleB, sampleA] .blog
    [sampleA, sampleB] [sampleB, sampleA] (List.Perm.swap _ _ _) (by decide) (by decide)
    (List.Perm.swap _ _ _) (by decide) (by decide)

/-- C3, counterexample to the claim as stated: `A` and `C` are valid items published on
the same day, and the pipeline of `generate.js` lists them in input order, so the list and
its permutation give different buckets. -/
theorem pipeline_order_dependent_on_ties :
    (∀ b ∈ [sampleA, sampleC],
      b.title.truthy = true ∧ b.url.truthy = true ∧
        ((isoEnv 0).newDate b.date).isSome = true) ∧
    [sampleC, sampleA].Perm [sampleA, sampleC] ∧
    (Generate.main (isoEnv 0) (.val [sampleA, sampleC])).map (fun s => s.items.map (fun b => b.title)) =
      [[.val "A".toList, .val "C".toList]] ∧
    (Generate.main (isoEnv 0) (.val [sampleC, sampleA])).map (fun s => s.items.map (fun b => b.title)) =
      [[.val "C".toList, .val "A".toList]] :=
  ⟨by decide, List.Perm.swap _ _ _, by decide, by decide⟩

theorem Generate.groupByYear_map_withYear (env : DateEnv) (l : List RawItem) :
    Generate.groupByYear env (l.map (Generate.withYear env)) = Generate.groupByYear env l := by
  unfold Generate.groupByYear
  rw [groupLoop_map]
  rfl

theorem Generate.sectionsOf_map_withYear (env : DateEnv) (l : List RawItem) :
    Generate.sectionsOf env (l.map (Generate.withYear env)) = Generate.sectionsOf env l := by
  unfold Generate.sectionsOf
  rw [Generate.groupByYear_map_withYear]

theorem Generate.truthy_withYear (env : DateEnv) (b : RawItem) :
    ((Generate.withYear env b).title.truthy && (Generate.withYear env b).date.truthy &&
      (Generate.withYear env b).url.truthy) =
      (b.title.truthy && b.date.truthy && b.url.truthy) :=
  rfl

/-- The buckets of `generate.js`, concatenated in `yearsDesc` order, sort back to the sorted
list of step 2 (each item with its `year`). -/
theorem Generate.normalize_flatten (env : DateEnv) (blogs : List RawItem)
    (hvalid : ∀ b ∈ blogs, (env.newDate b.date).isSome = true) :
    Generate.normalize env
        (.val ((Generate.main env (.val blogs)).flatMap (fun sec => sec.items))) =
      (Generate.normalize env (.val blogs)).map (Generate.withYear env) := by
  have hmemS : ∀ x ∈ Generate.normalize env (.val blogs),
      x ∈ blogs ∧ (x.title.truthy && x.date.truthy && x.url.truthy) = true := by
    intro x hx
    rw [Generate.normalize_val, mem_jsSort] at hx
    exact List.mem_filter.1 hx
  have hS : (Generate.normalize env (.val blogs)).Pairwise
      (NotLater (fun b => env.newDate b.date)) := by
    rw [Generate.normalize_val, Generate.byDateDesc_descCmp]
    apply jsSort_descCmp_sorted
    intro x hx
    exact hvalid x (List.mem_filter.1 hx).1
  have hflat : (Generate.main env (.val blogs)).flatMap (fun sec => sec.items) =
      (Generate.yearsDesc env (.val blogs)).flatMap (fun y =>
        ((Generate.normalize env (.val blogs)).map (Generate.withYear env)).filter
          (fun b => decide (Generate.yearOf env b = y))) := by
    rw [Generate.main_eq, List.flatMap_map]
    apply List.flatMap_congr
    intro y _
    simp only [Generate.buildYearSection]
    rw [(Generate.bucket_sorted env blogs hvalid y).1, List.filter_map]
    rfl
  have hpass : ∀ x ∈ (Generate.main env (.val blogs)).flatMap (fun sec => sec.items),
      (x.title.truthy && x.date.truthy && x.url.truthy) = true := by
    intro x hx
    rw [hflat] at hx
    obtain ⟨y, _, hxy⟩ := List.mem_flatMap.1 hx
    obtain ⟨b, hb, rfl⟩ := List.mem_map.1 (List.mem_filter.1 hxy).1
    rw [Generate.truthy_withYear]
    exact (hmemS b hb).2
  rw [Generate.normalize_val, List.filter_eq_self.2 hpass, hflat, Generate.byDateDesc_descCmp]
  apply jsSort_flatMap_buckets (fun b : RawItem => env.newDate b.date) (Generate.yearOf env)
  · intro a b hab
    unfold Generate.yearOf
    rw [hab]
  · rw [List.pairwise_map]
    exact hS
  · intro x hx
    obtain ⟨b, hb, rfl⟩ := List.mem_map.1 hx
    exact hvalid b (hmemS b hb).1
  · unfold Generate.yearsDesc
    rw [(jsSort_perm _ _).nodup_iff]
    unfold Generate.groupByYear
    rw [mapKeys_mapValues]
    exact (groupLoop_inv _ _ _).1
  · intro x hx
    obtain ⟨b, hb, rfl⟩ := List.mem_map.1 hx
    unfold Generate.yearsDesc
    rw [mem_jsSort]
    unfold Generate.groupByYear
    rw [mapKeys_mapValues, (groupLoop_inv _ _ _).2.1]
    exact ⟨b, hb, rfl⟩

/-- The buckets of `staticgen.js`, concatenated in `yearsDesc` order, sort back to the sorted
list of step 1. -/
theorem Staticgen.sortItems_flatten (env : DateEnv) (normalized : List Staticgen.Item)
    (hvalid : ∀ i ∈ normalized, (env.newDate i.date).isSome = true) :
    Staticgen.sortItems env
        ((Staticgen.sortAndGroup env normalized).flatMap (fun sec => sec.items)) =
      Staticgen.sortItems env normalized := by
  have hmemS : ∀ x ∈ Staticgen.sortItems env normalized,
      x ∈ normalized ∧ (x.title.truthy && x.url.truthy) = true := by
    intro x hx
    unfold Staticgen.sortItems at hx
    rw [mem_jsSort] at hx
    exact List.mem_filter.1 hx
  have hS : (Staticgen.sortItems env normalized).Pairwise
      (NotLater (fun i => env.newDate i.date)) := by
    unfold Staticgen.sortItems
    rw [Staticgen.itemDateDesc_descCmp]
    apply jsSort_descCmp_sorted
    intro x hx
    exact hvalid x (List.mem_filter.1 hx).1
  have hflat : (Staticgen.sortAndGroup env normalized).flatMap (fun sec => sec.items) =
      (jsSort Staticgen.byYearDesc
        (mapKeys (groupLoop (Staticgen.yearOf env) (fun item => item)
          (Staticgen.sortItems env normalized)))).flatMap (fun y =>
        (Staticgen.sortItems env normalized).filter
          (fun i => decide (Staticgen.yearOf env i = y))) := by
    rw [Staticgen.sortAndGroup_eq, List.flatMap_map]
    rfl
  have hpass : ∀ x ∈ (Staticgen.sortAndGroup env normalized).flatMap (fun sec => sec.items),
      (x.title.truthy && x.url.truthy) = true := by
    intro x hx
    rw [hflat] at hx
    obtain ⟨y, _, hxy⟩ := List.mem_flatMap.1 hx
    exact (hmemS x (List.mem_filter.1 hxy).1).2
  conv_lhs => unfold Staticgen.sortItems
  rw [List.filter_eq_self.2 hpass, hflat, Staticgen.itemDateDesc_descCmp]
  apply jsSort_flatMap_buckets (fun i : Staticgen.Item => env.newDate i.date)
    (Staticgen.yearOf env)
  · intro a b hab
    unfold Staticgen.yearOf
    rw [hab]
  · exact hS
  · intro x hx
    exact hvalid x (hmemS x hx).1
  · rw [(jsSort_perm _ _).nodup_iff]
    exact (groupLoop_inv _ _ _).1
  · intro x hx
    rw [mem_jsSort, (groupLoop_inv _ _ _).2.1]
    exact ⟨x, hx, rfl⟩

/-- C4. Grouping is idempotent on a list whose dates all parse: with `G` the sections of the
pipeline and `F` the concatenation of the buckets of `G` in the year order of `G`, the same
pipeline run on `F` returns `G`, for `generate.js` (`main`) and for the filter, sort and
group steps of `buildPage` of `staticgen.js`. -/
theorem grouping_idempotent (env : DateEnv) (blogs : List RawItem)
    (type : Staticgen.ItemType) (data : List RawItem)
    (hblogs : ∀ b ∈ blogs, (env.newDate b.date).isSome = true)
    (hdata : ∀ i ∈ data, (env.newDate (Staticgen.normalizeData i type).date).isSome = true) :
    Generate.main env (.val ((Generate.main env (.val blogs)).flatMap (fun sec => sec.items))) =
      Generate.main env (.val blogs) ∧
    Staticgen.sortAndGroup env
        ((Staticgen.buildPage env type data).flatMap (fun sec => sec.items)) =
      Staticgen.buildPage env type data := by
  constructor
  · rw [Generate.main_eq_sectionsOf, Generate.normalize_flatten env blogs hblogs,
      Generate.sectionsOf_map_withYear]
    rfl
  · unfold Staticgen.buildPage
    rw [Staticgen.sortAndGroup_eq_sectionsOf, Staticgen.sortItems_flatten]
    · rfl
    · intro i hi
      obtain ⟨r, hr, rfl⟩ := List.mem_map.1 hi
      exact hdata r hr

/-- C1, witness of `bucket_order_stable`: the blogs `A`, `C` (same day) and `B`. -/
theorem bucket_order_stable_witness :
    (∀ b ∈ [sampleA, sampleC, sampleB], ((isoEnv 0).newDate b.date).isSome = true) ∧
    (∀ sec ∈ Generate.main (isoEnv 0) (.val [sampleA, sampleC, sampleB]),
      sec.items.Pairwise (NotLater (fun b => (isoEnv 0).newDate b.date))) ∧
    (∀ sec ∈ Staticgen.buildPage (isoEnv 0) .blog [sampleA, sampleC, sampleB],
      sec.items.Pairwise (NotLater (fun i => (isoEnv 0).newDate i.date))) :=
  ⟨by decide,
    fun sec hsec => ((bucket_order_stable (isoEnv 0) [sampleA, sampleC, sampleB] .blog
      [sampleA, sampleC, sampleB] (by decide) (by decide)).1 sec hsec).1,
    fun sec hsec => ((bucket_order_stable (isoEnv 0) [sampleA, sampleC, sampleB] .blog
      [sampleA, sampleC, sampleB] (by decide) (by decide)).2 sec hsec).1⟩

/-- C4, witness of `grouping_idempotent`: the blogs `B`, `A`, `C`. -/
theorem grouping_idempotent_witness :
    (∀ b ∈ [sampleB, sampleA, sampleC], ((isoEnv 0).newDate b.date).isSome = true) ∧
    Generate.main (isoEnv 0)
        (.val ((Generate.main (isoEnv 0) (.val [sampleB, sampleA, sampleC])).flatMap
          (fun sec => sec.items))) =
      Generate.main (isoEnv 0) (.val [sampleB, sampleA, sampleC]) ∧
    Staticgen.sortAndGroup (isoEnv 0)
        ((Staticgen.buildPage (isoEnv 0) .blog [sampleB, sampleA, sampleC]).flatMap
          (fun sec => sec.items)) =
      Staticgen.buildPage (isoEnv 0) .blog [sampleB, sampleA, sampleC] :=
  ⟨by decide,
    grouping_idempotent (isoEnv 0) [sampleB, sampleA, sampleC] .blog
      [sampleB, sampleA, sampleC] (by decide) (by decide)⟩

/-! ### The year of an item -/

/-- C5, the code at the failing input. On a host five hours behind UTC, both generators
read the blog dated 2024-01-01 as of the year 2023: the two blogs of the first scenario share
the one section 2023 and the navigation strip is `[2023]`. On a host on UTC the same input
gives the sections 2024 and 2023. -/
theorem new_year_blog_in_previous_year :
    (Generate.main (isoEnv (-300)) (.val [sampleA, sampleB])).map
        (fun sec => (sec.year, sec.items.map (fun b => b.title))) =
      [(some 2023, [.val "A".toList, .val "B".toList])] ∧
    Generate.yearsDesc (isoEnv (-300)) (.val [sampleA, sampleB]) = [some 2023] ∧
    (Staticgen.buildPage (isoEnv (-300)) .blog [sampleA, sampleB]).map
        (fun sec => (sec.year, sec.items.map (fun i => i.title))) =
      [(some 2023, [.val "A".toList, .val "B".toList])] ∧
    (Generate.main (isoEnv 0) (.val [sampleA, sampleB])).map
        (fun sec => (sec.year, sec.items.map (fun b => b.title))) =
      [(some 2024, [.val "A".toList]), (some 2023, [.val "B".toList])] ∧
    Generate.yearsDesc (isoEnv 0) (.val [sampleA, sampleB]) = [some 2024, some 2023] := by
  decide

/-! ### Items that are dropped -/

theorem Generate.mem_main_items (env : DateEnv) (blogs : List RawItem)
    (sec : YearSection (Option Int) RawItem) (x : RawItem)
    (hsec : sec ∈ Generate.main env (.val blogs)) (hx : x ∈ sec.items) :
    ∃ b ∈ blogs, (b.title.truthy && b.date.truthy && b.url.truthy) = true ∧
      x = Generate.withYear env b := by
  rw [Generate.main_eq] at hsec
  obtain ⟨y, _, rfl⟩ := List.mem_map.1 hsec
  simp only [Generate.buildYearSection] at hx
  rw [mem_jsSort] at hx
  obtain ⟨b, hb, rfl⟩ := List.mem_map.1 hx
  have hb' := (List.mem_filter.1 hb).1
  rw [Generate.normalize_val, mem_jsSort] at hb'
  exact ⟨b, (List.mem_filter.1 hb').1, (List.mem_filter.1 hb').2, rfl⟩

theorem Staticgen.mem_buildPage_items (env : DateEnv) (type : Staticgen.ItemType)
    (data : List RawItem) (sec : YearSection (Option Int) Staticgen.Item) (x : Staticgen.Item)
    (hsec : sec ∈ Staticgen.buildPage env type data) (hx : x ∈ sec.items) :
    ∃ i ∈ data, x = Staticgen.normalizeData i type ∧
      (x.title.truthy && x.url.truthy) = true := by
  unfold Staticgen.buildPage at hsec
  rw [Staticgen.sortAndGroup_eq] at hsec
  obtain ⟨y, _, rfl⟩ := List.mem_map.1 hsec
  simp only [Staticgen.buildYearSection] at hx
  have hx' := (List.mem_filter.1 hx).1
  unfold Staticgen.sortItems at hx'
  rw [mem_jsSort] at hx'
  obtain ⟨i, hi, rfl⟩ := List.mem_map.1 (List.mem_filter.1 hx').1
  exact ⟨i, hi, rfl, (List.mem_filter.1 hx').2⟩

theorem Generate.main_count (env : DateEnv) (blogs : Js (List RawItem))
    (sec : YearSection (Option Int) RawItem) (hsec : sec ∈ Generate.main env blogs) :
    sec.count = sec.items.length := by
  unfold Generate.main at hsec
  obtain ⟨y, _, rfl⟩ := List.mem_map.1 hsec
  rfl

theorem Staticgen.buildPage_count (env : DateEnv) (type : Staticgen.ItemType)
    (data : List RawItem) (sec : YearSection (Option Int) Staticgen.Item)
    (hsec : sec ∈ Staticgen.buildPage env type data) : sec.count = sec.items.length := by
  unfold Staticgen.buildPage Staticgen.sortAndGroup at hsec
  obtain ⟨y, _, rfl⟩ := List.mem_map.1 hsec
  rfl

/-- C6, as amended. A blog whose `date` is missing or empty is dropped by `main` of
`generate.js`: every item of every section has a non-empty `date` and is an input blog that
passes the filter, and the sections and the year list are those of the input without the
blogs whose `date` is missing or empty, so no section is created for such a blog. -/
theorem undated_blog_dropped (env : DateEnv) (blogs : List RawItem) :
    (∀ sec ∈ Generate.main env (.val blogs), ∀ x ∈ sec.items,
      x.date.truthy = true ∧
      ∃ b ∈ blogs, b.date.truthy = true ∧ x = Generate.withYear env b) ∧
    Generate.main env (.val blogs) =
      Generate.main env (.val (blogs.filter (fun b => b.date.truthy))) ∧
    Generate.yearsDesc env (.val blogs) =
      Generate.yearsDesc env (.val (blogs.filter (fun b => b.date.truthy))) := by
  have hn : Generate.normalize env (.val (blogs.filter (fun b => b.date.truthy))) =
      Generate.normalize env (.val blogs) := by
    rw [Generate.normalize_val, Generate.normalize_val, List.filter_filter]
    congr 1
    apply List.filter_congr
    intro b _
    cases b.title.truthy <;> cases b.date.truthy <;> cases b.url.truthy <;> rfl
  refine ⟨?_, ?_, ?_⟩
  · intro sec hsec x hx
    obtain ⟨b, hb, hpass, rfl⟩ := Generate.mem_main_items env blogs sec x hsec hx
    have hd : b.date.truthy = true := by
      simp only [Bool.and_eq_true] at hpass
      exact hpass.1.2
    exact ⟨hd, b, hb, hd, rfl⟩
  · rw [Generate.main_eq_sectionsOf, Generate.main_eq_sectionsOf, hn]
  · unfold Generate.yearsDesc
    rw [hn]

/-- C6, counterexample to the claim as stated: the blog `D` has the date "soon", which does
not parse, and `main` of `generate.js` keeps it, in a section whose year is `NaN`. -/
theorem unparseable_date_kept :
    (isoEnv 0).newDate sampleSoon.date = none ∧
    Generate.main (isoEnv 0) (.val [sampleSoon]) =
      [{ year := none, count := 1, items := [Generate.withYear (isoEnv 0) sampleSoon] }] := by
  decide

/-- C7. The sections of both generators (year keys, items and counts) are those of the input
without the items that lack a non-empty title or url (for `staticgen.js`, title and url of the
normalized item): such an item is in no bucket, and every count is the length of its
bucket. -/
theorem invalid_items_ignored (env : DateEnv) (type : Staticgen.ItemType) (l : List RawItem) :
    Generate.main env (.val l) =
      Generate.main env (.val (l.filter (fun b => b.title.truthy && b.url.truthy))) ∧
    (∀ sec ∈ Generate.main env (.val l),
      sec.count = sec.items.length ∧
      ∀ x ∈ sec.items, x.title.truthy = true ∧ x.url.truthy = true) ∧
    Staticgen.buildPage env type l =
      Staticgen.buildPage env type
        (l.filter (fun i => (Staticgen.normalizeData i type).title.truthy &&
          (Staticgen.normalizeData i type).url.truthy)) ∧
    (∀ sec ∈ Staticgen.buildPage env type l,
      sec.count = sec.items.length ∧
      ∀ x ∈ sec.items, x.title.truthy = true ∧ x.url.truthy = true) := by
  refine ⟨?_, ?_, ?_, ?_⟩
  · rw [Generate.main_eq_sectionsOf, Generate.main_eq_sectionsOf, Generate.normalize_val,
      Generate.normalize_val, List.filter_filter]
    congr 2
    apply List.filter_congr
    intro b _
    cases b.title.truthy <;> cases b.date.truthy <;> cases b.url.truthy <;> rfl
  · intro sec hsec
    refine ⟨Generate.main_count env _ sec hsec, ?_⟩
    intro x hx
    obtain ⟨b, _, hpass, rfl⟩ := Generate.mem_main_items env l sec x hsec hx
    simp only [Bool.and_eq_true] at hpass
    exact ⟨hpass.1.1, hpass.2⟩
  · unfold Staticgen.buildPage
    rw [Staticgen.sortAndGroup_eq_sectionsOf, Staticgen.sortAndGroup_eq_sectionsOf]
    congr 1
    unfold Staticgen.sortItems
    congr 1
    rw [List.filter_map, List.filter_map, List.filter_filter]
    congr 1
    apply List.filter_congr
    intro i _
    simp
  · intro sec hsec
    refine ⟨Staticgen.buildPage_count env type l sec hsec, ?_⟩
    intro x hx
    obtain ⟨i, _, _, hpass⟩ := Staticgen.mem_buildPage_items env type l sec x hsec hx
    simp only [Bool.and_eq_true] at hpass
    exact hpass

/-! ### The mapping of `normalizeData` -/

/-- C8, as amended. The mapping of `normalizeData`, variant by variant. Talk: title, url and
date pass through, the author is the speakers joined with ", " (the empty string without
speakers), the company is the event when that is a non-empty string and "Conference"
otherwise, the tags are the raw tags, or empty when absent or null. Podcast: the title is
`episode_title`, the date `publication_date`, the author `podcast_title`, the company
"Podcast", and the tags are always empty. Blog: title, url, date, author and company pass
through, the tags are the raw tags, or empty when absent or null. -/
theorem normalizeData_mapping (item : RawItem) :
    ((Staticgen.normalizeData item .talk).title = item.title ∧
      (Staticgen.normalizeData item .talk).url = item.url ∧
      (Staticgen.normalizeData item .talk).date = item.date ∧
      (∀ l, item.speakers = .val l →
        (Staticgen.normalizeData item .talk).author = .val (jsJoin ", ".toList l)) ∧
      (item.speakers = .undefined ∨ item.speakers = .null →
        (Staticgen.normalizeData item .talk).author = .val []) ∧
      (∀ e, item.event = .val e → e ≠ [] →
        (Staticgen.normalizeData item .talk).company = .val e) ∧
      (item.event = .undefined ∨ item.event = .null ∨ item.event = .val [] →
        (Staticgen.normalizeData item .talk).company = .val "Conference".toList) ∧
      (∀ l, item.tags = .val l → (Staticgen.normalizeData item .talk).tags = l) ∧
      (item.tags = .undefined ∨ item.tags = .null →
        (Staticgen.normalizeData item .talk).tags = [])) ∧
    ((Staticgen.normalizeData item .podcast).title = item.episode_title ∧
      (Staticgen.normalizeData item .podcast).url = item.url ∧
      (Staticgen.normalizeData item .podcast).date = item.publication_date ∧
      (Staticgen.normalizeData item .podcast).author = item.podcast_title ∧
      (Staticgen.normalizeData item .podcast).company = .val "Podcast".toList ∧
      (Staticgen.normalizeData item .podcast).tags = []) ∧
    ((Staticgen.normalizeData item .blog).title = item.title ∧
      (Staticgen.normalizeData item .blog).url = item.url ∧
      (Staticgen.normalizeData item .blog).date = item.date ∧
      (Staticgen.normalizeData item .blog).author = item.author ∧
      (Staticgen.normalizeData item .blog).company = item.company ∧
      (∀ l, item.tags = .val l → (Staticgen.normalizeData item .blog).tags = l) ∧
      (item.tags = .undefined ∨ item.tags = .null →
        (Staticgen.normalizeData item .blog).tags = [])) := by
  refine ⟨⟨rfl, rfl, rfl, ?_, ?_, ?_, ?_, ?_, ?_⟩, ⟨rfl, rfl, rfl, rfl, rfl, rfl⟩,
    ⟨rfl, rfl, rfl, rfl, rfl, ?_, ?_⟩⟩
  · intro l h
    simp [Staticgen.normalizeData, Js.orEmpty, h]
  · rintro (h | h) <;> simp [Staticgen.normalizeData, Js.orEmpty, h, jsJoin]
  · intro e h hne
    cases e with
    | nil => exact absurd rfl hne
    | cons c cs => simp [Staticgen.normalizeData, Js.orStr, h]
  · rintro (h | h | h) <;> simp [Staticgen.normalizeData, Js.orStr, h]
  · intro l h
    simp [Staticgen.normalizeData, Js.orEmpty, h]
  · rintro (h | h) <;> simp [Staticgen.normalizeData, Js.orEmpty, h]
  · intro l h
    simp [Staticgen.normalizeData, Js.orEmpty, h]
  · rintro (h | h) <;> simp [Staticgen.normalizeData, Js.orEmpty, h]

/-- C8, witness of `normalizeData_mapping`: the talk `T` of Ann and Bob, which has no
event and no tags. -/
theorem normalizeData_mapping_witness :
    (Staticgen.normalizeData sampleTalk .talk).author = .val "Ann, Bob".toList ∧
    (Staticgen.normalizeData sampleTalk .talk).company = .val "Conference".toList ∧
    (Staticgen.normalizeData sampleTalk .talk).tags = [] :=
  ⟨(normalizeData_mapping sampleTalk).1.2.2.2.1 ["Ann".toList, "Bob".toList] rfl,
    (normalizeData_mapping sampleTalk).1.2.2.2.2.2.2.1 (Or.inl rfl),
    (normalizeData_mapping sampleTalk).1.2.2.2.2.2.2.2.2 (Or.inl rfl)⟩

/-- C8, counterexample to the claim as stated: the talk `T` has no event, and its company is
"Conference", not the event; the podcast `P` carries tags, and its normalized tags are
empty, not the raw tags. -/
theorem normalizeData_defaults :
    sampleTalk.event = .undefined ∧
    (Staticgen.normalizeData sampleTalk .talk).company = .val "Conference".toList ∧
    samplePodcast.tags = .val ["x".toList] ∧
    (Staticgen.normalizeData samplePodcast .podcast).tags = [] := by
  decide


/-! ### The text filter of the blog page -/

theorem startsWith_iff (s q : Str) : startsWith s q = true ↔ ∃ post, s = q ++ post := by
  induction q generalizing s with
  | nil => cases s <;> simp [startsWith]
  | cons d q ih =>
    cases s with
    | nil => simp [startsWith]
    | cons c s =>
      simp only [startsWith, Bool.and_eq_true, beq_iff_eq, ih, List.cons_append,
        List.cons.injEq]
      constructor
      · rintro ⟨rfl, post, rfl⟩
        exact ⟨post, rfl, rfl⟩
      · rintro ⟨post, rfl, rfl⟩
        exact ⟨rfl, post, rfl⟩

/-- The scan of `includes` finds `q` exactly when `q` is a substring of `s`. -/
theorem includes_iff (s q : Str) :
    includes s q = true ↔ ∃ pre post, s = pre ++ q ++ post := by
  induction s with
  | nil =>
    cases q with
    | nil => simp [includes]
    | cons d q => simp [includes]
  | cons c s ih =>
    simp only [includes, Bool.or_eq_true, startsWith_iff, ih]
    constructor
    · rintro (⟨post, h⟩ | ⟨pre, post, h⟩)
      · exact ⟨[], post, by simpa using h⟩
      · exact ⟨c :: pre, post, by simp [h]⟩
    · rintro ⟨pre, post, h⟩
      cases pre with
      | nil => exact Or.inl ⟨post, by simpa using h⟩
      | cons a pre =>
        simp only [List.cons_append, List.cons.injEq] at h
        exact Or.inr ⟨pre, post, h.2⟩

theorem Index.mem_applyFilters (toLowerCase : Str → Str) (state : Index.State)
    (sections : List Index.SectionEl) (sec : Index.SectionEl) (card : Index.CardEl)
    (hsec : sec ∈ Index.applyFilters toLowerCase state sections) (hcard : card ∈ sec.cards) :
    ∃ sec0 ∈ sections, ∃ card0 ∈ sec0.cards,
      card.project = card0.project ∧ card.search = card0.search ∧
      card.hidden =
        !Index.isVisible (toLowerCase (jsTrim state.query)) state.activeProject card0 := by
  unfold Index.applyFilters at hsec
  obtain ⟨sec0, hsec0, rfl⟩ := List.mem_map.1 hsec
  simp only at hcard
  obtain ⟨card0, hcard0, rfl⟩ := List.mem_map.1 hcard
  exact ⟨sec0, hsec0, card0, hcard0, rfl, rfl, rfl⟩

/-- C9, as amended. With the category selector at "all", after `applyFilters` a card is
visible exactly when the trimmed, lower-cased query is empty or occurs in the search text
of the card as a substring. -/
theorem query_filter (toLowerCase : Str → Str) (state : Index.State)
    (sections : List Index.SectionEl) (hall : state.activeProject = "all".toList) :
    ∀ sec ∈ Index.applyFilters toLowerCase state sections, ∀ card ∈ sec.cards,
      (card.hidden = false ↔
        (toLowerCase (jsTrim state.query) = [] ∨
          ∃ pre post, card.search.orStr [] = pre ++ toLowerCase (jsTrim state.query) ++ post)) := by
  intro sec hsec card hcard
  obtain ⟨sec0, _, card0, _, _, hsearch, hhidden⟩ :=
    Index.mem_applyFilters toLowerCase state sections sec card hsec hcard
  rw [hhidden, hsearch, ← includes_iff]
  unfold Index.isVisible
  simp only [hall, beq_self_eq_true, Bool.true_or, Bool.true_and, Bool.not_eq_false_eq_eq_true,
    Bool.not_eq_eq_eq_not, Bool.not_false, Bool.or_eq_true, beq_iff_eq]

/-- C9, witness of `query_filter`: the second scenario of the specification. `init` renders
the card of the blog `sampleLake`, whose search text is "delta lake tutorial lakehouse co",
and the card is visible for the queries "lakehouse" and "LAKEHOUSE". -/
theorem query_filter_witness :
    (Index.init asciiLower (isoEnv 0) sampleFormat {} .empty (some (.val [sampleLake]))).2 =
        .live sampleLakeSections ∧
    sampleLakeSections.map (fun sec => sec.cards.map (fun card => card.search)) =
        [[.val "delta lake tutorial lakehouse co".toList]] ∧
    (Index.applyFilters asciiLower { query := "lakehouse".toList } sampleLakeSections).map
        (fun sec => sec.cards.map (fun card => card.hidden)) = [[false]] ∧
    (Index.applyFilters asciiLower { query := "LAKEHOUSE".toList } sampleLakeSections).map
        (fun sec => sec.cards.map (fun card => card.hidden)) = [[false]] ∧
    ∀ sec ∈ Index.applyFilters asciiLower { query := "LAKEHOUSE".toList } sampleLakeSections,
      ∀ card ∈ sec.cards,
        (card.hidden = false ↔
          (asciiLower (jsTrim "LAKEHOUSE".toList) = [] ∨
            ∃ pre post,
              card.search.orStr [] = pre ++ asciiLower (jsTrim "LAKEHOUSE".toList) ++ post)) :=
  ⟨by decide, by decide, by decide, by decide,
    query_filter asciiLower { query := "LAKEHOUSE".toList } sampleLakeSections rfl⟩

/-- C9, counterexample to the claim as stated: `init` renders the card of the blog
`sampleLake`, whose search text is "delta lake tutorial lakehouse co". The query "co " is not
empty and, in lower case, does not occur in that text, yet `applyFilters` trims it to "co"
and leaves the card visible. -/
theorem padded_query_matches :
    "co ".toList ≠ [] ∧
    includes "delta lake tutorial lakehouse co".toList (asciiLower "co ".toList) = false ∧
    (Index.init asciiLower (isoEnv 0) sampleFormat {} .empty (some (.val [sampleLake]))).2 =
        .live sampleLakeSections ∧
    sampleLakeSections.map (fun sec => sec.cards.map (fun card => card.search)) =
        [[.val "delta lake tutorial lakehouse co".toList]] ∧
    (Index.onSearch asciiLower {} sampleLakeSections "co ".toList).2.map
        (fun sec => sec.cards.map (fun card => card.hidden)) = [[false]] := by
  decide

/-! ### The category filter of the blog page -/

theorem splitWsAux_cons_of_not_space (b : Bool) (cur : Str) (c : Char) (cs : Str)
    (hc : isJsSpace c = false) :
    splitWsAux b cur (c :: cs) = splitWsAux false (c :: cur) cs := by
  simp [splitWsAux, hc]

theorem splitWsAux_token (tok : Str) (htok : ∀ c ∈ tok, isJsSpace c = false) :
    ∀ (cur rest : Str),
      splitWsAux false cur (tok ++ rest) = splitWsAux false (tok.reverse ++ cur) rest := by
  induction tok with
  | nil => intro cur rest; rfl
  | cons c t ih =>
    intro cur rest
    rw [List.cons_append, splitWsAux_cons_of_not_space _ _ _ _ (htok c (List.mem_cons_self _ _)),
      ih (fun d hd => htok d (List.mem_cons_of_mem _ hd))]
    simp

theorem splitWsAux_space (cur rest : Str) :
    splitWsAux false cur (' ' :: rest) = cur.reverse :: splitWsAux true [] rest := by
  have h : isJsSpace ' ' = true := by decide
  simp [splitWsAux, h]

/-- Splitting at white space undoes the joining with a space of pieces that are not empty
and hold no white space. -/
theorem splitWsAux_join :
    ∀ (toks : List Str), toks ≠ [] →
      (∀ t ∈ toks, t ≠ [] ∧ ∀ c ∈ t, isJsSpace c = false) →
      ∀ b, splitWsAux b [] (jsJoin " ".toList toks) = toks
  | [], h, _, _ => absurd rfl h
  | [t], _, ht, b => by
    obtain ⟨hne, hws⟩ := ht t (List.mem_singleton.2 rfl)
    cases t with
    | nil => exact absurd rfl hne
    | cons c t =>
      have h1 := splitWsAux_token t (fun d hd => hws d (List.mem_cons_of_mem _ hd)) [c] []
      simp only [List.append_nil] at h1
      simp only [jsJoin]
      rw [splitWsAux_cons_of_not_space _ _ _ _ (hws c (List.mem_cons_self _ _)), h1]
      simp [splitWsAux]
  | t :: u :: rest, _, ht, b => by
    obtain ⟨hne, hws⟩ := ht t (List.mem_cons_self _ _)
    have ih := splitWsAux_join (u :: rest) (List.cons_ne_nil _ _)
      (fun x hx => ht x (List.mem_cons_of_mem _ hx)) true
    cases t with
    | nil => exact absurd rfl hne
    | cons c t =>
      have h1 := splitWsAux_token t (fun d hd => hws d (List.mem_cons_of_mem _ hd)) [c]
        (' ' :: jsJoin " ".toList (u :: rest))
      have hj : jsJoin " ".toList ((c :: t) :: u :: rest) =
          c :: (t ++ ' ' :: jsJoin " ".toList (u :: rest)) := by
        simp [jsJoin]
      rw [hj, splitWsAux_cons_of_not_space _ _ _ _ (hws c (List.mem_cons_self _ _)), h1,
        splitWsAux_space, ih]
      simp

theorem mem_splitWs_join (toks : List Str) (a : Str) (ha : a ≠ [])
    (ht : ∀ t ∈ toks, t ≠ [] ∧ ∀ c ∈ t, isJsSpace c = false) :
    a ∈ splitWs (jsJoin " ".toList toks) ↔ a ∈ toks := by
  cases toks with
  | nil =>
    have : splitWs (jsJoin " ".toList []) = [[]] := rfl
    rw [this]
    simp [ha]
  | cons t rest =>
    unfold splitWs
    rw [splitWsAux_join (t :: rest) (List.cons_ne_nil _ _) ht false]

/-- C10, as amended. With an empty query, after `applyFilters` a card is visible exactly
when the selector is "all" or is one of the pieces that white space separates in
`dataset.project`; for a card that `buildCard` builds from a blog whose project slugs are not
empty and hold no white space, and a selector that is not the empty string, that is exactly
when the selector is "all" or an element of the `project_slugs` of the blog. -/
theorem category_filter (toLowerCase : Str → Str) (state : Index.State)
    (sections : List Index.SectionEl)
    (hquery : toLowerCase (jsTrim state.query) = [])
    (hactive : state.activeProject ≠ []) :
    ∀ sec ∈ Index.applyFilters toLowerCase state sections, ∀ card ∈ sec.cards,
      (card.hidden = false ↔
        (state.activeProject = "all".toList ∨
          state.activeProject ∈ splitWs (card.project.orStr []))) ∧
      ∀ (env : DateEnv) (format : Int → Str) (blog : RawItem) (built : Index.CardEl),
        Index.buildCard toLowerCase env format blog = some built →
        card.project = built.project →
        (∀ slug ∈ blog.project_slugs.orEmpty,
          slug ≠ [] ∧ ∀ c ∈ slug, isJsSpace c = false) →
        (card.hidden = false ↔
          (state.activeProject = "all".toList ∨
            state.activeProject ∈ blog.project_slugs.orEmpty)) := by
  intro sec hsec card hcard
  obtain ⟨sec0, _, card0, _, hproject, _, hhidden⟩ :=
    Index.mem_applyFilters toLowerCase state sections sec card hsec hcard
  have hvis : card.hidden = false ↔
      (state.activeProject = "all".toList ∨
        state.activeProject ∈ splitWs (card.project.orStr [])) := by
    rw [hhidden, hproject, hquery]
    unfold Index.isVisible
    simp only [beq_self_eq_true, Bool.true_or, Bool.and_true, Bool.not_eq_false_eq_eq_true,
      Bool.not_eq_eq_eq_not, Bool.not_false, Bool.or_eq_true, beq_iff_eq,
      List.contains_iff_exists_mem_beq, exists_eq_right']
  refine ⟨hvis, ?_⟩
  intro env format blog built hbuilt hblog hslugs
  rw [hvis, hblog]
  have hp : built.project.orStr [] = jsJoin " ".toList blog.project_slugs.orEmpty := by
    unfold Index.buildCard at hbuilt
    cases hd : Index.fmtDate env format blog.date with
    | none =>
      rw [hd] at hbuilt
      cases hbuilt
    | some text =>
      rw [hd] at hbuilt
      cases hbuilt
      simp only [Js.orStr]
      split <;> simp_all
  rw [hp, mem_splitWs_join _ _ hactive hslugs]

/-- C10, witness of `category_filter`: `init` renders the card of the blog `sampleSlugs`, with
the slugs "iceberg" and "delta"; the card is visible for the selector "delta" and hidden for
the selector "hudi". -/
theorem category_filter_witness :
    (∀ slug ∈ sampleSlugs.project_slugs.orEmpty,
      slug ≠ [] ∧ ∀ c ∈ slug, isJsSpace c = false) ∧
    (Index.init asciiLower (isoEnv 0) sampleFormat {} .empty (some (.val [sampleSlugs]))).2 =
        .live sampleSlugsSections ∧
    (Index.applyFilters asciiLower { activeProject := "delta".toList } sampleSlugsSections).map
        (fun sec => sec.cards.map (fun card => card.hidden)) = [[false]] ∧
    (Index.applyFilters asciiLower { activeProject := "hudi".toList } sampleSlugsSections).map
        (fun sec => sec.cards.map (fun card => card.hidden)) = [[true]] ∧
    ∀ sec ∈ Index.applyFilters asciiLower { activeProject := "delta".toList }
        sampleSlugsSections,
      ∀ card ∈ sec.cards,
        (card.hidden = false ↔
          ("delta".toList = "all".toList ∨
            "delta".toList ∈ sampleSlugs.project_slugs.orEmpty)) := by
  refine ⟨by decide, by decide, by decide, by decide, ?_⟩
  intro sec hsec card hcard
  have hbuilt : Index.buildCard asciiLower (isoEnv 0) sampleFormat sampleSlugs =
      some ((Index.buildCard asciiLower (isoEnv 0) sampleFormat sampleSlugs).getD
        { dateTime := .undefined, dateText := [], company := [], href := .undefined,
          title := .undefined, author := [], badges := [], project := .undefined,
          search := .undefined, hidden := false }) := by
    decide
  have hproject : card.project = .val "iceberg delta".toList := by
    obtain ⟨sec0, hsec0, card0, hcard0, hp, _, _⟩ :=
      Index.mem_applyFilters asciiLower { activeProject := "delta".toList }
        sampleSlugsSections sec card hsec hcard
    rw [hp]
    have hall : ∀ sec1 ∈ sampleSlugsSections, ∀ card1 ∈ sec1.cards,
        card1.project = .val "iceberg delta".toList := by
      decide
    exact hall sec0 hsec0 card0 hcard0
  exact (category_filter asciiLower { activeProject := "delta".toList } sampleSlugsSections
    (by decide) (by decide) sec hsec card hcard).2 (isoEnv 0) sampleFormat sampleSlugs _
    hbuilt (by rw [hproject]; decide) (by decide)

/-- C10, counterexample to the claim as stated: `init` renders the card of the blog
`sampleSpaced`, which has the one project slug "apache iceberg". The selector "apache" is not
an element of its `project_slugs`, yet the card is visible; the selector "apache iceberg" is
an element, yet the card is hidden. -/
theorem spaced_slug_mismatch :
    (Index.init asciiLower (isoEnv 0) sampleFormat {} .empty (some (.val [sampleSpaced]))).2 =
        .live sampleSpacedSections ∧
    "apache".toList ∉ sampleSpaced.project_slugs.orEmpty ∧
    (Index.applyFilters asciiLower { activeProject := "apache".toList }
        sampleSpacedSections).map (fun sec => sec.cards.map (fun card => card.hidden)) =
      [[false]] ∧
    "apache iceberg".toList ∈ sampleSpaced.project_slugs.orEmpty ∧
    (Index.applyFilters asciiLower { activeProject := "apache iceberg".toList }
        sampleSpacedSections).map (fun sec => sec.cards.map (fun card => card.hidden)) =
      [[true]] := by
  decide

/-! ### The order of the year sections of the podcast page -/

theorem charToNat_inj (a b : Char) (h : a.toNat = b.toNat) : a = b :=
  Char.ext (UInt32.toNat.inj h)

theorem isDigit_iff (c : Char) : c.isDigit = true ↔ 48 ≤ c.toNat ∧ c.toNat ≤ 57 := by
  unfold Char.isDigit Char.toNat
  simp only [Bool.and_eq_true, decide_eq_true_eq, ge_iff_le]
  rw [UInt32.le_def, UInt32.le_def, BitVec.le_def, BitVec.le_def]
  rfl

theorem strLt_cons (a b : Char) (as bs : Str) :
    strLt (a :: as) (b :: bs) = true ↔
      a.toNat < b.toNat ∨ (a.toNat = b.toNat ∧ strLt as bs = true) := by
  rw [strLt]
  by_cases h1 : a.toNat < b.toNat
  · simp [h1]
  · by_cases h2 : b.toNat < a.toNat
    · simp only [h1, h2, if_false, if_true, false_or]
      constructor
      · intro h; cases h
      · rintro ⟨h, _⟩; omega
    · simp only [h1, h2, if_false, false_or]
      constructor
      · intro h; exact ⟨by omega, h⟩
      · rintro ⟨_, h⟩; exact h

theorem strLt_irrefl : ∀ a : Str, strLt a a = false
  | [] => rfl
  | a :: as => by
    have ih := strLt_irrefl as
    cases h : strLt (a :: as) (a :: as) with
    | false => rfl
    | true =>
      rcases (strLt_cons a a as as).1 h with h1 | ⟨_, h1⟩
      · omega
      · rw [ih] at h1; cases h1

theorem strLt_trans : ∀ a b c : Str, strLt a b = true → strLt b c = true → strLt a c = true
  | [], [], _, h, _ => by simp [strLt] at h
  | [], _ :: _, [], _, h => by simp [strLt] at h
  | [], _ :: _, _ :: _, _, _ => by simp [strLt]
  | _ :: _, [], _, h, _ => by simp [strLt] at h
  | _ :: _, _ :: _, [], _, h => by simp [strLt] at h
  | a :: as, b :: bs, c :: cs, h1, h2 => by
    rw [strLt_cons] at h1 h2 ⊢
    rcases h1 with h1 | ⟨e1, h1⟩
    · rcases h2 with h2 | ⟨e2, _⟩
      · exact Or.inl (by omega)
      · exact Or.inl (by omega)
    · rcases h2 with h2 | ⟨e2, h2⟩
      · exact Or.inl (by omega)
      · exact Or.inr ⟨by omega, strLt_trans as bs cs h1 h2⟩

theorem strLt_asymm (a b : Str) (h : strLt a b = true) : strLt b a = false := by
  cases h' : strLt b a with
  | false => rfl
  | true =>
    have := strLt_trans a b a h h'
    rw [strLt_irrefl] at this
    cases this

theorem strLt_connex : ∀ a b : Str, a ≠ b → strLt a b = true ∨ strLt b a = true
  | [], [], h => absurd rfl h
  | [], _ :: _, _ => Or.inl (by simp [strLt])
  | _ :: _, [], _ => Or.inr (by simp [strLt])
  | a :: as, b :: bs, h => by
    rw [strLt_cons, strLt_cons]
    rcases Nat.lt_trichotomy a.toNat b.toNat with h1 | h1 | h1
    · exact Or.inl (Or.inl h1)
    · have hab : a = b := charToNat_inj a b h1
      subst hab
      have hne : as ≠ bs := fun c => h (by rw [c])
      rcases strLt_connex as bs hne with h2 | h2
      · exact Or.inl (Or.inr ⟨rfl, h2⟩)
      · exact Or.inr (Or.inr ⟨rfl, h2⟩)
    · exact Or.inr (Or.inl h1)

theorem sortLe_defaultCmp (a b : Str) : sortLe defaultCmp a b = true ↔ strLt b a = false := by
  unfold sortLe defaultCmp
  by_cases h1 : strLt a b = true
  · simp [h1, strLt_asymm a b h1]
  · by_cases h2 : strLt b a = true
    · simp [h1, h2]
    · simp [h1, h2]

theorem defaultCmp_total : IsTotal Str (fun a b => sortLe defaultCmp a b = true) :=
  ⟨fun a b => by
    simp only [sortLe_defaultCmp]
    cases h : strLt b a with
    | false => exact Or.inl rfl
    | true => exact Or.inr (strLt_asymm b a h)⟩

theorem defaultCmp_trans : IsTrans Str (fun a b => sortLe defaultCmp a b = true) :=
  ⟨fun a b c => by
    simp only [sortLe_defaultCmp]
    intro hab hbc
    cases hca : strLt c a with
    | false => rfl
    | true =>
      by_cases he : a = b
      · subst he
        rw [hca] at hbc
        cases hbc
      · rcases strLt_connex a b he with h | h
        · rw [strLt_trans c a b hca h] at hbc
          cases hbc
        · rw [h] at hab
          cases hab⟩

/-- The default sort puts distinct strings in strictly ascending order. -/
theorem jsSort_default_sorted (l : List Str) (hnd : l.Nodup) :
    (jsSort defaultCmp l).Pairwise (fun a b => strLt a b = true) := by
  haveI := defaultCmp_total
  haveI := defaultCmp_trans
  have hs : (jsSort defaultCmp l).Pairwise (fun a b => sortLe defaultCmp a b = true) :=
    List.sorted_insertionSort (fun a b => sortLe defaultCmp a b = true) l
  have hn : (jsSort defaultCmp l).Pairwise (fun a b => a ≠ b) :=
    (jsSort_perm defaultCmp l).nodup_iff.2 hnd
  refine List.Pairwise.imp ?_ (hs.and hn)
  rintro a b ⟨h1, h2⟩
  rw [sortLe_defaultCmp] at h1
  rcases strLt_connex a b h2 with h | h
  · exact h
  · rw [h] at h1
    cases h1

theorem objectKeys_perm {ν : Type} (obj : List (Str × ν)) :
    (objectKeys obj).Perm (mapKeys obj) := by
  unfold objectKeys
  exact ((List.perm_insertionSort _ _).append_right _).trans
    (List.filter_append_perm isArrayIndex (mapKeys obj))

theorem decVal_lt_pow : ∀ s : Str, (∀ c ∈ s, c.isDigit = true) → decVal s < 10 ^ s.length
  | [], _ => by simp [decVal]
  | c :: cs, h => by
    have hc := (isDigit_iff c).1 (h c (List.mem_cons_self _ _))
    have ih := decVal_lt_pow cs (fun d hd => h d (List.mem_cons_of_mem _ hd))
    have h9 : c.toNat - 48 ≤ 9 := by omega
    have hmul : (c.toNat - 48) * 10 ^ cs.length ≤ 9 * 10 ^ cs.length :=
      Nat.mul_le_mul_right _ h9
    simp only [decVal, List.length_cons, pow_succ]
    omega

/-- On strings of decimal digits of one length, the order of the default sort is the order of
the numbers. -/
theorem decVal_lt_of_strLt : ∀ a b : Str, a.length = b.length →
    (∀ c ∈ a, c.isDigit = true) → (∀ c ∈ b, c.isDigit = true) →
    strLt a b = true → decVal a < decVal b
  | [], [], _, _, _, h => by simp [strLt] at h
  | [], _ :: _, hl, _, _, _ => by simp at hl
  | _ :: _, [], hl, _, _, _ => by simp at hl
  | a :: as, b :: bs, hl, ha, hb, h => by
    have hlen : as.length = bs.length := by simpa using hl
    have hda := (isDigit_iff a).1 (ha a (List.mem_cons_self _ _))
    have hdb := (isDigit_iff b).1 (hb b (List.mem_cons_self _ _))
    have hasd : ∀ c ∈ as, c.isDigit = true := fun d hd => ha d (List.mem_cons_of_mem _ hd)
    have hbsd : ∀ c ∈ bs, c.isDigit = true := fun d hd => hb d (List.mem_cons_of_mem _ hd)
    simp only [decVal]
    rw [hlen]
    rcases (strLt_cons a b as bs).1 h with h1 | ⟨h1, h2⟩
    · have hlt := decVal_lt_pow as hasd
      rw [hlen] at hlt
      have hstep : (a.toNat - 48 + 1) * 10 ^ bs.length ≤ (b.toNat - 48) * 10 ^ bs.length :=
        Nat.mul_le_mul_right _ (by omega)
      rw [Nat.add_mul, Nat.one_mul] at hstep
      omega
    · have ih := decVal_lt_of_strLt as bs hlen hasd hbsd h2
      rw [h1]
      omega

theorem strLt_unknown_of_yearKey (k : Str) (hk : IsYearKey k) :
    strLt k "Unknown".toList = true := by
  obtain ⟨hlen, hdig⟩ := hk
  cases k with
  | nil => simp at hlen
  | cons c cs =>
    have hc := (isDigit_iff c).1 (hdig c (List.mem_cons_self _ _))
    have hu : "Unknown".toList = 'U' :: "nknown".toList := rfl
    rw [hu, strLt_cons]
    have : 'U'.toNat = 85 := rfl
    exact Or.inl (by omega)

theorem pair_sublist_of_pairwise {α : Type} (R : α → α → Prop) :
    ∀ (l : List α) (a b : α), l.Pairwise R → a ∈ l → b ∈ l → a ≠ b → ¬ R b a →
      [a, b].Sublist l
  | [], _, _, _, ha, _, _, _ => absurd ha (List.not_mem_nil _)
  | x :: l, a, b, hp, ha, hb, hne, hr => by
    rcases List.mem_cons.1 ha with rfl | ha'
    · rcases List.mem_cons.1 hb with rfl | hb'
      · exact absurd rfl hne
      · exact List.Sublist.cons₂ _ (List.singleton_sublist.2 hb')
    · rcases List.mem_cons.1 hb with rfl | hb'
      · exact absurd ((List.pairwise_cons.1 hp).1 a ha') hr
      · exact List.Sublist.cons _
          (pair_sublist_of_pairwise R l a b (List.pairwise_cons.1 hp).2 ha' hb' hne hr)

theorem Podcasts.years_perm (toLowerCase : Str → Str) (state : Podcasts.State)
    (filterYear filterQuery : Str) :
    (Podcasts.years toLowerCase state filterYear filterQuery).Perm
      (mapKeys (Podcasts.groups toLowerCase state filterYear filterQuery)) := by
  unfold Podcasts.years
  exact ((List.reverse_perm _).trans (jsSort_perm _ _)).trans (objectKeys_perm _)

theorem Podcasts.years_desc (toLowerCase : Str → Str) (state : Podcasts.State)
    (filterYear filterQuery : Str) :
    (Podcasts.years toLowerCase state filterYear filterQuery).Pairwise
      (fun a b => strLt b a = true) := by
  unfold Podcasts.years
  rw [List.pairwise_reverse]
  apply jsSort_default_sorted
  rw [(objectKeys_perm _).nodup_iff]
  exact (groupLoop_inv _ _ _).1

theorem Podcasts.render_sections (toLowerCase : Str → Str) (state : Podcasts.State)
    (filterYear filterQuery : Str) :
    (Podcasts.render toLowerCase state filterYear filterQuery).sectionList =
      (Podcasts.years toLowerCase state filterYear filterQuery).map (fun y =>
        { year := y
          count := ((Podcasts.filtered toLowerCase state filterYear filterQuery).filter
            (fun ep => decide (Podcasts.groupKey ep = y))).length
          items := (Podcasts.filtered toLowerCase state filterYear filterQuery).filter
            (fun ep => decide (Podcasts.groupKey ep = y)) }) := by
  unfold Podcasts.render
  simp only []
  split_ifs with h
  · rw [List.length_eq_zero.1 h]
    rfl
  · simp only [Rendered.sectionList]
    apply List.map_congr_left
    intro y hy
    have hy' : y ∈ mapKeys (Podcasts.groups toLowerCase state filterYear filterQuery) :=
      (Podcasts.years_perm toLowerCase state filterYear filterQuery).mem_iff.1 hy
    unfold Podcasts.groups at hy' ⊢
    rw [mapGet_groupLoop _ _ _ _ hy']
    simp

theorem Podcasts.groupKey_unknown_iff (e : Podcasts.Episode)
    (hy : e.year = (e.ep.publication_date.orStr []).take 4) :
    Podcasts.groupKey e = "Unknown".toList ↔ e.ep.publication_date.truthy = false := by
  unfold Podcasts.groupKey
  rw [hy]
  cases hpd : e.ep.publication_date with
  | undefined => simp [Js.orStr, Js.truthy]
  | null => simp [Js.orStr, Js.truthy]
  | val d =>
    cases d with
    | nil => simp [Js.orStr, Js.truthy]
    | cons c cs =>
      simp only [Js.orStr, Js.truthy, List.isEmpty_cons, Bool.false_eq_true, if_false,
        Bool.not_false]
      constructor
      · intro h
        have hlen := congrArg List.length h
        simp only [List.take_succ_cons, List.isEmpty_cons, Bool.false_eq_true, if_false,
          List.length_cons, List.length_take] at hlen
        have : ("Unknown".toList).length = 7 := rfl
        omega
      · intro h
        cases h

theorem descKeys_total : IsTotal Str (fun a b => strLt a b = false) :=
  ⟨fun a b => by
    cases h : strLt a b with
    | false => exact Or.inl rfl
    | true => exact Or.inr (strLt_asymm a b h)⟩

theorem descKeys_trans : IsTrans Str (fun a b => strLt a b = false) :=
  ⟨fun a b c hab hbc => by
    cases hac : strLt a c with
    | false => rfl
    | true =>
      by_cases he : b = c
      · subst he
        rw [hac] at hab
        cases hab
      · rcases strLt_connex b c he with h | h
        · rw [h] at hbc
          cases hbc
        · rw [strLt_trans a c b hac h] at hab
          cases hab⟩

theorem PodcastsLegacy.orderedYears_perm (toLowerCase : Str → Str)
    (localeCompare : Str → Str → Int) (episodes : List RawItem) (filterYear q : Str) :
    (PodcastsLegacy.orderedYears toLowerCase localeCompare episodes filterYear q).Perm
      (mapKeys (groupLoop Podcasts.groupKey (fun it => it)
        (PodcastsLegacy.filtered toLowerCase episodes filterYear q))) := by
  unfold PodcastsLegacy.orderedYears
  refine ((jsSort_perm _ _).trans (objectKeys_perm _)).trans ?_
  unfold PodcastsLegacy.groupByYear
  rw [mapKeys_mapValues]

theorem PodcastsLegacy.legacy_render_keys (toLowerCase : Str → Str)
    (localeCompare : Str → Str → Int) (episodes : List RawItem) (filterYear q : Str) :
    (PodcastsLegacy.render toLowerCase localeCompare episodes filterYear q).keys =
      PodcastsLegacy.orderedYears toLowerCase localeCompare episodes filterYear q := by
  unfold PodcastsLegacy.render Rendered.keys
  simp only []
  split_ifs with h
  · rw [List.length_eq_zero.1 h]
    rfl
  · simp only [Rendered.sectionList, List.map_map]
    conv_rhs => rw [← List.map_id (PodcastsLegacy.orderedYears toLowerCase localeCompare
      episodes filterYear q)]
    apply List.map_congr_left
    intro y _
    rfl

/-- With a collation that orders the keys at hand as the default sort does, the years of
`podcasts.js` are in strictly descending order. -/
theorem PodcastsLegacy.orderedYears_desc (toLowerCase : Str → Str)
    (localeCompare : Str → Str → Int) (episodes : List RawItem) (filterYear q : Str)
    (hcoll : ∀ a ∈ PodcastsLegacy.orderedYears toLowerCase localeCompare episodes filterYear q,
      ∀ b ∈ PodcastsLegacy.orderedYears toLowerCase localeCompare episodes filterYear q,
        (localeCompare a b ≤ 0 ↔ strLt b a = false)) :
    (PodcastsLegacy.orderedYears toLowerCase localeCompare episodes filterYear q).Pairwise
      (fun a b => strLt b a = true) := by
  have hnd : (PodcastsLegacy.orderedYears toLowerCase localeCompare episodes
      filterYear q).Nodup :=
    (PodcastsLegacy.orderedYears_perm toLowerCase localeCompare episodes filterYear
      q).nodup_iff.2 (groupLoop_inv _ _ _).1
  have hsorted : (PodcastsLegacy.orderedYears toLowerCase localeCompare episodes
      filterYear q).Pairwise (fun a b => strLt a b = false) := by
    haveI := descKeys_total
    haveI := descKeys_trans
    have hmem : ∀ x, x ∈ objectKeys (PodcastsLegacy.groupByYear localeCompare
        (PodcastsLegacy.filtered toLowerCase episodes filterYear q)) →
        x ∈ PodcastsLegacy.orderedYears toLowerCase localeCompare episodes filterYear q := by
      intro x hx
      unfold PodcastsLegacy.orderedYears
      exact (mem_jsSort _ _ x).2 hx
    have hcongr : PodcastsLegacy.orderedYears toLowerCase localeCompare episodes filterYear q =
        (objectKeys (PodcastsLegacy.groupByYear localeCompare
          (PodcastsLegacy.filtered toLowerCase episodes filterYear q))).insertionSort
          (fun a b => strLt a b = false) := by
      conv_lhs => unfold PodcastsLegacy.orderedYears jsSort
      apply insertionSort_congr
      intro a ha b hb
      have := hcoll b (hmem b hb) a (hmem a ha)
      simp only [sortLe, decide_eq_true_eq]
      exact this
    rw [hcongr]
    exact List.sorted_insertionSort (fun a b => strLt a b = false) _
  refine List.Pairwise.imp ?_ (hsorted.and hnd)
  rintro a b ⟨h1, h2⟩
  rcases strLt_connex a b h2 with h | h
  · rw [h] at h1
    cases h1
  · exact h

/-- In a list of keys in strictly descending order, the years of four digits are in
descending numeric order and "Unknown" comes before each of them. -/
theorem descending_keys (ys : List Str) (h : ys.Pairwise (fun a b => strLt b a = true)) :
    (∀ a b, [a, b].Sublist ys → IsYearKey a → IsYearKey b → decVal b < decVal a) ∧
    (∀ k ∈ ys, IsYearKey k → "Unknown".toList ∈ ys → ["Unknown".toList, k].Sublist ys) := by
  constructor
  · intro a b hab ha hb
    have hp : [a, b].Pairwise (fun a b => strLt b a = true) := h.sublist hab
    have hlt : strLt b a = true := by
      rw [List.pairwise_pair] at hp
      exact hp
    exact decVal_lt_of_strLt b a (by rw [hb.1, ha.1]) hb.2 ha.2 hlt
  · intro k hk hyk hu
    have hlt := strLt_unknown_of_yearKey k hyk
    apply pair_sublist_of_pairwise _ ys _ _ h hu hk
    · intro c
      rw [c, strLt_irrefl] at hlt
      cases hlt
    · rw [strLt_asymm _ _ hlt]
      simp

theorem Podcasts.render_keys (toLowerCase : Str → Str) (state : Podcasts.State)
    (filterYear filterQuery : Str) :
    (Podcasts.render toLowerCase state filterYear filterQuery).keys =
      Podcasts.years toLowerCase state filterYear filterQuery := by
  unfold Rendered.keys
  rw [Podcasts.render_sections, List.map_map]
  conv_rhs => rw [← List.map_id (Podcasts.years toLowerCase state filterYear filterQuery)]
  apply List.map_congr_left
  intro y _
  rfl

theorem Podcasts.mem_section (toLowerCase : Str → Str) (state : Podcasts.State)
    (filterYear filterQuery : Str) (sec : YearSection Str Podcasts.Episode)
    (e : Podcasts.Episode)
    (hsec : sec ∈ (Podcasts.render toLowerCase state filterYear filterQuery).sectionList)
    (he : e ∈ sec.items) :
    Podcasts.groupKey e = sec.year ∧ e.year = (e.ep.publication_date.orStr []).take 4 := by
  rw [Podcasts.render_sections] at hsec
  obtain ⟨y, _, rfl⟩ := List.mem_map.1 hsec
  simp only at he ⊢
  obtain ⟨hmem, hkey⟩ := List.mem_filter.1 he
  refine ⟨of_decide_eq_true hkey, ?_⟩
  unfold Podcasts.filtered at hmem
  have hitem := (List.mem_filter.1 hmem).1
  unfold Podcasts.items at hitem
  obtain ⟨ep, _, rfl⟩ := List.mem_map.1 hitem
  rfl

theorem PodcastsLegacy.mem_legacy_section (toLowerCase : Str → Str)
    (localeCompare : Str → Str → Int) (episodes : List RawItem) (filterYear q : Str)
    (sec : YearSection Str Podcasts.Episode) (e : Podcasts.Episode)
    (hsec : sec ∈
      (PodcastsLegacy.render toLowerCase localeCompare episodes filterYear q).sectionList)
    (he : e ∈ sec.items) :
    Podcasts.groupKey e = sec.year ∧ e.year = (e.ep.publication_date.orStr []).take 4 := by
  unfold PodcastsLegacy.render at hsec
  simp only [] at hsec
  split_ifs at hsec with h
  · simp [Rendered.sectionList] at hsec
  · simp only [Rendered.sectionList] at hsec
    obtain ⟨y, hy, rfl⟩ := List.mem_map.1 hsec
    simp only at he ⊢
    have hy' : y ∈ mapKeys (groupLoop Podcasts.groupKey (fun it => it)
        (PodcastsLegacy.filtered toLowerCase episodes filterYear q)) :=
      (PodcastsLegacy.orderedYears_perm toLowerCase localeCompare episodes filterYear
        q).mem_iff.1 hy
    unfold PodcastsLegacy.groupByYear at he
    simp only [] at he
    rw [mapGet_mapValues, mapGet_groupLoop _ _ _ _ hy'] at he
    simp only [Option.map_some', Option.getD_some, List.map_id'] at he
    rw [mem_jsSort] at he
    obtain ⟨hmem, hkey⟩ := List.mem_filter.1 he
    refine ⟨of_decide_eq_true hkey, ?_⟩
    unfold PodcastsLegacy.filtered at hmem
    have hitem := (List.mem_filter.1 hmem).1
    unfold PodcastsLegacy.items at hitem
    obtain ⟨ep, _, rfl⟩ := List.mem_map.1 hitem
    rfl

/-- C2, as amended. For every list of episodes and every filter state, the year sections of
`render` of `dist/podcasts.js` are in strictly descending order of their keys, compared
character by character: the sections whose key is a year of four digits are in descending
numeric order, and the section "Unknown", which holds the episodes whose `publication_date`
is missing or empty, comes before every such section. The same holds for `render` of
`podcasts.js` when `localeCompare` orders the keys at hand in that order. -/
theorem podcast_sections_order (toLowerCase : Str → Str) (localeCompare : Str → Str → Int)
    (state : Podcasts.State) (episodes : List RawItem) (filterYear filterQuery : Str)
    (hcoll :
      ∀ a ∈ (PodcastsLegacy.render toLowerCase localeCompare episodes filterYear
          filterQuery).keys,
        ∀ b ∈ (PodcastsLegacy.render toLowerCase localeCompare episodes filterYear
            filterQuery).keys,
          (localeCompare a b ≤ 0 ↔ strLt b a = false)) :
    ((Podcasts.render toLowerCase state filterYear filterQuery).keys.Pairwise
        (fun a b => strLt b a = true) ∧
      (∀ a b, [a, b].Sublist (Podcasts.render toLowerCase state filterYear filterQuery).keys →
        IsYearKey a → IsYearKey b → decVal b < decVal a) ∧
      (∀ k ∈ (Podcasts.render toLowerCase state filterYear filterQuery).keys, IsYearKey k →
        "Unknown".toList ∈ (Podcasts.render toLowerCase state filterYear filterQuery).keys →
        ["Unknown".toList, k].Sublist
          (Podcasts.render toLowerCase state filterYear filterQuery).keys) ∧
      (∀ sec ∈ (Podcasts.render toLowerCase state filterYear filterQuery).sectionList,
        ∀ e ∈ sec.items,
          (sec.year = "Unknown".toList ↔ e.ep.publication_date.truthy = false))) ∧
    ((PodcastsLegacy.render toLowerCase localeCompare episodes filterYear
          filterQuery).keys.Pairwise (fun a b => strLt b a = true) ∧
      (∀ a b,
        [a, b].Sublist
          (PodcastsLegacy.render toLowerCase localeCompare episodes filterYear
            filterQuery).keys →
        IsYearKey a → IsYearKey b → decVal b < decVal a) ∧
      (∀ k ∈ (PodcastsLegacy.render toLowerCase localeCompare episodes filterYear
          filterQuery).keys, IsYearKey k →
        "Unknown".toList ∈ (PodcastsLegacy.render toLowerCase localeCompare episodes
          filterYear filterQuery).keys →
        ["Unknown".toList, k].Sublist
          (PodcastsLegacy.render toLowerCase localeCompare episodes filterYear
            filterQuery).keys) ∧
      (∀ sec ∈ (PodcastsLegacy.render toLowerCase localeCompare episodes filterYear
          filterQuery).sectionList,
        ∀ e ∈ sec.items,
          (sec.year = "Unknown".toList ↔ e.ep.publication_date.truthy = false))) := by
  constructor
  · have hdesc : (Podcasts.render toLowerCase state filterYear filterQuery).keys.Pairwise
        (fun a b => strLt b a = true) := by
      rw [Podcasts.render_keys]
      exact Podcasts.years_desc toLowerCase state filterYear filterQuery
    refine ⟨hdesc, (descending_keys _ hdesc).1, (descending_keys _ hdesc).2, ?_⟩
    intro sec hsec e he
    obtain ⟨hkey, hyear⟩ :=
      Podcasts.mem_section toLowerCase state filterYear filterQuery sec e hsec he
    rw [← hkey]
    exact Podcasts.groupKey_unknown_iff e hyear
  · have hdesc : (PodcastsLegacy.render toLowerCase localeCompare episodes filterYear
        filterQuery).keys.Pairwise (fun a b => strLt b a = true) := by
      rw [PodcastsLegacy.legacy_render_keys] at hcoll ⊢
      exact PodcastsLegacy.orderedYears_desc toLowerCase localeCompare episodes filterYear
        filterQuery hcoll
    refine ⟨hdesc, (descending_keys _ hdesc).1, (descending_keys _ hdesc).2, ?_⟩
    intro sec hsec e he
    obtain ⟨hkey, hyear⟩ := PodcastsLegacy.mem_legacy_section toLowerCase localeCompare episodes
      filterYear filterQuery sec e hsec he
    rw [← hkey]
    exact Podcasts.groupKey_unknown_iff e hyear

/-- C2, witness of `podcast_sections_order`: the three sample episodes, unfiltered, with
the collation `codeUnitCompare`. -/
theorem podcast_sections_order_witness :
    (∀ a ∈ (PodcastsLegacy.render asciiLower codeUnitCompare samplePodcastState.episodes
        [] []).keys,
      ∀ b ∈ (PodcastsLegacy.render asciiLower codeUnitCompare samplePodcastState.episodes
          [] []).keys,
        (codeUnitCompare a b ≤ 0 ↔ strLt b a = false)) ∧
    (Podcasts.render asciiLower samplePodcastState [] []).keys.Pairwise
      (fun a b => strLt b a = true) ∧
    (PodcastsLegacy.render asciiLower codeUnitCompare samplePodcastState.episodes
      [] []).keys.Pairwise (fun a b => strLt b a = true) :=
  ⟨by decide,
    (podcast_sections_order asciiLower codeUnitCompare samplePodcastState
      samplePodcastState.episodes [] [] (by decide)).1.1,
    (podcast_sections_order asciiLower codeUnitCompare samplePodcastState
      samplePodcastState.episodes [] [] (by decide)).2.1⟩

/-- C2, counterexample to the claim as stated: with an episode of 2023, an episode without
date and an episode of 2024, `render` of `dist/podcasts.js` shows the section "Unknown" first,
before the sections of the years. -/
theorem unknown_section_first :
    (Podcasts.render asciiLower samplePodcastState [] []).keys =
      ["Unknown".toList, "2024".toList, "2023".toList] := by
  decide

/-! ### The counts of the blog page -/

/-- C12. After `applyFilters`, section by section: the visible count shown in the header is
the number of cards of the section that pass the category test and the query test
(`isVisible`), the total shown is the number of cards of the section, a card carries the
mark `hidden` exactly when it fails the test, so the visible count is also the number of
cards without the mark, and the section is marked `hidden` exactly when its visible count
is 0. -/
theorem section_counts (toLowerCase : Str → Str) (state : Index.State)
    (sections : List Index.SectionEl) :
    List.Forall₂
      (fun (before after : Index.SectionEl) =>
        after.id = before.id ∧
        after.count.1 =
          (before.cards.filter (fun card =>
            Index.isVisible (toLowerCase (jsTrim state.query)) state.activeProject
              card)).length ∧
        after.count.2 = before.cards.length ∧
        after.count.2 = after.cards.length ∧
        List.Forall₂
          (fun (card marked : Index.CardEl) =>
            marked = { card with hidden := marked.hidden } ∧
            (marked.hidden = true ↔
              Index.isVisible (toLowerCase (jsTrim state.query)) state.activeProject card =
                false))
          before.cards after.cards ∧
        after.count.1 = (after.cards.filter (fun card => !card.hidden)).length ∧
        (after.hidden = true ↔ after.count.1 = 0))
      sections (Index.applyFilters toLowerCase state sections) := by
  unfold Index.applyFilters
  rw [List.forall₂_map_right_iff]
  apply List.forall₂_same.2
  intro sec _
  refine ⟨rfl, rfl, by simp, by simp, ?_, ?_, by simp⟩
  · rw [List.forall₂_map_right_iff]
    apply List.forall₂_same.2
    intro card _
    refine ⟨rfl, ?_⟩
    cases Index.isVisible (toLowerCase (jsTrim state.query)) state.activeProject card <;> simp
  · simp only [List.filter_map, List.length_map]
    congr 1
    apply List.filter_congr
    intro card _
    simp

/-! ### Escaping -/

theorem replaceAllChar_append (c : Char) (r a b : Str) :
    replaceAllChar c r (a ++ b) = replaceAllChar c r a ++ replaceAllChar c r b := by
  unfold replaceAllChar
  rw [List.flatMap_append]

theorem escapeHtml_singleton (c : Char) : escapeHtml [c] = escapeChar c := by
  unfold escapeHtml escapeChar
  by_cases h1 : c = '&'
  · subst h1
    decide
  · by_cases h2 : c = '<'
    · subst h2
      decide
    · by_cases h3 : c = '>'
      · subst h3
        decide
      · simp [replaceAllChar, h1, h2, h3]

theorem escapeHtml_append (a b : Str) : escapeHtml (a ++ b) = escapeHtml a ++ escapeHtml b := by
  unfold escapeHtml
  rw [replaceAllChar_append, replaceAllChar_append, replaceAllChar_append]

theorem escapeHtml_cons (c : Char) (s : Str) :
    escapeHtml (c :: s) = escapeChar c ++ escapeHtml s := by
  have h : c :: s = [c] ++ s := rfl
  rw [h, escapeHtml_append, escapeHtml_singleton]

theorem not_mem_escapeChar (c : Char) : '<' ∉ escapeChar c ∧ '>' ∉ escapeChar c := by
  unfold escapeChar
  by_cases h1 : c = '&'
  · rw [if_pos h1]
    decide
  · by_cases h2 : c = '<'
    · rw [if_neg h1, if_pos h2]
      decide
    · by_cases h3 : c = '>'
      · rw [if_neg h1, if_neg h2, if_pos h3]
        decide
      · rw [if_neg h1, if_neg h2, if_neg h3]
        simp only [List.mem_singleton]
        exact ⟨fun h => h2 h.symm, fun h => h3 h.symm⟩

theorem not_mem_escapeHtml (s : Str) : '<' ∉ escapeHtml s ∧ '>' ∉ escapeHtml s := by
  induction s with
  | nil => exact ⟨by decide, by decide⟩
  | cons c s ih =>
    rw [escapeHtml_cons]
    simp only [List.mem_append, not_or]
    exact ⟨⟨(not_mem_escapeChar c).1, ih.1⟩, ⟨(not_mem_escapeChar c).2, ih.2⟩⟩

theorem ampersandsEscaped_escapeChar_append (c : Char) (t : Str)
    (h : ampersandsEscaped t = true) : ampersandsEscaped (escapeChar c ++ t) = true := by
  unfold escapeChar
  by_cases h1 : c = '&'
  · rw [if_pos h1]
    simp [ampersandsEscaped, startsWith, h]
  · by_cases h2 : c = '<'
    · rw [if_neg h1, if_pos h2]
      simp [ampersandsEscaped, startsWith, h]
    · by_cases h3 : c = '>'
      · rw [if_neg h1, if_neg h2, if_pos h3]
        simp [ampersandsEscaped, startsWith, h]
      · rw [if_neg h1, if_neg h2, if_neg h3]
        simp [ampersandsEscaped, h, h1]

theorem ampersandsEscaped_escapeHtml (s : Str) : ampersandsEscaped (escapeHtml s) = true := by
  induction s with
  | nil => rfl
  | cons c s ih =>
    rw [escapeHtml_cons]
    exact ampersandsEscaped_escapeChar_append c _ ih

theorem ampersand_starts_entity :
    ∀ (l pre post : Str), ampersandsEscaped l = true → l = pre ++ '&' :: post →
      ∃ rest, post = "amp;".toList ++ rest ∨ post = "lt;".toList ++ rest ∨
        post = "gt;".toList ++ rest
  | [], pre, post, _, h => by
    cases pre <;> simp at h
  | c :: l, [], post, hl, h => by
    simp only [List.nil_append, List.cons.injEq] at h
    obtain ⟨hc, rfl⟩ := h
    subst hc
    simp only [ampersandsEscaped, bne_self_eq_false, Bool.false_or, Bool.and_eq_true,
      Bool.or_eq_true, startsWith_iff] at hl
    rcases hl.1 with (⟨r, hr⟩ | ⟨r, hr⟩) | ⟨r, hr⟩
    · exact ⟨r, Or.inl hr⟩
    · exact ⟨r, Or.inr (Or.inl hr)⟩
    · exact ⟨r, Or.inr (Or.inr hr)⟩
  | c :: l, d :: pre, post, hl, h => by
    simp only [List.cons_append, List.cons.injEq] at h
    simp only [ampersandsEscaped, Bool.and_eq_true] at hl
    exact ampersand_starts_entity l pre post hl.2 h.2

/-- C13. The text `escapeHtml(s)` holds no `<` and no `>`, and every `&` of it is the first
character of `&amp;`, `&lt;` or `&gt;`; hence the title text that `buildCard` of
`staticgen.js` places in the card markup, which is `escapeHtml` of the title, holds no
`<script>` and no bare `&`. -/
theorem escapeHtml_safe (s : Str) (env : DateEnv) (toLocaleDateString : Int → Str)
    (item : Staticgen.Item) :
    ('<' ∉ escapeHtml s ∧ '>' ∉ escapeHtml s ∧
      ∀ pre post, escapeHtml s = pre ++ '&' :: post →
        ∃ rest, post = "amp;".toList ++ rest ∨ post = "lt;".toList ++ rest ∨
          post = "gt;".toList ++ rest) ∧
    ((Staticgen.buildCard env toLocaleDateString item).title =
        escapeHtml item.title.escapeArg ∧
      (∀ pre post, (Staticgen.buildCard env toLocaleDateString item).title ≠
        pre ++ "<script>".toList ++ post) ∧
      ∀ pre post, (Staticgen.buildCard env toLocaleDateString item).title = pre ++ '&' :: post →
        ∃ rest, post = "amp;".toList ++ rest ∨ post = "lt;".toList ++ rest ∨
          post = "gt;".toList ++ rest) := by
  refine ⟨⟨(not_mem_escapeHtml s).1, (not_mem_escapeHtml s).2, ?_⟩, rfl, ?_, ?_⟩
  · intro pre post h
    exact ampersand_starts_entity _ pre post (ampersandsEscaped_escapeHtml s) h
  · intro pre post h
    apply (not_mem_escapeHtml item.title.escapeArg).1
    have ht : (Staticgen.buildCard env toLocaleDateString item).title =
        escapeHtml item.title.escapeArg := rfl
    rw [← ht, h]
    have hs : "<script>".toList = '<' :: "script>".toList := rfl
    rw [hs]
    simp
  · intro pre post h
    exact ampersand_starts_entity _ pre post
      (ampersandsEscaped_escapeHtml item.title.escapeArg) h

/-! ### The talk page -/

theorem filterThrowing_eq_filter {α : Type} (p : α → Option Bool) (q : α → Bool) :
    ∀ (l : List α), (∀ x ∈ l, p x = some (q x)) → filterThrowing p l = some (l.filter q)
  | [], _ => rfl
  | x :: xs, h => by
    have hx := h x (List.mem_cons_self _ _)
    have ih := filterThrowing_eq_filter p q xs (fun y hy => h y (List.mem_cons_of_mem _ hy))
    simp only [filterThrowing, hx, ih, List.filter_cons]

/-- The test the filter of the talk page makes on a talk whose date is a string. -/
theorem Talk.passes_of_date (toLowerCase : Str → Str) (filterYear filterQuery : Str)
    (t : RawItem) (d : Str) (hd : t.date = .val d) :
    Talk.passes toLowerCase filterYear filterQuery t =
      some ((filterYear.isEmpty || d.take 4 == filterYear) &&
        (filterQuery.isEmpty || includes (Talk.searchText toLowerCase t) filterQuery)) := by
  simp [Talk.passes, Talk.yearOf, hd]

theorem liveYears_perm {ι : Type} (g : List (Str × List ι)) :
    ((jsSort defaultCmp (objectKeys g)).reverse).Perm (mapKeys g) :=
  ((List.reverse_perm _).trans (jsSort_perm _ _)).trans (objectKeys_perm _)

theorem liveSections_eq {ι : Type} (key : ι → Str) (fl : List ι) (ys : List Str)
    (hys : ∀ y ∈ ys, y ∈ mapKeys (groupLoop key (fun x => x) fl)) :
    ys.map (fun y =>
        ({ year := y
           count := ((mapGet (groupLoop key (fun x => x) fl) y).getD []).length
           items := (mapGet (groupLoop key (fun x => x) fl) y).getD [] } :
          YearSection Str ι)) =
      liveSections key fl ys := by
  unfold liveSections
  apply List.map_congr_left
  intro y hy
  rw [mapGet_groupLoop _ _ _ _ (hys y hy)]
  simp

/-- The years of a live renderer are distinct, they are the keys of the filtered items, and
each of them has a filtered item. -/
theorem liveYears_partition {ι : Type} (key : ι → Str) (fl : List ι) (ys : List Str)
    (hys : ys.Perm (mapKeys (groupLoop key (fun x => x) fl))) :
    ys.Nodup ∧ (∀ k, k ∈ ys ↔ ∃ x ∈ fl, key x = k) ∧
      ∀ y ∈ ys, fl.filter (fun x => decide (key x = y)) ≠ [] := by
  have hinv := groupLoop_inv key (fun x => x) fl
  have hkeys : ∀ k, k ∈ ys ↔ ∃ x ∈ fl, key x = k := fun k =>
    (hys.mem_iff).trans (hinv.2.1 k)
  refine ⟨hys.nodup_iff.2 hinv.1, hkeys, ?_⟩
  intro y hy h
  obtain ⟨x, hx, hxy⟩ := (hkeys y).1 hy
  have : x ∈ fl.filter (fun x => decide (key x = y)) :=
    List.mem_filter.2 ⟨hx, by simpa using hxy⟩
  rw [h] at this
  exact absurd this (List.not_mem_nil _)

theorem Talk.filtered_of_dates (toLowerCase : Str → Str) (state : Talk.State)
    (filterYear filterQuery : Str) (hdate : ∀ t ∈ state.talks, ∃ d, t.date = .val d) :
    Talk.filtered toLowerCase state filterYear filterQuery =
      some (state.talks.filter (Talk.shown toLowerCase filterYear filterQuery)) := by
  unfold Talk.filtered
  apply filterThrowing_eq_filter
  intro t ht
  obtain ⟨d, hd⟩ := hdate t ht
  rw [Talk.passes_of_date toLowerCase filterYear filterQuery t d hd]
  simp [Talk.shown, Talk.groupKey, Talk.yearOf, hd]

/-- On talks that all have a date, `render` of `dist/talk.js` returns: the placeholder when
no talk passes the filter, and otherwise one section per year of `years`, with the talks of
that year that pass the filter, in input order. -/
theorem Talk.render_of_dates (toLowerCase : Str → Str) (state : Talk.State)
    (filterYear filterQuery : Str) (hdate : ∀ t ∈ state.talks, ∃ d, t.date = .val d) :
    Talk.render toLowerCase state filterYear filterQuery =
      some (if (Talk.years toLowerCase state filterYear filterQuery).length = 0 then
          .placeholder "No results found.".toList
        else
          .sections (liveSections Talk.groupKey
            (state.talks.filter (Talk.shown toLowerCase filterYear filterQuery))
            (Talk.years toLowerCase state filterYear filterQuery))) := by
  unfold Talk.render
  rw [Talk.filtered_of_dates toLowerCase state filterYear filterQuery hdate]
  simp only [Option.map_some']
  congr 1
  rw [liveSections_eq]
  · rfl
  · intro y hy
    exact (liveYears_perm _).mem_iff.1 hy

theorem Rendered.sectionList_ite {ι : Type} (text : Str) (l : List (YearSection Str ι))
    (c : Prop) [Decidable c] (h : c → l = []) :
    (if c then Rendered.placeholder text else Rendered.sections l).sectionList = l := by
  by_cases hc : c
  · rw [if_pos hc, h hc]
    rfl
  · rw [if_neg hc]
    rfl

theorem liveSections_year {ι : Type} (key : ι → Str) (fl : List ι) (ys : List Str) :
    (liveSections key fl ys).map (fun sec => sec.year) = ys := by
  unfold liveSections
  rw [List.map_map]
  conv_rhs => rw [← List.map_id ys]
  apply List.map_congr_left
  intro y _
  rfl

theorem Talk.shown_iff_passes (toLowerCase : Str → Str) (filterYear filterQuery : Str)
    (t : RawItem) (d : Str) (hd : t.date = .val d) :
    Talk.shown toLowerCase filterYear filterQuery t =
      decide (Talk.passes toLowerCase filterYear filterQuery t = some true) := by
  rw [Talk.passes_of_date toLowerCase filterYear filterQuery t d hd]
  simp only [Talk.shown, Talk.groupKey, Talk.yearOf, hd, Option.getD_some, Option.some.injEq]
  cases ((filterYear.isEmpty || List.take 4 d == filterYear) &&
    (filterQuery.isEmpty || includes (Talk.searchText toLowerCase t) filterQuery)) <;> simp

/-- C20, as amended. On talks that all have a date string, `render` of `dist/talk.js`
returns, and the year groups of the live talk and podcast renderers partition the items that
pass the filter, and those of `groupByYear` of `generate.js` partition its input: the keys
are distinct, a key is shown exactly when an item of that key passes, each section holds
exactly the passing items of its key, in input order (`groupByYear`: a permutation of the
items of its key), no section is empty, and the count shown is the number of items of
the section. -/
theorem year_groups_partition (toLowerCase : Str → Str) (talks : Talk.State)
    (podcasts : Podcasts.State) (env : DateEnv) (blogs : List RawItem)
    (filterYear filterQuery : Str) (hdate : ∀ t ∈ talks.talks, ∃ d, t.date = .val d) :
    (∃ r, Talk.render toLowerCase talks filterYear filterQuery = some r ∧
      r.keys.Nodup ∧
      (∀ k, k ∈ r.keys ↔
        ∃ t ∈ talks.talks, Talk.passes toLowerCase filterYear filterQuery t = some true ∧
          Talk.groupKey t = k) ∧
      ∀ sec ∈ r.sectionList,
        sec.items =
          talks.talks.filter (fun t =>
            decide (Talk.passes toLowerCase filterYear filterQuery t = some true) &&
              decide (Talk.groupKey t = sec.year)) ∧
        sec.items ≠ [] ∧ sec.count = sec.items.length) ∧
    ((Podcasts.render toLowerCase podcasts filterYear filterQuery).keys.Nodup ∧
      (∀ k, k ∈ (Podcasts.render toLowerCase podcasts filterYear filterQuery).keys ↔
        ∃ e ∈ Podcasts.filtered toLowerCase podcasts filterYear filterQuery,
          Podcasts.groupKey e = k) ∧
      ∀ sec ∈ (Podcasts.render toLowerCase podcasts filterYear filterQuery).sectionList,
        sec.items =
          (Podcasts.filtered toLowerCase podcasts filterYear filterQuery).filter
            (fun e => decide (Podcasts.groupKey e = sec.year)) ∧
        sec.items ≠ [] ∧ sec.count = sec.items.length) ∧
    ((mapKeys (Generate.groupByYear env blogs)).Nodup ∧
      (∀ k, k ∈ mapKeys (Generate.groupByYear env blogs) ↔
        ∃ b ∈ blogs, Generate.yearOf env b = k) ∧
      ∀ e ∈ Generate.groupByYear env blogs,
        e.2.Perm
          ((blogs.filter (fun b => decide (Generate.yearOf env b = e.1))).map
            (Generate.withYear env)) ∧
        e.2 ≠ []) := by
  refine ⟨?_, ?_, ?_⟩
  · refine ⟨_, Talk.render_of_dates toLowerCase talks filterYear filterQuery hdate, ?_⟩
    have hperm : (Talk.years toLowerCase talks filterYear filterQuery).Perm
        (mapKeys (groupLoop Talk.groupKey (fun t => t)
          (talks.talks.filter (Talk.shown toLowerCase filterYear filterQuery)))) :=
      liveYears_perm _
    obtain ⟨hnd, hkeys, hne⟩ := liveYears_partition Talk.groupKey _ _ hperm
    have hlist : (if (Talk.years toLowerCase talks filterYear filterQuery).length = 0 then
          Rendered.placeholder "No results found.".toList
        else
          Rendered.sections (liveSections Talk.groupKey
            (talks.talks.filter (Talk.shown toLowerCase filterYear filterQuery))
            (Talk.years toLowerCase talks filterYear filterQuery))).sectionList =
        liveSections Talk.groupKey
          (talks.talks.filter (Talk.shown toLowerCase filterYear filterQuery))
          (Talk.years toLowerCase talks filterYear filterQuery) := by
      apply Rendered.sectionList_ite
      intro h
      rw [List.length_eq_zero.1 h]
      rfl
    have hshown : ∀ t ∈ talks.talks, Talk.shown toLowerCase filterYear filterQuery t =
        decide (Talk.passes toLowerCase filterYear filterQuery t = some true) := by
      intro t ht
      obtain ⟨d, hd⟩ := hdate t ht
      exact Talk.shown_iff_passes toLowerCase filterYear filterQuery t d hd
    unfold Rendered.keys
    rw [hlist, liveSections_year]
    refine ⟨hnd, ?_, ?_⟩
    · intro k
      rw [hkeys]
      constructor
      · rintro ⟨t, ht, rfl⟩
        obtain ⟨hmem, hs⟩ := List.mem_filter.1 ht
        rw [hshown t hmem] at hs
        exact ⟨t, hmem, of_decide_eq_true hs, rfl⟩
      · rintro ⟨t, ht, hp, rfl⟩
        refine ⟨t, List.mem_filter.2 ⟨ht, ?_⟩, rfl⟩
        rw [hshown t ht]
        exact decide_eq_true hp
    · intro sec hsec
      unfold liveSections at hsec
      obtain ⟨y, hy, rfl⟩ := List.mem_map.1 hsec
      refine ⟨?_, hne y hy, rfl⟩
      simp only [List.filter_filter]
      apply List.filter_congr
      intro t ht
      rw [hshown t ht, Bool.and_comm]
  · have hperm := Podcasts.years_perm toLowerCase podcasts filterYear filterQuery
    unfold Podcasts.groups at hperm
    obtain ⟨hnd, hkeys, hne⟩ := liveYears_partition Podcasts.groupKey _ _ hperm
    rw [Podcasts.render_keys, Podcasts.render_sections]
    refine ⟨hnd, hkeys, ?_⟩
    intro sec hsec
    obtain ⟨y, hy, rfl⟩ := List.mem_map.1 hsec
    exact ⟨rfl, hne y hy, rfl⟩
  · have hinv := groupLoop_inv (Generate.yearOf env) (Generate.withYear env) blogs
    unfold Generate.groupByYear
    simp only []
    rw [mapKeys_mapValues]
    refine ⟨hinv.1, hinv.2.1, ?_⟩
    intro e he
    obtain ⟨e0, he0, rfl⟩ := List.mem_map.1 he
    simp only
    have hval := hinv.2.2 e0 he0
    refine ⟨?_, ?_⟩
    · rw [← hval]
      exact jsSort_perm _ _
    · intro hnil
      have hnil0 : e0.2 = [] := by
        have := (jsSort_perm (Generate.byDateDesc env) e0.2).length_eq
        rw [hnil] at this
        exact List.length_eq_zero.1 this.symm
      have hk : e0.1 ∈ mapKeys (groupLoop (Generate.yearOf env) (Generate.withYear env)
          blogs) := List.mem_map.2 ⟨e0, he0, rfl⟩
      obtain ⟨b, hb, hby⟩ := (hinv.2.1 e0.1).1 hk
      have hmem : Generate.withYear env b ∈
          (blogs.filter (fun x => decide (Generate.yearOf env x = e0.1))).map
            (Generate.withYear env) :=
        List.mem_map.2 ⟨b, List.mem_filter.2 ⟨hb, by simpa using hby⟩, rfl⟩
      rw [← hval, hnil0] at hmem
      exact absurd hmem (List.not_mem_nil _)

/-- C20, witness of `year_groups_partition`: of three talks, of 2022 and of 2024, the two of
the speaker Ann pass the query "ann"; the sections 2024 and 2022 hold one talk each, and the
talk of the speaker Bob is in neither. -/
theorem year_groups_partition_witness :
    (∀ t ∈ [sampleTalk2022, sampleTalkEarly, sampleTalkLate], ∃ d, t.date = .val d) ∧
    ∃ r, Talk.render asciiLower { talks := [sampleTalk2022, sampleTalkEarly, sampleTalkLate] }
        [] "ann".toList = some r ∧
      r.keys = ["2024".toList, "2022".toList] ∧
      r.sectionList.map (fun sec => (sec.year, sec.count, sec.items.map (fun t => t.title))) =
        [("2024".toList, 1, [.val "Early".toList]),
          ("2022".toList, 1, [.val "Lakehouse basics".toList])] := by
  have hdate : ∀ t ∈ [sampleTalk2022, sampleTalkEarly, sampleTalkLate],
      ∃ d, t.date = .val d := by
    intro t ht
    simp only [List.mem_cons, List.mem_singleton, List.not_mem_nil, or_false] at ht
    rcases ht with rfl | rfl | rfl
    · exact ⟨_, rfl⟩
    · exact ⟨_, rfl⟩
    · exact ⟨_, rfl⟩
  refine ⟨hdate, ?_⟩
  obtain ⟨r, hr, _⟩ :=
    (year_groups_partition asciiLower
      { talks := [sampleTalk2022, sampleTalkEarly, sampleTalkLate] }
      samplePodcastState (isoEnv 0) [sampleA] [] "ann".toList hdate).1
  refine ⟨r, hr, ?_, ?_⟩
  · have hkeys : (Talk.render asciiLower
        { talks := [sampleTalk2022, sampleTalkEarly, sampleTalkLate] } [] "ann".toList).map
        Rendered.keys = some ["2024".toList, "2022".toList] := by
      decide
    rw [hr] at hkeys
    exact Option.some.inj hkeys
  · have hsections : (Talk.render asciiLower
        { talks := [sampleTalk2022, sampleTalkEarly, sampleTalkLate] } [] "ann".toList).map
        (fun r => r.sectionList.map
          (fun sec => (sec.year, sec.count, sec.items.map (fun t => t.title)))) =
        some [("2024".toList, 1, [.val "Early".toList]),
          ("2022".toList, 1, [.val "Lakehouse basics".toList])] := by
      decide
    rw [hr] at hsections
    exact Option.some.inj hsections

/-- C20, counterexample to the claim as stated: for the talk `Early` and a talk without a
date, `render` of `dist/talk.js` throws when its filter reads `t.date.slice` of the second
talk. The talk `Early` passes the filter and is in no group, since no group is built, and
`init` leaves the error message in `#talks-root`. -/
theorem undated_talk_stops_render :
    Talk.passes asciiLower [] [] sampleTalkEarly = some true ∧
    Talk.render asciiLower { talks := [sampleTalkEarly, sampleTalkUndated] } [] [] = none ∧
    (Talk.init asciiLower true {} .empty (some [sampleTalkEarly, sampleTalkUndated])).2 =
      .message "Error loading data.".toList := by
  decide

/-! ### The empty state -/

theorem liveSections_eq_nil {ι : Type} (key : ι → Str) (fl : List ι) (ys : List Str) :
    liveSections key fl ys = [] ↔ ys = [] := by
  unfold liveSections
  exact List.map_eq_nil_iff

theorem Index.section_hidden_iff (toLowerCase : Str → Str) (state : Index.State)
    (sections : List Index.SectionEl) (sec : Index.SectionEl)
    (hsec : sec ∈ Index.applyFilters toLowerCase state sections) :
    sec.hidden = true ↔ ∀ card ∈ sec.cards, card.hidden = true := by
  unfold Index.applyFilters at hsec
  obtain ⟨sec0, _, rfl⟩ := List.mem_map.1 hsec
  simp only [beq_iff_eq, List.length_eq_zero, List.filter_eq_nil_iff, List.mem_map,
    forall_exists_index, and_imp]
  constructor
  · intro h card card0 hcard0 hcard
    rw [← hcard]
    simp only [Bool.not_eq_true']
    cases hv : Index.isVisible (toLowerCase (jsTrim state.query)) state.activeProject card0
    · rfl
    · exact absurd hv (h card0 hcard0)
  · intro h card0 hcard0 hv
    have := h _ card0 hcard0 rfl
    simp only [hv, Bool.not_true] at this
    cases this

/-- The empty state of the three pages. `render` of `dist/talk.js` (on talks that have a
date) and of `dist/podcasts.js` leave the one placeholder and no year section when no item
passes the filter, and year sections and no placeholder when an item passes. What `renderAll`
of `index.js` leaves is a list of year sections, of which exactly those whose cards are all
hidden are marked as hidden. -/
theorem talk_and_podcast_empty_state (toLowerCase : Str → Str) (talks : Talk.State) (podcasts : Podcasts.State)
    (blogState : Index.State) (env : DateEnv) (format : Int → Str)
    (filterYear filterQuery : Str)
    (hdate : ∀ t ∈ talks.talks, ∃ d, t.date = .val d) :
    (∃ r, Talk.render toLowerCase talks filterYear filterQuery = some r ∧
      ((∀ t ∈ talks.talks, Talk.passes toLowerCase filterYear filterQuery t ≠ some true) →
        r = .placeholder "No results found.".toList) ∧
      ((∃ t ∈ talks.talks, Talk.passes toLowerCase filterYear filterQuery t = some true) →
        ∃ l, r = .sections l ∧ l ≠ [])) ∧
    ((Podcasts.filtered toLowerCase podcasts filterYear filterQuery = [] →
        Podcasts.render toLowerCase podcasts filterYear filterQuery =
          .placeholder "No episodes match.".toList) ∧
      (Podcasts.filtered toLowerCase podcasts filterYear filterQuery ≠ [] →
        ∃ l, Podcasts.render toLowerCase podcasts filterYear filterQuery = .sections l ∧
          l ≠ [])) ∧
    (∀ sections, Index.renderAll toLowerCase env format blogState = some sections →
      ∀ sec ∈ sections, (sec.hidden = true ↔ ∀ card ∈ sec.cards, card.hidden = true)) := by
  refine ⟨?_, ⟨?_, ?_⟩, ?_⟩
  · refine ⟨_, Talk.render_of_dates toLowerCase talks filterYear filterQuery hdate, ?_, ?_⟩
    · intro hnone
      have hfl : talks.talks.filter (Talk.shown toLowerCase filterYear filterQuery) = [] := by
        rw [List.filter_eq_nil_iff]
        intro t ht hs
        obtain ⟨d, hd⟩ := hdate t ht
        rw [Talk.shown_iff_passes toLowerCase filterYear filterQuery t d hd] at hs
        exact hnone t ht (of_decide_eq_true hs)
      have hy : Talk.years toLowerCase talks filterYear filterQuery = [] := by
        unfold Talk.years
        rw [hfl]
        rfl
      rw [hy]
      rfl
    · rintro ⟨t, ht, hp⟩
      obtain ⟨d, hd⟩ := hdate t ht
      have hmem : t ∈ talks.talks.filter (Talk.shown toLowerCase filterYear filterQuery) := by
        refine List.mem_filter.2 ⟨ht, ?_⟩
        rw [Talk.shown_iff_passes toLowerCase filterYear filterQuery t d hd]
        exact decide_eq_true hp
      have hk : Talk.groupKey t ∈ Talk.years toLowerCase talks filterYear filterQuery :=
        (liveYears_partition Talk.groupKey _ _ (liveYears_perm _)).2.1 _ |>.2 ⟨t, hmem, rfl⟩
      have hne : Talk.years toLowerCase talks filterYear filterQuery ≠ [] :=
        List.ne_nil_of_mem hk
      have hlen : ¬ (Talk.years toLowerCase talks filterYear filterQuery).length = 0 :=
        fun h => hne (List.length_eq_zero.1 h)
      rw [if_neg hlen]
      exact ⟨_, rfl, fun h => hne ((liveSections_eq_nil _ _ _).1 h)⟩
  · intro hfl
    have hy : Podcasts.years toLowerCase podcasts filterYear filterQuery = [] := by
      unfold Podcasts.years Podcasts.groups
      rw [hfl]
      rfl
    unfold Podcasts.render
    simp only [hy, List.length_nil, if_true]
  · intro hfl
    obtain ⟨e, he⟩ := List.exists_mem_of_ne_nil _ hfl
    have hperm := Podcasts.years_perm toLowerCase podcasts filterYear filterQuery
    unfold Podcasts.groups at hperm
    have hk : Podcasts.groupKey e ∈ Podcasts.years toLowerCase podcasts filterYear
        filterQuery :=
      (liveYears_partition Podcasts.groupKey _ _ hperm).2.1 _ |>.2 ⟨e, he, rfl⟩
    have hne : Podcasts.years toLowerCase podcasts filterYear filterQuery ≠ [] :=
      List.ne_nil_of_mem hk
    have hlen : ¬ (Podcasts.years toLowerCase podcasts filterYear filterQuery).length = 0 :=
      fun h => hne (List.length_eq_zero.1 h)
    unfold Podcasts.render
    simp only [hlen, if_false]
    exact ⟨_, rfl, fun h => hne (List.map_eq_nil_iff.1 h)⟩
  · intro sections hsections sec hsec
    unfold Index.renderAll at hsections
    simp only [Option.map_eq_some'] at hsections
    obtain ⟨built, _, rfl⟩ := hsections
    exact Index.section_hidden_iff toLowerCase blogState _ sec hsec

/-- An instance: the one talk of 2022 and the query "x", which it does not match, give the
placeholder. -/
theorem talk_and_podcast_empty_state_witness :
    (∀ t ∈ [sampleTalk2022], ∃ d, t.date = .val d) ∧
    Talk.render asciiLower { talks := [sampleTalk2022] } [] "x".toList =
      some (.placeholder "No results found.".toList) :=
  ⟨fun t ht => ⟨"2022-09-01".toList, by
      rw [List.mem_singleton.1 ht]
      rfl⟩,
    by
      obtain ⟨r, hr, hnone, _⟩ :=
        (talk_and_podcast_empty_state asciiLower { talks := [sampleTalk2022] }
          samplePodcastState sampleBlogState (isoEnv 0) sampleFormat [] "x".toList
          (fun t ht => ⟨"2022-09-01".toList, by
            rw [List.mem_singleton.1 ht]
            rfl⟩)).1
      rw [hr, hnone (by decide)]⟩

/-- C17, the code at the failing input. On the blog page there is no placeholder: with no
blog at all `init` leaves `#yearsRoot` without any child, and with the one blog `A`, which
does not match the query "zzz", the search listener leaves the year section of the blog,
marked hidden, with its card marked hidden, and nothing else. The talk page and the podcast
page leave their placeholder on the same inputs. -/
theorem blog_page_has_no_placeholder :
    (Index.init asciiLower (isoEnv 0) sampleFormat {} .empty (some (.val []))).2 = .live [] ∧
    (Index.init asciiLower (isoEnv 0) sampleFormat {} .empty (some (.val [sampleA]))).2 =
      .live sampleASections ∧
    (Index.onSearch asciiLower {} sampleASections "zzz".toList).2.map
        (fun sec => (sec.id, sec.hidden, sec.count, sec.cards.map (fun card => card.hidden))) =
      [(some 2024, true, (0, 1), [true])] ∧
    (Talk.init asciiLower true {} .empty (some [])).2 =
      .live (.placeholder "No results found.".toList) ∧
    (Talk.onSearchInput asciiLower { talks := [sampleA] } "zzz".toList).2 =
      some (.placeholder "No results found.".toList) ∧
    (Podcasts.init asciiLower true {} .empty (some [])).2 =
      .live (.placeholder "No episodes match.".toList) ∧
    (Podcasts.onSearchInput asciiLower { episodes := [sampleEpisode2024] } "zzz".toList).2 =
      .placeholder "No episodes match.".toList := by
  decide

/-! ### The order of the cards of the live renderers -/

/-- C15, the code at the failing input. For two talks (two episodes) of 2024 listed with the
earlier one first, the live renderers show the cards in input order, the earlier one first,
and `buildPage` of `staticgen.js` shows them in descending date order, the later one
first. -/
theorem live_cards_in_input_order :
    (Talk.render asciiLower { talks := [sampleTalkEarly, sampleTalkLate] } [] []).map
        (fun r => r.sectionList.map
          (fun sec => (sec.year, sec.items.map (fun t => t.title)))) =
      some [("2024".toList, [.val "Early".toList, .val "Late".toList])] ∧
    (Staticgen.buildPage (isoEnv 0) .talk [sampleTalkEarly, sampleTalkLate]).map
        (fun sec => (sec.year, sec.items.map (fun i => i.title))) =
      [(some 2024, [.val "Late".toList, .val "Early".toList])] ∧
    (Podcasts.render asciiLower { episodes := [sampleEpisodeJan, sampleEpisodeMar] }
        [] []).sectionList.map
        (fun sec => (sec.year, sec.items.map (fun e => e.ep.episode_title))) =
      [("2024".toList, [.val "Jan".toList, .val "Mar".toList])] ∧
    (Staticgen.buildPage (isoEnv 0) .podcast [sampleEpisodeJan, sampleEpisodeMar]).map
        (fun sec => (sec.year, sec.items.map (fun i => i.title))) =
      [(some 2024, [.val "Mar".toList, .val "Jan".toList])] := by
  decide

/-! ### Start-up on server-rendered content -/

/-- C19, the code at the failing input. `init` of `index.js` does not look at what
`#yearsRoot` holds: on server-rendered content it replaces it, by the rendered sections when
the fetch succeeds and by the error box when it fails. `init` of `dist/talk.js` and of
`dist/podcasts.js` leave server-rendered content as it is, whatever the fetch gives. -/
theorem blog_init_replaces_server_content :
    (Index.renderAll asciiLower (isoEnv 0) sampleFormat
        { blogs := [Index.initBlog (isoEnv 0) sampleA]
          grouped := Index.groupByYear (isoEnv 0) [Index.initBlog (isoEnv 0) sampleA] }).map
        Container.live =
      some (Index.init asciiLower (isoEnv 0) sampleFormat {} (.serverRendered sampleServerHtml)
        (some (.val [sampleA]))).2 ∧
    (Index.init asciiLower (isoEnv 0) sampleFormat {} (.serverRendered sampleServerHtml)
        (some (.val [sampleA]))).2 ≠ .serverRendered sampleServerHtml ∧
    (Index.init asciiLower (isoEnv 0) sampleFormat {} (.serverRendered sampleServerHtml)
        none).2 =
      .message "Could not load blog data.".toList ∧
    (∀ (toLowerCase : Str → Str) (present : Bool) (state : Talk.State) (html : Str)
        (fetched : Option (List RawItem)),
      (Talk.init toLowerCase present state (.serverRendered html) fetched).2 =
        .serverRendered html) ∧
    (∀ (toLowerCase : Str → Str) (present : Bool) (state : Podcasts.State) (html : Str)
        (fetched : Option (List RawItem)),
      (Podcasts.init toLowerCase present state (.serverRendered html) fetched).2 =
        .serverRendered html) := by
  refine ⟨by decide, by decide, by decide, ?_, ?_⟩
  · intro toLowerCase present state html fetched
    unfold Talk.init
    cases present <;> cases fetched <;> simp [Container.hasChildren]
  · intro toLowerCase present state html fetched
    unfold Podcasts.init
    cases present <;> cases fetched <;> simp [Container.hasChildren]

/-! ### Monotonicity of the text filter -/

theorem includes_nil (s : Str) : includes s [] = true :=
  (includes_iff s []).2 ⟨[], s, rfl⟩

theorem includes_of_append (s a b : Str) (h : includes s (a ++ b) = true) :
    includes s a = true := by
  obtain ⟨pre, post, hs⟩ := (includes_iff s (a ++ b)).1 h
  exact (includes_iff s a).2 ⟨pre, b ++ post, by rw [hs]; simp⟩

theorem includes_trans (s a b : Str) (hab : includes a b = true) (hsa : includes s a = true) :
    includes s b = true := by
  obtain ⟨p1, q1, h1⟩ := (includes_iff a b).1 hab
  obtain ⟨p2, q2, h2⟩ := (includes_iff s a).1 hsa
  exact (includes_iff s b).2 ⟨p2 ++ p1, q1 ++ q2, by rw [h2, h1]; simp⟩

theorem query_test_eq (s q : Str) : (q.isEmpty || includes s q) = includes s q := by
  cases q with
  | nil => simp [includes_nil]
  | cons c q => simp

theorem rdrop_append (p : Char → Bool) (a x : Str) (ha : a.reverse.dropWhile p = a.reverse) :
    ((a ++ x).reverse.dropWhile p).reverse = a ++ (x.reverse.dropWhile p).reverse := by
  rw [List.reverse_append, List.dropWhile_append]
  split_ifs with h
  · rw [ha, List.reverse_reverse, List.isEmpty_iff.1 h]
    simp
  · simp

/-- Trimming `q ++ suffix` gives a text that begins with the trimmed `q`, unless the trimmed
`q` is empty. -/
theorem jsTrim_append (q suffix : Str) :
    jsTrim q = [] ∨ ∃ r, jsTrim (q ++ suffix) = jsTrim q ++ r := by
  unfold jsTrim
  by_cases hm : (q.dropWhile isJsSpace).isEmpty = true
  · left
    rw [List.isEmpty_iff.1 hm]
    rfl
  · right
    rw [List.dropWhile_append, if_neg hm]
    have hsplit : q.dropWhile isJsSpace =
        ((q.dropWhile isJsSpace).reverse.dropWhile isJsSpace).reverse ++
          ((q.dropWhile isJsSpace).reverse.takeWhile isJsSpace).reverse := by
      rw [← List.reverse_append, List.takeWhile_append_dropWhile, List.reverse_reverse]
    refine ⟨(((((q.dropWhile isJsSpace).reverse.takeWhile isJsSpace).reverse ++
      suffix).reverse).dropWhile isJsSpace).reverse, ?_⟩
    conv_lhs => rw [hsplit, List.append_assoc]
    apply rdrop_append
    rw [List.reverse_reverse]
    exact List.dropWhile_idempotent _ _

theorem mem_liveSections_items {ι : Type} (key : ι → Str) (fl : List ι) (ys : List Str)
    (x : ι) :
    x ∈ (liveSections key fl ys).flatMap (fun sec => sec.items) ↔ x ∈ fl ∧ key x ∈ ys := by
  unfold liveSections
  simp only [List.mem_flatMap, List.mem_map, exists_exists_and_eq_and, List.mem_filter,
    decide_eq_true_eq]
  constructor
  · rintro ⟨y, hy, hx, rfl⟩
    exact ⟨hx, hy⟩
  · rintro ⟨hx, hy⟩
    exact ⟨key x, hy, hx, rfl⟩

/-- The talks shown by `render` of `dist/talk.js` are the talks that pass the filter. -/
theorem Talk.mem_rendered (toLowerCase : Str → Str) (state : Talk.State)
    (filterYear filterQuery : Str) (hdate : ∀ t ∈ state.talks, ∃ d, t.date = .val d) :
    ∃ r, Talk.render toLowerCase state filterYear filterQuery = some r ∧
      ∀ t, t ∈ r.sectionList.flatMap (fun sec => sec.items) ↔
        t ∈ state.talks.filter (Talk.shown toLowerCase filterYear filterQuery) := by
  refine ⟨_, Talk.render_of_dates toLowerCase state filterYear filterQuery hdate, ?_⟩
  intro t
  rw [Rendered.sectionList_ite, mem_liveSections_items]
  · constructor
    · exact fun h => h.1
    · intro h
      exact ⟨h, ((liveYears_partition Talk.groupKey _ _ (liveYears_perm _)).2.1 _).2
        ⟨t, h, rfl⟩⟩
  · intro h
    rw [List.length_eq_zero.1 h]
    rfl

theorem asciiLower_flatMap (s : Str) : asciiLower s = s.flatMap (fun c => [c.toLower]) := by
  unfold asciiLower
  induction s with
  | nil => rfl
  | cons c s ih => simp [List.flatMap_cons, ih]

/-- C11, as amended. When lower-casing maps each character on its own, filtering is
monotonic in the query: with the same selector, every card of the blog page that
`applyFilters` leaves visible for the query `q ++ suffix` is visible for the query `q`, and
every talk that `render` of `dist/talk.js` shows for the input value `q ++ suffix` is shown
for the input value `q`. -/
theorem filter_monotone (toLowerCase : Str → Str) (lowerChar : Char → Str)
    (blogState : Index.State) (sections : List Index.SectionEl) (talks : Talk.State)
    (q suffix : Str)
    (hlower : ∀ s, toLowerCase s = s.flatMap lowerChar)
    (hdate : ∀ t ∈ talks.talks, ∃ d, t.date = .val d) :
    List.Forall₂
      (fun (long short : Index.SectionEl) =>
        List.Forall₂
          (fun (cardLong cardShort : Index.CardEl) =>
            cardLong.hidden = false → cardShort.hidden = false)
          long.cards short.cards)
      (Index.onSearch toLowerCase blogState sections (q ++ suffix)).2
      (Index.onSearch toLowerCase blogState sections q).2 ∧
    ∃ long short,
      (Talk.onSearchInput toLowerCase talks (q ++ suffix)).2 = some long ∧
      (Talk.onSearchInput toLowerCase talks q).2 = some short ∧
      ∀ t ∈ long.sectionList.flatMap (fun sec => sec.items),
        t ∈ short.sectionList.flatMap (fun sec => sec.items) := by
  have happ : ∀ a b, toLowerCase (a ++ b) = toLowerCase a ++ toLowerCase b := by
    intro a b
    rw [hlower, hlower, hlower, List.flatMap_append]
  have hnil : toLowerCase [] = [] := by
    rw [hlower]
    rfl
  constructor
  · unfold Index.onSearch Index.applyFilters
    simp only []
    rw [List.forall₂_map_left_iff, List.forall₂_map_right_iff]
    apply List.forall₂_same.2
    intro sec _
    simp only []
    rw [List.forall₂_map_left_iff, List.forall₂_map_right_iff]
    apply List.forall₂_same.2
    intro card _
    simp only [Bool.not_eq_false', Bool.not_eq_eq_eq_not, Bool.not_true, Bool.not_false]
    unfold Index.isVisible
    simp only [Bool.and_eq_true]
    rintro ⟨hp, hq⟩
    refine ⟨hp, ?_⟩
    have e1 : ∀ x : Str, (x == []) = x.isEmpty := by
      intro x
      cases x <;> rfl
    rw [e1, query_test_eq] at hq ⊢
    rcases jsTrim_append q suffix with h | ⟨r, h⟩
    · rw [h, hnil]
      exact includes_nil _
    · rw [h, happ] at hq
      exact includes_of_append _ _ _ hq
  · obtain ⟨long, hlong, hml⟩ := Talk.mem_rendered toLowerCase
      { talks with query := toLowerCase (q ++ suffix) } talks.year (toLowerCase (q ++ suffix))
      hdate
    obtain ⟨short, hshort, hms⟩ := Talk.mem_rendered toLowerCase
      { talks with query := toLowerCase q } talks.year (toLowerCase q) hdate
    refine ⟨long, short, hlong, hshort, ?_⟩
    intro t ht
    rw [hms]
    rw [hml] at ht
    obtain ⟨hmem, hs⟩ := List.mem_filter.1 ht
    refine List.mem_filter.2 ⟨hmem, ?_⟩
    unfold Talk.shown at hs ⊢
    simp only [Bool.and_eq_true] at hs ⊢
    refine ⟨hs.1, ?_⟩
    have hq := hs.2
    rw [query_test_eq, happ] at hq
    rw [query_test_eq]
    exact includes_of_append _ _ _ hq

/-- C11, witness of `filter_monotone`: the talk `Late`, the input values "la" and "late",
and ASCII lower-casing. -/
theorem filter_monotone_witness :
    (∀ s, asciiLower s = s.flatMap (fun c => [c.toLower])) ∧
    (∀ t ∈ [sampleTalkLate], ∃ d, t.date = .val d) ∧
    ∃ long short,
      (Talk.onSearchInput asciiLower { talks := [sampleTalkLate] }
        ("la".toList ++ "te".toList)).2 = some long ∧
      (Talk.onSearchInput asciiLower { talks := [sampleTalkLate] } "la".toList).2 =
        some short ∧
      ∀ t ∈ long.sectionList.flatMap (fun sec => sec.items),
        t ∈ short.sectionList.flatMap (fun sec => sec.items) :=
  ⟨asciiLower_flatMap,
    fun t ht => ⟨"2024-03-05".toList, by
      rw [List.mem_singleton.1 ht]
      rfl⟩,
    (filter_monotone asciiLower (fun c => [c.toLower]) {} sampleLakeSections
      { talks := [sampleTalkLate] } "la".toList "te".toList asciiLower_flatMap
      (fun t ht => ⟨"2024-03-05".toList, by
        rw [List.mem_singleton.1 ht]
        rfl⟩)).2⟩

/-- C11, counterexample to the claim as stated: lower-casing gives the capital sigma its
final form at the end of a word, so the query "ΑΣ" becomes "ας" and the query "ΑΣΑ", which
is "ΑΣ" followed by "Α", becomes "ασα". The item titled "ΑΣΑ" is visible for the longer
query and not for the shorter one, on the blog page and on the talk page. -/
theorem final_sigma_breaks_monotonicity :
    sigmaLower "ΑΣ".toList = "ας".toList ∧
    sigmaLower ("ΑΣ".toList ++ "Α".toList) = "ασα".toList ∧
    ((Index.onSearch sigmaLower {} sampleSigmaSections ("ΑΣ".toList ++ "Α".toList)).2.map
        (fun sec => sec.cards.map (fun card => card.hidden)) = [[false]]) ∧
    ((Index.onSearch sigmaLower {} sampleSigmaSections "ΑΣ".toList).2.map
        (fun sec => sec.cards.map (fun card => card.hidden)) = [[true]]) ∧
    ((Talk.onSearchInput sigmaLower { talks := [sampleSigma] }
        ("ΑΣ".toList ++ "Α".toList)).2.map
        (fun r => r.sectionList.map (fun sec => sec.items.map (fun t => t.title))) =
      some [[.val "ΑΣΑ".toList]]) ∧
    ((Talk.onSearchInput sigmaLower { talks := [sampleSigma] } "ΑΣ".toList).2.map
        (fun r => r.sectionList.map (fun sec => sec.items.map (fun t => t.title))) =
      some []) := by
  decide

/-! ### The fields of the search text -/

theorem includes_self (s : Str) : includes s s = true :=
  (includes_iff s s).2 ⟨[], [], by simp⟩

theorem mem_jsJoin_includes (sep : Str) :
    ∀ (parts : List Str) (p : Str), p ∈ parts → includes (jsJoin sep parts) p = true
  | [], _, h => absurd h (List.not_mem_nil _)
  | [x], p, h => by
    rw [List.mem_singleton.1 h]
    exact includes_self x
  | x :: y :: rest, p, h => by
    rw [includes_iff]
    rcases List.mem_cons.1 h with rfl | h'
    · exact ⟨[], sep ++ jsJoin sep (y :: rest), by simp [jsJoin]⟩
    · obtain ⟨a, b, hab⟩ :=
        (includes_iff _ _).1 (mem_jsJoin_includes sep (y :: rest) p h')
      exact ⟨x ++ sep ++ a, b, by simp only [jsJoin]; rw [hab]; simp⟩

theorem jsTrim_includes (q : Str) : includes q (jsTrim q) = true := by
  rw [includes_iff]
  unfold jsTrim
  refine ⟨q.takeWhile isJsSpace,
    ((q.dropWhile isJsSpace).reverse.takeWhile isJsSpace).reverse, ?_⟩
  have hsplit : q.dropWhile isJsSpace =
      ((q.dropWhile isJsSpace).reverse.dropWhile isJsSpace).reverse ++
        ((q.dropWhile isJsSpace).reverse.takeWhile isJsSpace).reverse := by
    rw [← List.reverse_append, List.takeWhile_append_dropWhile, List.reverse_reverse]
  conv_lhs => rw [← List.takeWhile_append_dropWhile isJsSpace q, hsplit]
  simp

theorem includes_lower (toLowerCase : Str → Str)
    (happ : ∀ a b, toLowerCase (a ++ b) = toLowerCase a ++ toLowerCase b) (s p : Str)
    (h : includes s p = true) : includes (toLowerCase s) (toLowerCase p) = true := by
  obtain ⟨a, b, hab⟩ := (includes_iff s p).1 h
  exact (includes_iff _ _).2 ⟨toLowerCase a, toLowerCase b, by rw [hab, happ, happ]⟩

theorem toLower_toLower (c : Char) : c.toLower.toLower = c.toLower := by
  unfold Char.toLower
  by_cases h : c.toNat ≥ 65 ∧ c.toNat ≤ 90
  · simp only [h, and_self, if_true]
    have hv : (Char.ofNat (c.toNat + 32)).toNat = c.toNat + 32 := by
      have hvalid : (c.toNat + 32).isValidChar := by
        left
        omega
      rw [Char.ofNat, dif_pos hvalid]
      simp only [Char.ofNatAux, Char.toNat, UInt32.toNat, BitVec.toNat_ofNatLt]
    rw [hv]
    have : ¬ (c.toNat + 32 ≥ 65 ∧ c.toNat + 32 ≤ 90) := by omega
    rw [if_neg this]
  · simp only [h, if_false]

theorem asciiLower_asciiLower (s : Str) : asciiLower (asciiLower s) = asciiLower s := by
  unfold asciiLower
  rw [List.map_map]
  apply List.map_congr_left
  intro c _
  exact toLower_toLower c

theorem Index.searchable_includes (toLowerCase : Str → Str)
    (happ : ∀ a b, toLowerCase (a ++ b) = toLowerCase a ++ toLowerCase b) (blog : RawItem)
    (field : Js Str)
    (hfield : field ∈ [blog.title, blog.company, blog.author,
      .val (jsJoin " ".toList blog.tags.orEmpty),
      .val (jsJoin " ".toList blog.project_slugs.orEmpty), blog.url])
    (htruthy : field.truthy = true) :
    includes (Index.searchable toLowerCase blog) (toLowerCase field.joined) = true := by
  unfold Index.searchable
  apply includes_lower toLowerCase happ
  apply mem_jsJoin_includes
  exact List.mem_map.2 ⟨field, List.mem_filter.2 ⟨hfield, htruthy⟩, rfl⟩

theorem Index.visible_of_includes (toLowerCase : Str → Str) (state : Index.State)
    (sections : List Index.SectionEl) (hall : state.activeProject = "all".toList)
    (sec : Index.SectionEl) (hsec : sec ∈ Index.applyFilters toLowerCase state sections)
    (card : Index.CardEl) (hcard : card ∈ sec.cards)
    (h : includes (card.search.orStr []) (toLowerCase (jsTrim state.query)) = true) :
    card.hidden = false := by
  obtain ⟨sec0, _, card0, _, _, hsearch, hhidden⟩ :=
    Index.mem_applyFilters toLowerCase state sections sec card hsec hcard
  rw [hhidden]
  rw [hsearch] at h
  unfold Index.isVisible
  simp [hall, h]

/-- The fields of the three search texts. With a lower-casing that maps each character on
its own and leaves lower-cased text as it is: the search text of a blog card is in lower case
and holds the
lower-cased title, company, author, joined tags, joined project slugs and url (those that are
not empty), so on the blog page a card is visible for every query that is a substring of its
lower-cased url; the text that the talk page tests is in lower case and holds the
lower-cased title, joined speakers, joined tags and event, and the text that the podcast page
tests is in lower case and holds the lower-cased episode title, podcast title and
publication date. -/
theorem search_text_fields (toLowerCase : Str → Str) (lowerChar : Char → Str)
    (state : Index.State) (sections : List Index.SectionEl) (blog talk : RawItem)
    (podcasts : Podcasts.State)
    (hlower : ∀ s, toLowerCase s = s.flatMap lowerChar)
    (hidem : ∀ s, toLowerCase (toLowerCase s) = toLowerCase s)
    (hall : state.activeProject = "all".toList)
    (hquery : includes (toLowerCase (blog.url.orStr [])) state.query = true) :
    (toLowerCase (Index.searchable toLowerCase blog) = Index.searchable toLowerCase blog ∧
      (∀ field ∈ [blog.title, blog.company, blog.author,
          .val (jsJoin " ".toList blog.tags.orEmpty),
          .val (jsJoin " ".toList blog.project_slugs.orEmpty), blog.url],
        field.truthy = true →
          includes (Index.searchable toLowerCase blog) (toLowerCase field.joined) = true) ∧
      ∀ sec ∈ Index.applyFilters toLowerCase state sections, ∀ card ∈ sec.cards,
        card.search = .val (Index.searchable toLowerCase blog) → card.hidden = false) ∧
    (toLowerCase (Talk.searchText toLowerCase talk) = Talk.searchText toLowerCase talk ∧
      ∀ field ∈ [talk.title.interpolated, jsJoin " ".toList talk.speakers.orEmpty,
          jsJoin " ".toList talk.tags.orEmpty, talk.event.orStr []],
        includes (Talk.searchText toLowerCase talk) (toLowerCase field) = true) ∧
    (∀ e ∈ Podcasts.items toLowerCase podcasts,
      toLowerCase e.search = e.search ∧
      ∀ field ∈ [e.ep.episode_title.joined, e.ep.podcast_title.joined,
          e.ep.publication_date.joined],
        includes e.search (toLowerCase field) = true) := by
  have happ : ∀ a b, toLowerCase (a ++ b) = toLowerCase a ++ toLowerCase b := by
    intro a b
    rw [hlower, hlower, hlower, List.flatMap_append]
  have hnil : toLowerCase [] = [] := by
    rw [hlower]
    rfl
  refine ⟨⟨hidem _, ?_, ?_⟩, ⟨hidem _, ?_⟩, ?_⟩
  · intro field hfield htruthy
    exact Index.searchable_includes toLowerCase happ blog field hfield htruthy
  · intro sec hsec card hcard hsearch
    apply Index.visible_of_includes toLowerCase state sections hall sec hsec card hcard
    rw [hsearch]
    have hblob : (Js.val (Index.searchable toLowerCase blog)).orStr [] =
        Index.searchable toLowerCase blog := by
      simp only [Js.orStr]
      split <;> simp_all
    rw [hblob]
    have h1 : includes (toLowerCase state.query) (toLowerCase (jsTrim state.query)) = true :=
      includes_lower toLowerCase happ _ _ (jsTrim_includes _)
    have h2 : includes (toLowerCase (blog.url.orStr [])) (toLowerCase state.query) = true := by
      have := includes_lower toLowerCase happ _ _ hquery
      rwa [hidem] at this
    have h3 := includes_trans _ _ _ h1 h2
    by_cases hurl : blog.url.truthy = true
    · have hj : blog.url.orStr [] = blog.url.joined := by
        cases hb : blog.url with
        | undefined => rfl
        | null => rfl
        | val s =>
          simp only [Js.orStr, Js.joined]
          split
          · rename_i he
            exact (List.isEmpty_iff.1 he).symm
          · rfl
      rw [hj] at h3
      exact includes_trans _ _ _ h3
        (Index.searchable_includes toLowerCase happ blog blog.url (by simp) hurl)
    · have hj : blog.url.orStr [] = [] := by
        cases hb : blog.url with
        | undefined => rfl
        | null => rfl
        | val s =>
          rw [hb] at hurl
          simp only [Js.truthy, Bool.not_eq_true', Bool.not_eq_false] at hurl
          simp [Js.orStr, hurl]
      rw [hj, hnil] at h3
      obtain ⟨a, b, hab⟩ := (includes_iff _ _).1 h3
      have hq : toLowerCase (jsTrim state.query) = [] := by
        have := congrArg List.length hab
        simp only [List.length_nil, List.length_append] at this
        exact List.length_eq_zero.1 (by omega)
      rw [hq]
      exact includes_nil _
  · intro field hfield
    unfold Talk.searchText
    apply includes_lower toLowerCase happ
    rw [includes_iff]
    simp only [List.mem_cons, List.mem_singleton, List.not_mem_nil, or_false] at hfield
    rcases hfield with rfl | rfl | rfl | rfl
    · exact ⟨[], " ".toList ++ jsJoin " ".toList talk.speakers.orEmpty ++ " ".toList ++
        jsJoin " ".toList talk.tags.orEmpty ++ " ".toList ++ talk.event.orStr [], by simp⟩
    · exact ⟨talk.title.interpolated ++ " ".toList, " ".toList ++
        jsJoin " ".toList talk.tags.orEmpty ++ " ".toList ++ talk.event.orStr [], by simp⟩
    · exact ⟨talk.title.interpolated ++ " ".toList ++ jsJoin " ".toList talk.speakers.orEmpty ++
        " ".toList, " ".toList ++ talk.event.orStr [], by simp⟩
    · exact ⟨talk.title.interpolated ++ " ".toList ++ jsJoin " ".toList talk.speakers.orEmpty ++
        " ".toList ++ jsJoin " ".toList talk.tags.orEmpty ++ " ".toList, [], by simp⟩
  · intro e he
    unfold Podcasts.items at he
    obtain ⟨ep, _, rfl⟩ := List.mem_map.1 he
    refine ⟨hidem _, ?_⟩
    intro field hfield
    apply includes_lower toLowerCase happ
    exact mem_jsJoin_includes _ _ _ hfield

/-- An instance: the blog `A` with the url "http://a" and the query "://a". -/
theorem search_text_fields_witness :
    (∀ s, asciiLower s = s.flatMap (fun c => [c.toLower])) ∧
    (∀ s, asciiLower (asciiLower s) = asciiLower s) ∧
    includes (asciiLower (sampleA.url.orStr [])) "://a".toList = true ∧
    ∀ sec ∈ Index.applyFilters asciiLower { query := "://a".toList } sampleASections,
      ∀ card ∈ sec.cards,
        card.search = .val (Index.searchable asciiLower sampleA) → card.hidden = false :=
  ⟨asciiLower_flatMap, asciiLower_asciiLower, by decide,
    (search_text_fields asciiLower (fun c => [c.toLower]) { query := "://a".toList }
      sampleASections sampleA sampleTalkLate samplePodcastState asciiLower_flatMap
      asciiLower_asciiLower rfl (by decide)).1.2.2⟩

/-- C18, the code at the failing input. "http" is a substring of the lower-cased url of the
talk `Late` and of the episode of 2024, but the text that `dist/talk.js` tests and the text
that `dist/podcasts.js` tests do not hold the url, so neither item passes the text filter:
both pages show the placeholder. The blog page finds the blog `A` by its url, and the search
text of `podcasts.js` holds the url of the episode, which its page shows for the same
query. -/
theorem url_not_searched :
    includes (asciiLower (sampleTalkLate.url.orStr [])) "http".toList = true ∧
    Talk.searchText asciiLower sampleTalkLate = "late bob  ".toList ∧
    (Talk.onSearchInput asciiLower { talks := [sampleTalkLate] } "http".toList).2 =
      some (.placeholder "No results found.".toList) ∧
    includes (asciiLower (sampleEpisode2024.url.orStr [])) "http".toList = true ∧
    (Podcasts.items asciiLower { episodes := [sampleEpisode2024] }).map (fun e => e.search) =
      ["one show 2024-05-01".toList] ∧
    (Podcasts.onSearchInput asciiLower { episodes := [sampleEpisode2024] } "http".toList).2 =
      .placeholder "No episodes match.".toList ∧
    sampleASections.map (fun sec => sec.cards.map (fun card => card.search)) =
      [[.val "a http://a".toList]] ∧
    (Index.onSearch asciiLower {} sampleASections "http".toList).2.map
        (fun sec => sec.cards.map (fun card => card.hidden)) = [[false]] ∧
    (PodcastsLegacy.items asciiLower [sampleEpisode2024]).map (fun e => e.search) =
      ["one show 2024-05-01 http://1".toList] ∧
    (PodcastsLegacy.render asciiLower codeUnitCompare [sampleEpisode2024] []
        "http".toList).sectionList.map
        (fun sec => (sec.year, sec.items.map (fun e => e.ep.episode_title))) =
      [("2024".toList, [.val "One".toList])] := by
  decide

/-! ### The static and the live talk page -/

theorem decVal_inj_yearKey (a b : Str) (ha : IsYearKey a) (hb : IsYearKey b)
    (h : decVal a = decVal b) : a = b := by
  by_contra hne
  rcases strLt_connex a b hne with hlt | hlt
  · have := decVal_lt_of_strLt a b (by rw [ha.1, hb.1]) ha.2 hb.2 hlt
    omega
  · have := decVal_lt_of_strLt b a (by rw [ha.1, hb.1]) hb.2 ha.2 hlt
    omega

theorem liveYears_desc {ι : Type} (g : List (Str × List ι)) (hnd : (mapKeys g).Nodup) :
    ((jsSort defaultCmp (objectKeys g)).reverse).Pairwise (fun a b => strLt b a = true) := by
  rw [List.pairwise_reverse]
  apply jsSort_default_sorted
  rw [(objectKeys_perm _).nodup_iff]
  exact hnd

theorem Talk.shown_unfiltered (toLowerCase : Str → Str) (talks : List RawItem) :
    talks.filter (Talk.shown toLowerCase [] []) = talks := by
  rw [List.filter_eq_self]
  intro t _
  rfl

theorem Talk.consistent_facts (env : DateEnv) (t : RawItem) (h : Talk.Consistent env t) :
    ((Staticgen.normalizeData t .talk).title.truthy &&
        (Staticgen.normalizeData t .talk).url.truthy) = true ∧
      (env.newDate (Staticgen.normalizeData t .talk).date).isSome = true ∧
      IsYearKey (Talk.groupKey t) ∧
      Staticgen.yearOf env (Staticgen.normalizeData t .talk) =
        some (decVal (Talk.groupKey t) : Int) := by
  obtain ⟨ht, hu, d, ts, hd, hp, hk, hy⟩ := h
  have hdate : env.newDate (Staticgen.normalizeData t .talk).date = some ts := by
    simp [Staticgen.normalizeData, hd, DateEnv.newDate, hp]
  have hkey : Talk.groupKey t = d.take 4 := by
    simp [Talk.groupKey, Talk.yearOf, hd]
  refine ⟨?_, ?_, ?_, ?_⟩
  · simp [Staticgen.normalizeData, ht, hu]
  · rw [hdate]
    rfl
  · rw [hkey]
    exact hk
  · unfold Staticgen.yearOf
    rw [hdate, hkey]
    simp [DateEnv.getFullYear, hy]

/-- The years of the static talk page, for talks the two pages read alike: the numbers of
the live keys, in the order of the live page. -/
theorem Staticgen.talk_years (env : DateEnv) (talks : List RawItem) (ys : List Str)
    (h : ∀ t ∈ talks, Talk.Consistent env t)
    (hmem : ∀ k, k ∈ ys ↔ ∃ t ∈ talks, Talk.groupKey t = k)
    (hdesc : ys.Pairwise (fun a b => strLt b a = true)) :
    jsSort Staticgen.byYearDesc
        (mapKeys (groupLoop (Staticgen.yearOf env) (fun item => item)
          (Staticgen.sortItems env (talks.map (fun item => Staticgen.normalizeData item .talk))))) =
      ys.map (fun k => some (decVal k : Int)) := by
  have hyk : ∀ k ∈ ys, IsYearKey k := by
    intro k hk
    obtain ⟨t, ht, rfl⟩ := (hmem k).1 hk
    exact (Talk.consistent_facts env t (h t ht)).2.2.1
  have hinv := groupLoop_inv (Staticgen.yearOf env) (fun item => item)
    (Staticgen.sortItems env (talks.map (fun item => Staticgen.normalizeData item .talk)))
  have hitems : ∀ i, i ∈ Staticgen.sortItems env
      (talks.map (fun item => Staticgen.normalizeData item .talk)) ↔
      ∃ t ∈ talks, Staticgen.normalizeData t .talk = i := by
    intro i
    unfold Staticgen.sortItems
    rw [mem_jsSort, List.mem_filter, List.mem_map]
    constructor
    · rintro ⟨⟨t, ht, rfl⟩, _⟩
      exact ⟨t, ht, rfl⟩
    · rintro ⟨t, ht, rfl⟩
      exact ⟨⟨t, ht, rfl⟩, (Talk.consistent_facts env t (h t ht)).1⟩
  have hkeys : ∀ y, y ∈ mapKeys (groupLoop (Staticgen.yearOf env) (fun item => item)
      (Staticgen.sortItems env (talks.map (fun item => Staticgen.normalizeData item .talk)))) ↔
      y ∈ ys.map (fun k => some (decVal k : Int)) := by
    intro y
    rw [hinv.2.1 y, List.mem_map]
    constructor
    · rintro ⟨i, hi, rfl⟩
      obtain ⟨t, ht, rfl⟩ := (hitems i).1 hi
      exact ⟨Talk.groupKey t, (hmem _).2 ⟨t, ht, rfl⟩,
        ((Talk.consistent_facts env t (h t ht)).2.2.2).symm⟩
    · rintro ⟨k, hk, rfl⟩
      obtain ⟨t, ht, rfl⟩ := (hmem k).1 hk
      exact ⟨Staticgen.normalizeData t .talk, (hitems _).2 ⟨t, ht, rfl⟩,
        (Talk.consistent_facts env t (h t ht)).2.2.2⟩
  have hstrict : (ys.map (fun k => some (decVal k : Int))).Pairwise
      (fun a b => ∃ ta tb : Int, a = some ta ∧ b = some tb ∧ tb < ta) := by
    rw [List.pairwise_map]
    refine List.Pairwise.imp_of_mem ?_ hdesc
    intro a b ha hb hab
    have hka := hyk a ha
    have hkb := hyk b hb
    have := decVal_lt_of_strLt b a (by rw [hka.1, hkb.1]) hkb.2 hka.2 hab
    exact ⟨_, _, rfl, rfl, by exact_mod_cast this⟩
  have hsorted : (ys.map (fun k => some (decVal k : Int))).Pairwise
      (NotLater (fun y : Option Int => y)) :=
    hstrict.imp (fun ⟨ta, tb, ha, hb, hlt⟩ => ⟨ta, tb, ha, hb, le_of_lt hlt⟩)
  have hnodup : (ys.map (fun k => some (decVal k : Int))).Nodup := by
    refine hstrict.imp ?_
    rintro a b ⟨ta, tb, ha, hb, hlt⟩ hab
    rw [ha, hb] at hab
    have := Option.some.inj hab
    omega
  have hperm : (mapKeys (groupLoop (Staticgen.yearOf env) (fun item => item)
      (Staticgen.sortItems env (talks.map (fun item => Staticgen.normalizeData item .talk))))).Perm
      (ys.map (fun k => some (decVal k : Int))) :=
    (List.perm_ext_iff_of_nodup hinv.1 hnodup).2 hkeys
  have hcmp : Staticgen.byYearDesc = descCmp (fun y : Option Int => y) := rfl
  have hv : ∀ y ∈ ys.map (fun k => some (decVal k : Int)), y.isSome = true := by
    intro y hy
    obtain ⟨k, _, rfl⟩ := List.mem_map.1 hy
    rfl
  rw [hcmp, jsSort_eq_of_perm (fun y : Option Int => y) _ _ hperm hv (fun _ _ _ _ hab => hab),
    jsSort_of_sorted _ _ hsorted]

/-- C14, as amended. For talks that all have a title, a url and a date that parses, begins
with a year of four digits and lies in that year in local time, and for the unfiltered state
(no year selected, empty query): the live render of `dist/talk.js` returns, its keys are
years of four digits whose numbers are the years of the static talk page of `buildPage` of
`staticgen.js`, in the same order, and under each year the two pages show the same
titles. -/
theorem static_live_talks_agree (env : DateEnv) (toLowerCase : Str → Str)
    (talks : List RawItem) (h : ∀ t ∈ talks, Talk.Consistent env t) :
    ∃ r, Talk.render toLowerCase { talks := talks } [] [] = some r ∧
      (∀ k ∈ r.keys, IsYearKey k) ∧
      r.keys.map (fun k => some (decVal k : Int)) =
        (Staticgen.buildPage env .talk talks).map (fun sec => sec.year) ∧
      List.Forall₂
        (fun (live : YearSection Str RawItem)
            (static : YearSection (Option Int) Staticgen.Item) =>
          (live.items.map (fun t => t.title)).Perm (static.items.map (fun i => i.title)))
        r.sectionList (Staticgen.buildPage env .talk talks) := by
  have hdate : ∀ t ∈ ({ talks := talks } : Talk.State).talks, ∃ d, t.date = .val d := by
    intro t ht
    obtain ⟨_, _, d, _, hd, _⟩ := h t ht
    exact ⟨d, hd⟩
  have hfl : ({ talks := talks } : Talk.State).talks.filter (Talk.shown toLowerCase [] []) =
      talks := Talk.shown_unfiltered toLowerCase talks
  have hr := Talk.render_of_dates toLowerCase { talks := talks } [] [] hdate
  have hys : Talk.years toLowerCase { talks := talks } [] [] =
      (jsSort defaultCmp (objectKeys (groupLoop Talk.groupKey (fun t => t) talks))).reverse := by
    unfold Talk.years
    rw [hfl]
  rw [hfl, hys] at hr
  generalize hgen :
    (jsSort defaultCmp (objectKeys (groupLoop Talk.groupKey (fun t => t) talks))).reverse = ys
    at hr
  have hperm : ys.Perm (mapKeys (groupLoop Talk.groupKey (fun t => t) talks)) :=
    hgen ▸ liveYears_perm _
  have hdesc : ys.Pairwise (fun a b => strLt b a = true) :=
    hgen ▸ liveYears_desc _ (groupLoop_inv Talk.groupKey (fun t => t) talks).1
  obtain ⟨_, hmem, _⟩ := liveYears_partition Talk.groupKey talks ys hperm
  have hyk : ∀ k ∈ ys, IsYearKey k := by
    intro k hk
    obtain ⟨t, ht, rfl⟩ := (hmem k).1 hk
    exact (Talk.consistent_facts env t (h t ht)).2.2.1
  have hlist : (if ys.length = 0 then Rendered.placeholder "No results found.".toList
      else Rendered.sections (liveSections Talk.groupKey talks ys)).sectionList =
      liveSections Talk.groupKey talks ys :=
    Rendered.sectionList_ite _ _ _ (fun h0 => by rw [List.length_eq_zero.1 h0]; rfl)
  have hstatic := Staticgen.talk_years env talks ys h hmem hdesc
  refine ⟨_, hr, ?_, ?_, ?_⟩
  · intro k hk
    unfold Rendered.keys at hk
    rw [hlist, liveSections_year] at hk
    exact hyk k hk
  · unfold Rendered.keys
    rw [hlist, liveSections_year]
    unfold Staticgen.buildPage
    rw [Staticgen.sortAndGroup_eq, hstatic, List.map_map, List.map_map]
    rfl
  · rw [hlist]
    unfold Staticgen.buildPage
    rw [Staticgen.sortAndGroup_eq, hstatic]
    unfold liveSections
    rw [List.forall₂_map_left_iff, List.forall₂_map_right_iff, List.forall₂_map_right_iff,
      List.forall₂_same]
    intro y hy
    simp only [Staticgen.buildYearSection]
    have hS : (Staticgen.sortItems env
        (talks.map (fun item => Staticgen.normalizeData item .talk))).Perm
        (talks.map (fun item => Staticgen.normalizeData item .talk)) := by
      unfold Staticgen.sortItems
      refine (jsSort_perm _ _).trans (List.Perm.of_eq ?_)
      rw [List.filter_eq_self]
      intro i hi
      obtain ⟨t, ht, rfl⟩ := List.mem_map.1 hi
      exact (Talk.consistent_facts env t (h t ht)).1
    refine List.Perm.symm (((hS.filter _).map _).trans (List.Perm.of_eq ?_))
    rw [List.filter_map, List.map_map]
    have hfilter : talks.filter ((fun i => decide (Staticgen.yearOf env i =
          some (decVal y : Int))) ∘ fun item => Staticgen.normalizeData item .talk) =
        talks.filter (fun x => decide (Talk.groupKey x = y)) := by
      apply List.filter_congr
      intro t ht
      obtain ⟨_, _, hkt, hyt⟩ := Talk.consistent_facts env t (h t ht)
      simp only [Function.comp, hyt]
      apply decide_eq_decide.2
      constructor
      · intro heq
        have hnat : decVal (Talk.groupKey t) = decVal y := by
          exact_mod_cast Option.some.inj heq
        exact decVal_inj_yearKey _ _ hkt (hyk y hy) hnat
      · intro heq
        rw [heq]
    rw [hfilter]
    rfl

theorem static_live_talks_agree_witness :
    (∀ t ∈ [sampleTalk2022, sampleTalkEarly, sampleTalkLate], Talk.Consistent (isoEnv 0) t) ∧
    ∃ r, Talk.render asciiLower { talks := [sampleTalk2022, sampleTalkEarly, sampleTalkLate] }
        [] [] = some r ∧
      r.keys.map (fun k => some (decVal k : Int)) = [some 2024, some 2022] := by
  have hc : ∀ t ∈ [sampleTalk2022, sampleTalkEarly, sampleTalkLate],
      Talk.Consistent (isoEnv 0) t := by
    intro t ht
    simp only [List.mem_cons, List.mem_singleton, List.not_mem_nil, or_false] at ht
    rcases ht with rfl | rfl | rfl
    · exact ⟨rfl, rfl, "2022-09-01".toList, _, rfl, rfl, ⟨rfl, by decide⟩, by decide⟩
    · exact ⟨rfl, rfl, "2024-01-10".toList, _, rfl, rfl, ⟨rfl, by decide⟩, by decide⟩
    · exact ⟨rfl, rfl, "2024-03-05".toList, _, rfl, rfl, ⟨rfl, by decide⟩, by decide⟩
  refine ⟨hc, ?_⟩
  obtain ⟨r, hr, _, hkeys, _⟩ := static_live_talks_agree (isoEnv 0) asciiLower
    [sampleTalk2022, sampleTalkEarly, sampleTalkLate] hc
  refine ⟨r, hr, ?_⟩
  rw [hkeys]
  decide

/-- C14, counterexample. A talk without a url is left out of the static talk page, which then
has no year section, and is shown by the live page, under the year 2024. -/
theorem talk_without_url_only_live :
    Staticgen.buildPage (isoEnv 0) .talk [sampleTalkNoUrl] = [] ∧
    (Talk.render asciiLower { talks := [sampleTalkNoUrl] } [] []).map
        (fun r => r.sectionList.map (fun sec => (sec.year, sec.items.map (fun t => t.title)))) =
      some [("2024".toList, [.val "Keynote".toList])] := by
  decide

/-- C13, an instance: the title `<script>alert(1)</script> & more` in the card markup. -/
theorem escapeHtml_safe_witness :
    (Staticgen.buildCard (isoEnv 0) (fun _ => []) sampleScript).title =
        "&lt;script&gt;alert(1)&lt;/script&gt; &amp; more".toList ∧
      ∀ pre post, (Staticgen.buildCard (isoEnv 0) (fun _ => []) sampleScript).title ≠
        pre ++ "<script>".toList ++ post :=
  ⟨by decide, (escapeHtml_safe [] (isoEnv 0) (fun _ => []) sampleScript).2.2.1⟩

/-! ### A page shell without injection root -/

theorem leftmost_eq_none (matchAt : Str → Option (Str × List Str × Str)) :
    ∀ s : Str, (∀ pre suf, s = pre ++ suf → matchAt suf = none) → leftmost matchAt s = none
  | [], h => by
    simp [leftmost, h [] [] rfl]
  | c :: cs, h => by
    have ih := leftmost_eq_none matchAt cs (fun pre suf hs => h (c :: pre) suf (by rw [hs]; rfl))
    simp [leftmost, h [] (c :: cs) rfl, ih]

theorem findSub_eq_none (pat : Str) :
    ∀ s : Str, includes s pat = false → findSub pat s = none
  | [], h => by
    simp only [includes] at h
    simp [findSub, h]
  | c :: cs, h => by
    simp only [includes, Bool.or_eq_false_iff] at h
    simp [findSub, h.1, findSub_eq_none pat cs h.2]

theorem includes_of_suffix (s pre suf q : Str) (hs : s = pre ++ suf)
    (h : includes suf q = true) : includes s q = true := by
  obtain ⟨a, b, hab⟩ := (includes_iff suf q).1 h
  exact (includes_iff s q).2 ⟨pre ++ a, b, by rw [hs, hab]; simp⟩

theorem Staticgen.rootAt_includes (t s : Str) (r : Str × List Str × Str)
    (h : Staticgen.rootAt t s = some r) : includes s (Staticgen.idAttr t) = true := by
  unfold Staticgen.rootAt at h
  by_cases h1 : startsWith s "<div".toList = true
  · obtain ⟨post, hpost⟩ := (startsWith_iff s _).1 h1
    by_cases h2 : includes ((s.drop 4).takeWhile (fun c => c != '>')) (Staticgen.idAttr t) = true
    · obtain ⟨a, b, hab⟩ := (includes_iff _ _).1 h2
      have hsplit := List.takeWhile_append_dropWhile (fun c => c != '>') (s.drop 4)
      have hdrop : s = s.take 4 ++ s.drop 4 := (List.take_append_drop 4 s).symm
      apply (includes_iff s _).2
      refine ⟨s.take 4 ++ a, b ++ (s.drop 4).dropWhile (fun c => c != '>'), ?_⟩
      have h3 : a ++ Staticgen.idAttr t ++ b ++ (s.drop 4).dropWhile (fun c => c != '>') =
          s.drop 4 := by
        rw [← hab]
        exact hsplit
      have h4 : s.take 4 ++ a ++ Staticgen.idAttr t ++
          (b ++ (s.drop 4).dropWhile (fun c => c != '>')) =
          s.take 4 ++ (a ++ Staticgen.idAttr t ++ b ++
            (s.drop 4).dropWhile (fun c => c != '>')) := by
        simp only [List.append_assoc]
      rw [h4, h3]
      exact hdrop
    · rw [if_pos h1] at h
      simp only [h2] at h
      split at h <;> simp at h
  · rw [if_neg h1] at h
    cases h

theorem Staticgen.inject_of_no_root (contentHtml s : Str) :
    ∀ ts : List Str, (∀ t ∈ ts, includes s (Staticgen.idAttr t) = false) →
      Staticgen.inject contentHtml s ts = (s, false)
  | [], _ => rfl
  | t :: ts, h => by
    have hnone : leftmost (Staticgen.rootAt t) s = none := by
      apply leftmost_eq_none
      intro pre suf hs
      cases hr : Staticgen.rootAt t suf with
      | none => rfl
      | some r =>
        have := includes_of_suffix s pre suf _ hs (Staticgen.rootAt_includes t suf r hr)
        rw [h t (List.mem_cons_self _ _)] at this
        cases this
    simp only [Staticgen.inject, hnone]
    exact Staticgen.inject_of_no_root contentHtml s ts
      (fun u hu => h u (List.mem_cons_of_mem _ hu))

theorem Generate.navAt_includes (s : Str) (r : Str × List Str × Str)
    (h : Generate.navAt s = some r) :
    includes s (Staticgen.idAttr "yearNav".toList) = true := by
  unfold Generate.navAt at h
  by_cases h1 : startsWith s Generate.navOpen = true
  · obtain ⟨post, hpost⟩ := (startsWith_iff s _).1 h1
    apply (includes_iff s _).2
    refine ⟨"<div class=".toList ++ quoted "year-nav__inner".toList ++ " ".toList,
      ">".toList ++ post, ?_⟩
    rw [hpost]
    simp [Generate.navOpen, Staticgen.idAttr]
  · rw [if_neg h1] at h
    cases h

theorem Generate.yearsRootAt_includes (s : Str) (r : Str × List Str × Str)
    (h : Generate.yearsRootAt s = some r) :
    includes s (Staticgen.idAttr "yearsRoot".toList) = true := by
  unfold Generate.yearsRootAt at h
  by_cases h1 : startsWith s Generate.rootOpen = true
  · obtain ⟨post, hpost⟩ := (startsWith_iff s _).1 h1
    apply (includes_iff s _).2
    refine ⟨"<div ".toList, post, ?_⟩
    rw [hpost]
    simp [Generate.rootOpen, Staticgen.idAttr]
  · rw [if_neg h1] at h
    cases h

set_option maxRecDepth 8000 in
/-- The model injects into a root that is there: the content of `#talks-root` is replaced,
no warning is logged, and the stamp is put before `</body>`. -/
theorem Staticgen.assemble_injects :
    Staticgen.assemble "talk.html".toList sampleTalkShell "<section>$1</section>".toList
        sampleNow =
      { warnings := []
        written := "<body><div class=".toList ++ quoted "grid".toList ++ " id=".toList ++
          quoted "talks-root".toList ++ ("><section><div class=".toList ++
          quoted "grid".toList ++ " id=".toList ++ quoted "talks-root".toList ++
          "></section></div><!-- Static build: 2024-01-01T00:00:00.000Z -->\n</body>".toList) } := by
  decide

/-- C16, as amended. For a page shell with no `id="yearsRoot"`, `id="talks-root"`,
`id="podcasts-root"` and `id="yearNav"`: steps 4 to 6 of `buildPage` of `staticgen.js` log the
one warning "Warning: Could not find injection root in" with the name of the shell, and hand
to `writeFile` the shell with the stamp put before its first `</body>`, which is the shell
itself when it has no `</body>`; steps 5 to 10 of `main` of `generate.js` hand to `writeFile`
the shell with the script, template and noscript blocks removed and the stamp put at its
end, whatever the texts built from the data are. Neither build step fails. -/
theorem missing_root_page_written
    (htmlName shell contentHtml navHTML yearsHTML htmlBase jsonBase now : Str)
    (hroots : ∀ t ∈ Staticgen.targets, includes shell (Staticgen.idAttr t) = false)
    (hnav : includes shell (Staticgen.idAttr "yearNav".toList) = false) :
    Staticgen.assemble htmlName shell contentHtml now =
        { warnings := ["Warning: Could not find injection root in ".toList ++ htmlName]
          written := replaceWith (stringMatch "</body>".toList shell)
            (Staticgen.stamp now ++ '\n' :: "</body>".toList) shell } ∧
      (includes shell "</body>".toList = false →
        (Staticgen.assemble htmlName shell contentHtml now).written = shell) ∧
      Generate.assemble shell navHTML yearsHTML htmlBase jsonBase now =
        replaceWith
          (leftmost Generate.endAt
            (removeAll Generate.noscriptAt 0
              (removeAll Generate.templateAt 0 (removeAll Generate.scriptAt 0 shell))))
          (Generate.stamp htmlBase jsonBase now)
          (removeAll Generate.noscriptAt 0
            (removeAll Generate.templateAt 0 (removeAll Generate.scriptAt 0 shell))) := by
  have hinj := Staticgen.inject_of_no_root contentHtml shell Staticgen.targets hroots
  have hstatic : Staticgen.assemble htmlName shell contentHtml now =
      { warnings := ["Warning: Could not find injection root in ".toList ++ htmlName]
        written := replaceWith (stringMatch "</body>".toList shell)
          (Staticgen.stamp now ++ '\n' :: "</body>".toList) shell } := by
    unfold Staticgen.assemble
    rw [hinj]
    rfl
  refine ⟨hstatic, ?_, ?_⟩
  · intro hbody
    rw [hstatic]
    simp only [stringMatch, findSub_eq_none _ _ hbody, Option.map_none', replaceWith]
  · have hnavNone : leftmost Generate.navAt shell = none := by
      apply leftmost_eq_none
      intro pre suf hs
      cases hr : Generate.navAt suf with
      | none => rfl
      | some r =>
        have := includes_of_suffix shell pre suf _ hs (Generate.navAt_includes suf r hr)
        rw [hnav] at this
        cases this
    have hrootNone : leftmost Generate.yearsRootAt shell = none := by
      apply leftmost_eq_none
      intro pre suf hs
      cases hr : Generate.yearsRootAt suf with
      | none => rfl
      | some r =>
        have := includes_of_suffix shell pre suf _ hs (Generate.yearsRootAt_includes suf r hr)
        rw [hroots "yearsRoot".toList (by simp [Staticgen.targets])] at this
        cases this
    unfold Generate.assemble
    simp only [hnavNone, replaceWith, hrootNone]

set_option maxRecDepth 8000 in
theorem missing_root_page_written_witness :
    (∀ t ∈ Staticgen.targets, includes sampleShell (Staticgen.idAttr t) = false) ∧
    includes sampleShell (Staticgen.idAttr "yearNav".toList) = false ∧
    Staticgen.assemble "index.html".toList sampleShell "<section></section>".toList sampleNow =
      { warnings := ["Warning: Could not find injection root in index.html".toList]
        written := replaceWith (stringMatch "</body>".toList sampleShell)
          (Staticgen.stamp sampleNow ++ '\n' :: "</body>".toList) sampleShell } :=
  ⟨by decide, by decide,
    (missing_root_page_written "index.html".toList sampleShell "<section></section>".toList
      [] [] [] [] sampleNow (by decide) (by decide)).1⟩

set_option maxRecDepth 8000 in
/-- C16, counterexample. On the page shell `<html><body><p>no root</p></body></html>`, which
has no injection root, `buildPage` of `staticgen.js` logs a warning and writes the shell with
only the stamp added, and `main` of `generate.js` writes the shell with only its stamp added;
on the shell `<p>no root</p>`, both write the shell as it is. -/
theorem shell_without_root_is_written :
    Staticgen.assemble "index.html".toList sampleShell "<section></section>".toList sampleNow =
        { warnings := ["Warning: Could not find injection root in index.html".toList]
          written :=
            "<html><body><p>no root</p><!-- Static build: 2024-01-01T00:00:00.000Z -->\n</body></html>".toList } ∧
      Staticgen.assemble "index.html".toList sampleFragment "<section></section>".toList
          sampleNow =
        { warnings := ["Warning: Could not find injection root in index.html".toList]
          written := sampleFragment } ∧
      Generate.assemble sampleShell "<a>2024</a>".toList "<section></section>".toList
          "index.html".toList "blogs.json".toList sampleNow =
        ("<html><body><p>no root</p>  <!-- Static build generated from index.html + ".toList ++
          "blogs.json on 2024-01-01T00:00:00.000Z -->\n</body></html>".toList) ∧
      Generate.assemble sampleFragment "<a>2024</a>".toList "<section></section>".toList
          "index.html".toList "blogs.json".toList sampleNow = sampleFragment := by
  decide

end Lakehouse
